import Mathlib

/-!
Verification development for the finfetch digest engine
(`src/finfetch/digest/weekly.py`, `src/finfetch/digest/daily.py`,
`src/finfetch/cli.py`, `src/finfetch/errors.py`).

The cache hands the digest builders JSON-decoded Python values
(`SQLiteCache.get` runs `json.loads`), so the data model is a dynamic
value type `Val` mirroring the JSON-decoded Python values: `None`,
booleans, numbers (modelled as rationals; CPython floats are binary64,
but no claim below depends on rounding of arithmetic, only on which
operations raise), strings, lists and dicts.
Fallible Python operations (attribute access on the wrong type, `len`
of a number, `+` on mismatched types, `float()` of a bad string,
indexing) are embedded in an `Except PyErr` monad so that "the code
raises" is a first-class, provable outcome.
-/

/-- A JSON-decoded Python value, as returned by `SQLiteCache.get`. -/
inductive Val where
  | none : Val
  | bool (b : Bool) : Val
  | num (q : ℚ) : Val
  | str (s : String) : Val
  | list (xs : List Val) : Val
  | dict (kvs : List (String × Val)) : Val
deriving Repr

/-- Python truthiness of a value (`bool(v)`). -/
def Val.truthy : Val → Bool
  | .none => false
  | .bool b => b
  | .num q => q != 0
  | .str s => s != ""
  | .list xs => !xs.isEmpty
  | .dict kvs => !kvs.isEmpty

/-- Numeric view: Python treats `bool` as an `int` in arithmetic. -/
def Val.numView : Val → Option ℚ
  | .bool b => some (if b then 1 else 0)
  | .num q => some q
  | _ => Option.none

/-- Python `==` on the hashable (scalar) values that ever reach a set or
dict-key position in the digest code: numbers and booleans compare by
numeric value (`True == 1`), strings by content, `None` only to itself.
Containers are unhashable in Python, and every code path that compares
keys raises `TypeError` on containers before comparing, so container
equality is never consulted. -/
def pyEq (a b : Val) : Bool :=
  match a.numView, b.numView with
  | some x, some y => x == y
  | _, _ =>
    match a, b with
    | .none, .none => true
    | .str s, .str t => s == t
    | _, _ => false

/-- Whether a value is hashable in Python (usable in a `set` or as a dict key). -/
def Val.hashable : Val → Bool
  | .list _ => false
  | .dict _ => false
  | _ => true

/-- Python exceptions that the embedded digest code can raise. -/
inductive PyErr where
  | typeErr (msg : String) : PyErr
  | attrErr (msg : String) : PyErr
  | keyErr (msg : String) : PyErr
  | idxErr (msg : String) : PyErr
  | valueErr (msg : String) : PyErr
deriving Repr, DecidableEq

/-- Result monad for the embedded Python code: either a value or a raised exception. -/
abbrev PyM (α : Type) := Except PyErr α

/-- Python `v.get(k)` (dict method, default `None`). On a non-dict it is an
`AttributeError`. JSON objects with duplicate keys keep the last occurrence,
matching `json.loads`. -/
def vget (v : Val) (k : String) : PyM Val :=
  match v with
  | .dict kvs => .ok ((((kvs.filter (fun p => p.1 == k)).getLast?).map Prod.snd).getD .none)
  | _ => .error (.attrErr "object has no attribute get")

/-- Python `v.get(k, d)` with an explicit default. -/
def vgetD (v : Val) (k : String) (d : Val) : PyM Val :=
  match v with
  | .dict kvs => .ok ((((kvs.filter (fun p => p.1 == k)).getLast?).map Prod.snd).getD d)
  | _ => .error (.attrErr "object has no attribute get")

/-- Python `len(v)`. -/
def vlen (v : Val) : PyM Nat :=
  match v with
  | .str s => .ok s.length
  | .list xs => .ok xs.length
  | .dict kvs => .ok kvs.length
  | _ => .error (.typeErr "object has no len")

/-- Python `v[i]` for an integer index: lists and strings support negative
indices and raise `IndexError` out of range; subscripting a JSON-decoded dict
with an integer raises `KeyError` (its keys are strings); anything else raises
`TypeError`. -/
def vindex (v : Val) (i : Int) : PyM Val :=
  match v with
  | .list xs =>
    let j := if i < 0 then i + xs.length else i
    if h : 0 ≤ j ∧ j.toNat < xs.length then .ok (xs.get ⟨j.toNat, h.2⟩)
    else .error (.idxErr "list index out of range")
  | .str s =>
    let j := if i < 0 then i + s.length else i
    if h : 0 ≤ j ∧ j.toNat < s.data.length then .ok (.str (String.mk [s.data.get ⟨j.toNat, h.2⟩]))
    else .error (.idxErr "string index out of range")
  | .dict _ => .error (.keyErr "dict has no integer key")
  | _ => .error (.typeErr "object is not subscriptable")

/-- Python `a or b` (value-returning: `a` if truthy, else `b`). -/
def orVal (a b : Val) : Val :=
  if a.truthy then a else b

/-- Python `a + b` on JSON-decoded values: list and string concatenation,
numeric addition (booleans count as ints); every other combination raises
`TypeError`. -/
def pyAdd (a b : Val) : PyM Val :=
  match a, b with
  | .list xs, .list ys => .ok (.list (xs ++ ys))
  | .str s, .str t => .ok (.str (s ++ t))
  | _, _ =>
    match a.numView, b.numView with
    | some x, some y => .ok (.num (x + y))
    | _, _ => .error (.typeErr "unsupported operand types for +")

/-- Python iteration `for item in v`: lists yield elements, strings yield
one-character strings, dicts yield their keys; other values raise `TypeError`. -/
def iterVal (v : Val) : PyM (List Val) :=
  match v with
  | .list xs => .ok xs
  | .str s => .ok (s.data.map (fun c => .str (String.mk [c])))
  | .dict kvs => .ok (kvs.map (fun p => .str p.1))
  | _ => .error (.typeErr "object is not iterable")

/-- Decimal rendering of a rational; exact for integers. Used by `pyStr`
for numbers; no claim below depends on the digits of a non-integer number. -/
def qToString (q : ℚ) : String :=
  if q.den == 1 then toString q.num else toString q.num ++ "/" ++ toString q.den

/-- Python `str(v)` as used in f-string interpolation. Exact for `None`,
booleans, strings and integers. Every theorem below confines interpolated
values to strings, so the container and non-integer cases (Python would
print a full repr) are rendered with a fixed marker and never reached
under any theorem hypothesis. -/
def pyStr : Val → String
  | .none => "None"
  | .bool true => "True"
  | .bool false => "False"
  | .num q => qToString q
  | .str s => s
  | .list _ => "[container]"
  | .dict _ => "[container]"

/-- Splitter on a single separator character, keeping empty pieces — the
semantics shared by Python `str.split(sep)` and `str.fromisoformat`-style
field splitting for one-character separators. `cur` is the current piece,
reversed. -/
def splitOnCharAux (c : Char) : List Char → List Char → List String
  | [], cur => [String.mk cur.reverse]
  | x :: rest, cur =>
    if x == c then String.mk cur.reverse :: splitOnCharAux c rest []
    else splitOnCharAux c rest (x :: cur)

/-- Split a string on a single character, keeping empty pieces. -/
def splitOnChar (s : String) (c : Char) : List String :=
  splitOnCharAux c s.data []

/-- Value of a decimal digit character. -/
def digitVal (c : Char) : Option Nat :=
  if '0' ≤ c && c ≤ '9' then some (c.toNat - 48) else Option.none

/-- Parse a non-empty all-digit string (the semantics of `String.toNat?`,
restated structurally so that proofs can evaluate it). -/
def strToNatQ (s : String) : Option Nat :=
  if s.data.isEmpty then Option.none
  else s.data.foldl
    (fun acc c =>
      match acc, digitVal c with
      | some n, some d => some (n * 10 + d)
      | _, _ => Option.none)
    (some 0)

/-- ASCII lowercasing of one character (Python `str.lower` restricted to
ASCII; a non-ASCII character never matters to the tokenizers below). -/
def lowerChar (c : Char) : Char :=
  if 'A' ≤ c && c ≤ 'Z' then Char.ofNat (c.toNat + 32) else c

/-- ASCII uppercasing of one character (Python `str.upper` restricted to ASCII). -/
def upperChar (c : Char) : Char :=
  if 'a' ≤ c && c ≤ 'z' then Char.ofNat (c.toNat - 32) else c

/-- Python `s.lower()` (ASCII model). -/
def strLower (s : String) : String :=
  String.mk (s.data.map lowerChar)

/-- Python `s.upper()` (ASCII model). -/
def strUpper (s : String) : String :=
  String.mk (s.data.map upperChar)

/-- Python whitespace for `str.strip()` (ASCII model). -/
def isSpaceChar (c : Char) : Bool :=
  c == ' ' || c == '\t' || c == '\n' || c == '\r' || c == '\x0b' || c == '\x0c'

/-- Python `s.strip()` with no arguments (ASCII whitespace model). -/
def strStrip (s : String) : String :=
  String.mk (((s.data.dropWhile isSpaceChar).reverse.dropWhile isSpaceChar).reverse)

/-- Python `s.replace("# ", "")`: remove every occurrence, scanning left to
right (the only `str.replace` call in the digest code, cli-visible at
weekly.py line 387 and daily.py line 245). -/
def removeHashSpace : List Char → List Char
  | '#' :: ' ' :: rest => removeHashSpace rest
  | c :: rest => c :: removeHashSpace rest
  | [] => []

/-- `str.replace("# ", "")` on strings. -/
def strRemoveHashSpace (s : String) : String :=
  String.mk (removeHashSpace s.data)

/-- Parse the plain decimal strings accepted by Python `float()` in the form
`[sign]digits[.digits]`. Python additionally accepts exponents, `inf`, `nan`
and underscores; those extras are not modelled — no claim below feeds such a
string to `float()`. -/
def parseFloatStr (s : String) : Option ℚ :=
  let core : String → Option ℚ := fun t =>
    match splitOnChar t '.' with
    | [a] => (strToNatQ a).map (fun n => (n : ℚ))
    | [a, b] =>
      match strToNatQ a, strToNatQ b with
      | some n, some f => some ((n : ℚ) + (f : ℚ) / ((10 : ℚ) ^ b.length))
      | _, _ => Option.none
    | _ => Option.none
  if s.data.take 1 == ['-'] then (core (String.mk (s.data.drop 1))).map Neg.neg
  else if s.data.take 1 == ['+'] then core (String.mk (s.data.drop 1))
  else core s

/-- Python `float(v)`: numbers pass through, booleans become 0/1, strings are
stripped and parsed (raising `ValueError` on failure), everything else raises
`TypeError`. -/
def pyFloat (v : Val) : PyM ℚ :=
  match v with
  | .num q => .ok q
  | .bool b => .ok (if b then 1 else 0)
  | .str s =>
    match parseFloatStr (strStrip s) with
    | some q => .ok q
    | Option.none => .error (.valueErr "could not convert string to float")
  | _ => .error (.typeErr "float() argument must be a string or a number")

/-- Round a rational to the nearest integer, ties to even — the rounding of
Python `format(x, ".2f")` (up to binary-float representation error, on which
no claim depends). -/
def roundHalfEven (x : ℚ) : ℤ :=
  let f := ⌊x⌋
  let r := x - f
  if r < 1/2 then f
  else if r > 1/2 then f + 1
  else if f % 2 = 0 then f else f + 1

/-- Python `f"{x:.2f}"` for a float `x`. -/
def formatFixed2 (x : ℚ) : String :=
  let n := roundHalfEven (x * 100)
  let sign := if n < 0 then "-" else ""
  let m := n.natAbs
  let r := m % 100
  sign ++ toString (m / 100) ++ "." ++ (if r < 10 then "0" else "") ++ toString r

/-!
Datetime model. A naive `datetime.datetime` is modelled as its count of
seconds since 0001-01-01T00:00:00 (an `Int`; all representable datetimes are
in `[0, dtMaxSeconds]`, and `datetime.min` is 0). Sub-second precision is
dropped (no claim depends on it). `datetime.fromtimestamp` is modelled in
UTC; CPython uses local time, which shifts parsed numeric timestamps by a
constant and affects no claim below.
-/

/-- Gregorian leap-year test (as in Python `calendar.isleap`). -/
def isLeap (y : Nat) : Bool :=
  (y % 4 == 0 && y % 100 != 0) || y % 400 == 0

/-- Days in a month of the proleptic Gregorian calendar. -/
def daysInMonth (y m : Nat) : Nat :=
  if m == 2 then (if isLeap y then 29 else 28)
  else if m == 4 || m == 6 || m == 9 || m == 11 then 30
  else 31

/-- A Python `datetime.date` (year, month, day). -/
structure Pdate where
  year : Nat
  month : Nat
  day : Nat
deriving Repr, DecidableEq

/-- Days before January 1 of the given year, counted from 0001-01-01. -/
def daysBeforeYear (y : Nat) : Nat :=
  365 * (y - 1) + (y - 1) / 4 - (y - 1) / 100 + (y - 1) / 400

/-- Days before the first of the given month within the year. -/
def daysBeforeMonth (y m : Nat) : Nat :=
  ([0, 0, 31, 59, 90, 120, 151, 181, 212, 243, 273, 304, 334].getD m 0) +
    (if m > 2 && isLeap y then 1 else 0)

/-- Python `date.toordinal()`: 0001-01-01 is day 1. -/
def toOrdinal (d : Pdate) : Nat :=
  daysBeforeYear d.year + daysBeforeMonth d.year d.month + d.day

/-- Seconds since 0001-01-01T00:00:00 at midnight of the given date. -/
def dateSeconds (d : Pdate) : Int :=
  ((toOrdinal d - 1 : Nat) : Int) * 86400

/-- The model of `datetime.min` (0001-01-01T00:00:00). -/
def dtMinSeconds : Int := 0

/-- The model of `datetime.max` to whole seconds (9999-12-31T23:59:59). -/
def dtMaxSeconds : Int := dateSeconds ⟨9999, 12, 31⟩ + 86399

/-- Seconds from 0001-01-01 to the Unix epoch 1970-01-01. -/
def epoch1970 : Int := dateSeconds ⟨1970, 1, 1⟩

/-- Inverse of `toOrdinal` (proleptic Gregorian civil-from-days). -/
def ordinalToDate (n : Nat) : Pdate :=
  let z : Int := (n : Int) - 719163 + 719468
  let era : Int := (if z ≥ 0 then z else z - 146096) / 146097
  let doe : Nat := (z - era * 146097).toNat
  let yoe : Nat := (doe - doe / 1460 + doe / 36524 - doe / 146096) / 365
  let y : Int := (yoe : Int) + era * 400
  let doy : Nat := doe - (365 * yoe + yoe / 4 - yoe / 100)
  let mp : Nat := (5 * doy + 2) / 153
  let d : Nat := doy - (153 * mp + 2) / 5 + 1
  let m : Nat := if mp < 10 then mp + 3 else mp - 9
  ⟨(y + (if m ≤ 2 then 1 else 0)).toNat, m, d⟩

/-- Zero-padded two-digit rendering. -/
def pad2 (n : Nat) : String :=
  (if n < 10 then "0" else "") ++ toString n

/-- Zero-padded four-digit rendering. -/
def pad4 (n : Nat) : String :=
  (if n < 10 then "000" else if n < 100 then "00" else if n < 1000 then "0" else "") ++ toString n

/-- Python `date.isoformat()`. -/
def isoDate (d : Pdate) : String :=
  pad4 d.year ++ "-" ++ pad2 d.month ++ "-" ++ pad2 d.day

/-- Python `datetime.isoformat()` for a whole-second datetime. -/
def isoDateTime (t : Int) : String :=
  let secs : Nat := t.toNat
  let days := secs / 86400
  let rem := secs % 86400
  isoDate (ordinalToDate (days + 1)) ++ "T" ++
    pad2 (rem / 3600) ++ ":" ++ pad2 (rem % 3600 / 60) ++ ":" ++ pad2 (rem % 60)

/-- Parse `YYYY-MM-DD` with calendar validation, as `date.fromisoformat`. -/
def parseIsoDate (s : String) : Option Pdate :=
  match splitOnChar s '-' with
  | [ys, ms, ds] =>
    if ys.length == 4 && ms.length == 2 && ds.length == 2 then
      match strToNatQ ys, strToNatQ ms, strToNatQ ds with
      | some y, some m, some d =>
        if 1 ≤ y && 1 ≤ m && m ≤ 12 && 1 ≤ d && d ≤ daysInMonth y m then some ⟨y, m, d⟩
        else Option.none
      | _, _, _ => Option.none
    else Option.none
  | _ => Option.none

/-- Parse `HH:MM[:SS[.ffffff]]` to seconds within the day (fraction dropped). -/
def parseIsoTime (s : String) : Option Nat :=
  match splitOnChar s ':' with
  | [hs, ms] =>
    if hs.length == 2 && ms.length == 2 then
      match strToNatQ hs, strToNatQ ms with
      | some h, some m => if h ≤ 23 && m ≤ 59 then some (h * 3600 + m * 60) else Option.none
      | _, _ => Option.none
    else Option.none
  | [hs, ms, ss] =>
    let sECS := (splitOnChar ss '.').headD ""
    if hs.length == 2 && ms.length == 2 && sECS.length == 2 then
      match strToNatQ hs, strToNatQ ms, strToNatQ sECS with
      | some h, some m, some sec =>
        if h ≤ 23 && m ≤ 59 && sec ≤ 59 then some (h * 3600 + m * 60 + sec) else Option.none
      | _, _, _ => Option.none
    else Option.none
  | _ => Option.none

/-- Parse the ISO-8601 datetime strings accepted by the CPython
`datetime.fromisoformat` this code calls: a date, optionally followed by a
separator and a time. Timezone suffixes are not modelled (no claim feeds
one in). -/
def parseIsoDateTimeStr (s : String) : Option Int :=
  if s.length < 10 then Option.none
  else
    match parseIsoDate (String.mk (s.data.take 10)) with
    | some d =>
      if (s.data.drop 10).isEmpty then some (dateSeconds d)
      else if (s.data.drop 10).take 1 == ['T'] || (s.data.drop 10).take 1 == [' '] then
        (parseIsoTime (String.mk ((s.data.drop 10).drop 1))).map
          (fun tm : Nat => dateSeconds d + (tm : Int))
      else Option.none
    | Option.none => Option.none

/-- Embedding of `_parse_datetime` (weekly.py lines 34-47) on JSON-decoded
values: a number is treated as epoch seconds via `datetime.fromtimestamp`
(out-of-range values raise there and degrade to `None`; Python `bool` is an
`int` instance), a string is ISO-parsed, anything else gives `None`. The
`isinstance(value, datetime.datetime)` branch is unreachable from the cache,
whose values are JSON-decoded. -/
def parseDatetimeVal : Val → Option Int
  | .num q =>
    let t := epoch1970 + ⌊q⌋
    if dtMinSeconds ≤ t && t ≤ dtMaxSeconds then some t else Option.none
  | .bool b =>
    let t := epoch1970 + (if b then 1 else 0)
    if dtMinSeconds ≤ t && t ≤ dtMaxSeconds then some t else Option.none
  | .str s => parseIsoDateTimeStr s
  | _ => Option.none

/-!
Lexicon-based sentiment and news normalization
(weekly.py lines 12-32, 82-146; shared by daily.py through imports).
-/

/-- The fixed positive-word set `_POS_WORDS` (weekly.py lines 12-17). -/
def posWords : List String :=
  ["beat", "beats", "surge", "surges", "soar", "soars", "soared",
   "record", "strong", "stronger", "growth", "profit", "profits",
   "up", "upgrade", "upgrades", "bull", "bullish", "raises", "raise",
   "accelerate", "accelerates", "wins", "win", "positive", "guidance"]

/-- The fixed negative-word set `_NEG_WORDS` (weekly.py lines 18-23). -/
def negWords : List String :=
  ["miss", "misses", "slump", "slumps", "drop", "drops", "dropped",
   "weak", "weaker", "decline", "declines", "down", "downgrade",
   "downgrades", "bear", "bearish", "cuts", "cut", "slowdown",
   "loss", "losses", "negative", "warning", "warns"]

/-- The fixed stop-word set `_STOP_WORDS` (weekly.py lines 25-32). -/
def stopWords : List String :=
  ["the", "and", "for", "with", "from", "that", "this", "into", "over",
   "after", "before", "ahead", "amid", "as", "at", "by", "on", "in",
   "to", "of", "a", "an", "is", "are", "be", "its", "it", "their",
   "shares", "stock", "stocks", "company", "corp", "inc", "ltd",
   "co", "report", "reports", "quarter", "q1", "q2", "q3", "q4",
   "year", "years", "says", "said", "saying"]

/-- A character matched by the pattern `[a-z0-9]`. -/
def isWordChar (c : Char) : Bool :=
  ('a' ≤ c && c ≤ 'z') || ('0' ≤ c && c ≤ '9')

/-- Scanner for `re.findall(r"[a-z0-9]+", s)`: maximal runs of word
characters, in order. `cur` is the current run, reversed. -/
def tokensAux : List Char → List Char → List String
  | [], cur => if cur.isEmpty then [] else [String.mk cur.reverse]
  | c :: rest, cur =>
    if isWordChar c then tokensAux rest (c :: cur)
    else if cur.isEmpty then tokensAux rest cur
    else String.mk cur.reverse :: tokensAux rest []

/-- `re.findall(r"[a-z0-9]+", s.lower())`. Lowercasing is modelled on
ASCII (`lowerChar`); a non-ASCII character never matches
`[a-z0-9]` before or after lowercasing, so tokenization agrees with
CPython on all inputs without exotic one-to-many case mappings. -/
def strTokens (s : String) : List String :=
  tokensAux (s.data.map lowerChar) []

/-- Embedding of `_headline_sentiment` (weekly.py lines 102-110): +1 when
some token is positive and none negative, -1 in the symmetric case, 0
otherwise. Python scans `set(words)`; any-existence over the set equals
any-existence over the list. -/
def headlineSentiment (title : String) : Int :=
  let words := strTokens title
  let pos := words.any (fun w => posWords.contains w)
  let neg := words.any (fun w => negWords.contains w)
  if pos && !neg then 1
  else if neg && !pos then -1
  else 0

/-- `_headline_sentiment` applied to a dynamic value: Python calls
`title.lower()`, so a non-string raises `AttributeError`. -/
def headlineSentimentV (v : Val) : PyM Int :=
  match v with
  | .str s => .ok (headlineSentiment s)
  | _ => .error (.attrErr "object has no attribute lower")

/-- A normalized news item as built by `_normalize_news` (weekly.py lines
91-98): the raw field values (still dynamically typed) plus the parsed
timestamp. `nid` is the `"id"` entry. -/
structure NewsItemN where
  nid : Val
  title : Val
  url : Val
  source : Val
  published_at : Option Int
  provider : Val
deriving Repr

/-- Build one normalized record (weekly.py lines 90-98). -/
def mkNewsRecord (item : Val) : PyM NewsItemN := do
  let pa ← vget item "published_at"
  let paAlt ← vget item "publishedAt"
  let i ← vget item "id"
  let t ← vgetD item "title" (.str "")
  let u ← vgetD item "url" (.str "")
  let s ← vgetD item "source" (.str "Unknown")
  let p ← vgetD item "provider" (.str "unknown")
  pure ⟨i, t, u, s, parseDatetimeVal (orVal pa paAlt), p⟩

/-- The deduplication loop of `_normalize_news` (weekly.py lines 83-98):
the identity key is `item.get("id") or item.get("url") or item.get("title")`;
items whose key was already seen are skipped (first occurrence wins).
Membership in the Python `set` hashes the key, so an unhashable key raises
`TypeError` there. -/
def normLoop : List Val → List Val → List NewsItemN → PyM (List NewsItemN)
  | [], _, acc => .ok acc.reverse
  | item :: rest, seen, acc => do
    let i ← vget item "id"
    let u ← vget item "url"
    let t ← vget item "title"
    let key := orVal (orVal i u) t
    if !key.hashable then .error (.typeErr "unhashable type")
    else if seen.any (fun k => pyEq key k) then normLoop rest seen acc
    else do
      let r ← mkNewsRecord item
      normLoop rest (key :: seen) (r :: acc)

/-- The sort comparator of weekly.py line 99: descending by
`published_at or datetime.min` (every datetime is truthy in Python, so the
`or` only replaces `None`). `insertionSort` with this total preorder keeps
tied elements in original order, exactly like CPython's stable
`list.sort(..., reverse=True)`; a stable sorted permutation is unique, so
the choice of algorithm is immaterial. -/
def newsDescLe (a b : NewsItemN) : Bool :=
  decide ((b.published_at.getD dtMinSeconds) ≤ (a.published_at.getD dtMinSeconds))

/-- Embedding of `_normalize_news` (weekly.py lines 82-100). -/
def normalizeNews (items : List Val) : PyM (List NewsItemN) := do
  let l ← normLoop items [] []
  pure (l.insertionSort (fun a b => newsDescLe a b = true))

/-- The recency weight of `_weighted_sentiment` (weekly.py lines 120-125):
`max(0.2, 1 - days/7)` with `days = max(0.0, (now - dt).days)` for a parsed
timestamp (`timedelta.days` is floor division), a flat `0.5` otherwise. -/
def sentWeight (now : Int) (pa : Option Int) : ℚ :=
  match pa with
  | some dt =>
    let days : ℚ := max 0 ((Int.fdiv (now - dt) 86400 : ℤ) : ℚ)
    max (1/5) (1 - days / 7)
  | Option.none => 1/2

/-- The accumulation loop of `_weighted_sentiment` (weekly.py lines
118-127), carrying `total_weight` and `score_sum`. -/
def sentAccum (now : Int) : List NewsItemN → ℚ → ℚ → PyM (ℚ × ℚ)
  | [], tw, ss => .ok (tw, ss)
  | item :: rest, tw, ss => do
    let s ← headlineSentimentV item.title
    let w := sentWeight now item.published_at
    sentAccum now rest (tw + w) (ss + (s : ℚ) * w)

/-- Embedding of `_weighted_sentiment` (weekly.py lines 112-135). -/
def weightedSentiment (now : Int) (news : List NewsItemN) : PyM (String × ℚ) :=
  if news.isEmpty then .ok ("Neutral", 0)
  else do
    let acc ← sentAccum now news 0 0
    if acc.1 == 0 then pure ("Neutral", 0)
    else
      let score := acc.2 / acc.1
      if score ≥ 3/20 then pure ("Positive", score)
      else if score ≤ -(3/20) then pure ("Negative", score)
      else pure ("Neutral", score)

/-- `item.get("title", "").lower()` tokenized, as in `_extract_themes`
(weekly.py line 140): a non-string title raises `AttributeError`. -/
def titleTokens (v : Val) : PyM (List String) :=
  match v with
  | .str s => .ok (strTokens s)
  | _ => .error (.attrErr "object has no attribute lower")

/-- Increment the count of `w`, preserving first-insertion order like a
Python dict (weekly.py line 144). -/
def themeBump : List (String × Nat) → String → List (String × Nat)
  | [], w => [(w, 1)]
  | (x, n) :: rest, w =>
    if x == w then (x, n + 1) :: rest else (x, n) :: themeBump rest w

/-- The counting loop of `_extract_themes` (weekly.py lines 139-144):
tokens shorter than 3 characters or in the stop-word set are discarded;
every remaining occurrence counts. -/
def themeAccum : List NewsItemN → List (String × Nat) → PyM (List (String × Nat))
  | [], acc => .ok acc
  | item :: rest, acc => do
    let ws ← titleTokens item.title
    themeAccum rest (ws.foldl
      (fun a w => if w.length < 3 || stopWords.contains w then a else themeBump a w) acc)

/-- The comparator of weekly.py line 145: ascending by `(-count, word)`. -/
def themeLe (a b : String × Nat) : Bool :=
  if a.2 == b.2 then decide (a.1 ≤ b.1) else decide (b.2 < a.2)

/-- Embedding of `_extract_themes` with its default limit 6
(weekly.py lines 137-146). -/
def extractThemes (news : List NewsItemN) : PyM (List (String × Nat)) := do
  let counts ← themeAccum news []
  pure ((counts.insertionSort (fun a b => themeLe a b = true)).take 6)

/-- Embedding of `_filter_news_last_24h` (daily.py lines 19-31): keep
items whose parsed timestamp lies in `[end - 24h, end]`, both bounds
inclusive, where `end` defaults to `now`; items without a parsed
timestamp are dropped. -/
def filterNewsLast24h (items : List NewsItemN) (end_time : Option Int) (now : Int) :
    List NewsItemN :=
  let e := end_time.getD now
  let start := e - 86400
  items.filter (fun n =>
    match n.published_at with
    | some dt => decide (start ≤ dt) && decide (dt ≤ e)
    | Option.none => false)

/-- The filter window's upper end used by the daily digest when a target
date is supplied: `datetime.combine(day, time(23, 59, 59))`
(daily.py line 49). -/
def dailyEndTime (day : Pdate) : Int :=
  dateSeconds day + (23 * 3600 + 59 * 60 + 59)

/-- ISO weekday (Monday = 1): ordinal day 1 (0001-01-01) was a Monday. -/
def isoWeekday (ord : Nat) : Nat :=
  (ord - 1) % 7 + 1

/-- Ordinal of the Monday of ISO week 1 of the given year (the week
containing January 4). -/
def isoWeek1Monday (y : Nat) : Nat :=
  let jan4 := toOrdinal ⟨y, 1, 4⟩
  jan4 - (isoWeekday jan4 - 1)

/-- Python `date.isocalendar()`: ISO (year, week, weekday). Only consumed
by the weekly digest's header/identity strings. -/
def isocalendar (d : Pdate) : Nat × Nat × Nat :=
  let ord := toOrdinal d
  let y := d.year
  if ord < isoWeek1Monday y then
    (y - 1, (ord - isoWeek1Monday (y - 1)) / 7 + 1, isoWeekday ord)
  else if isoWeek1Monday (y + 1) ≤ ord then
    (y + 1, 1, isoWeekday ord)
  else
    (y, (ord - isoWeek1Monday y) / 7 + 1, isoWeekday ord)

/-!
The digest builders. `generateWeeklyDigest` and `generateDailyDigest` below
embed the pure aggregation/rendering cores of `generate_weekly_digest`
(weekly.py lines 184-507) and `generate_daily_digest` (daily.py lines
34-365): everything those functions compute — the Markdown line list, the
CSV link rows, the prompt text, and the JSON payload — except the file
writes themselves. The module-level cache is passed as a function
`String → Val` (`None`, i.e. `Val.none`, for a miss), today's date and the
wall clock (`datetime.date.today()`/`datetime.datetime.now()`) as explicit
parameters. Both source functions rebind their `title` parameter inside
the headline loops (weekly.py lines 293, 344, 364; daily.py lines 151,
201, 221), so the prompt title and the JSON `"title"` field read the last
processed headline title; the embedding reproduces this shadowing.
-/

deriving instance DecidableEq for Except

/-- Strict lexicographic order on character lists by code point, as CPython
compares strings. -/
def charListLt : List Char → List Char → Bool
  | [], [] => false
  | [], _ :: _ => true
  | _ :: _, [] => false
  | a :: as, b :: bs => a < b || (a == b && charListLt as bs)

/-- CPython `<=` on strings (lexicographic by code point). -/
def strLeB (a b : String) : Bool :=
  charListLt a.data b.data || a == b

/-- `sorted([t.upper() for t in tickers])` (weekly.py line 198, daily.py
line 55): uppercase, then sort ascending. No whitespace trimming happens
here. -/
def tickersSorted (tickers : List String) : List String :=
  (tickers.map strUpper).insertionSort (fun a b => strLeB a b = true)

/-- One CSV link-table row (fieldnames of weekly.py lines 377-384). The
`source`, `title`, `url` and `provider` cells hold whatever dynamic values
the news items carried; `csv.DictWriter` would stringify them on write. -/
structure CsvRow where
  scope : String
  ticker : String
  source : Val
  title : Val
  url : Val
  published_at : String
  provider : Val
deriving Repr

/-- The per-ticker working state assembled by the cache-reading loop
(weekly.py lines 205-233, daily.py lines 61-90). -/
structure TickerRec where
  fund : Val
  prices : Val
  change : Option ℚ
  start_price : Val
  end_price : Val
  news : List NewsItemN
deriving Repr

/-- `(item.get("published_at") or "").isoformat() if isinstance(...) else ""`
(weekly.py line 303 and friends). -/
def paIso (pa : Option Int) : String :=
  match pa with
  | some dt => isoDateTime dt
  | Option.none => ""

/-- A float-or-`None` as a JSON value. -/
def optQ (c : Option ℚ) : Val :=
  match c with
  | some q => .num q
  | Option.none => .none

/-- The price-change computation (weekly.py lines 214-224 with indices
0 and -1, daily.py lines 71-81 with indices -2 and -1): guarded by
`if prices and len(prices) >= 2`, reads `prices[i].get("close")` (outside
the `try`), and computes `((end - start) / start) * 100` inside a
`try/except` that degrades any arithmetic failure to `None`. `start_price`
is checked for truthiness first, so the division is by a nonzero number. -/
def priceChange (prices : Val) (iStart iEnd : Int) : PyM (Option ℚ × Val × Val) := do
  if prices.truthy then do
    let n ← vlen prices
    if n ≥ 2 then do
      let pv0 ← vindex prices iStart
      let pv1 ← vindex prices iEnd
      let sp ← vget pv0 "close"
      let ep ← vget pv1 "close"
      let change : Option ℚ :=
        if sp.truthy then
          match ep.numView, sp.numView with
          | some e, some s => some ((e - s) / s * 100)
          | _, _ => Option.none
        else Option.none
      pure (change, sp, ep)
    else pure (Option.none, .none, .none)
  else pure (Option.none, .none, .none)

/-- Read one ticker's cache entries and build its record, weekly variant
(weekly.py lines 205-233): fundamentals `or {}`, prices `or []`, the two
news lists `or []` concatenated and normalized, weekly change from the
first and last price entries. -/
def buildTickerRecW (cache : String → Val) (t : String) : PyM TickerRec := do
  let fund := orVal (cache ("yahoo:fundamentals:" ++ t)) (.dict [])
  let prices := orVal (cache ("yahoo:prices:" ++ t ++ ":5d:1d")) (.list [])
  let yn := orVal (cache ("yahoo:news:" ++ t ++ ":latest")) (.list [])
  let fn := orVal (cache ("finnhub:news:" ++ t ++ ":latest")) (.list [])
  let merged ← pyAdd yn fn
  let items ← iterVal merged
  let news ← normalizeNews items
  let pc ← priceChange prices 0 (-1)
  pure ⟨fund, prices, pc.1, pc.2.1, pc.2.2, news⟩

/-- Daily variant (daily.py lines 61-90): additionally filters the
normalized news to the 24-hour window and takes the change from the last
two price entries. -/
def buildTickerRecD (cache : String → Val) (endTime : Option Int) (now : Int)
    (t : String) : PyM TickerRec := do
  let fund := orVal (cache ("yahoo:fundamentals:" ++ t)) (.dict [])
  let prices := orVal (cache ("yahoo:prices:" ++ t ++ ":5d:1d")) (.list [])
  let yn := orVal (cache ("yahoo:news:" ++ t ++ ":latest")) (.list [])
  let fn := orVal (cache ("finnhub:news:" ++ t ++ ":latest")) (.list [])
  let merged ← pyAdd yn fn
  let items ← iterVal merged
  let news ← normalizeNews items
  let dnews := filterNewsLast24h news endTime now
  let pc ← priceChange prices (-2) (-1)
  pure ⟨fund, prices, pc.1, pc.2.1, pc.2.2, dnews⟩

/-- `ticker_data[ticker] = record`: Python dict insertion keeps the first
position of a repeated key and overwrites its value. -/
def assocUpsert (l : List (String × TickerRec)) (k : String) (v : TickerRec) :
    List (String × TickerRec) :=
  match l with
  | [] => [(k, v)]
  | (k', v') :: rest =>
    if k' == k then (k', v) :: rest else (k', v') :: assocUpsert rest k v

/-- The per-ticker cache-reading loop shared by both builders: iterates the
sorted ticker list (duplicates included, as in the source), filling
`ticker_data` with dict semantics and extending `all_news` with each
iteration's news. -/
def tickerLoop (mk : String → PyM TickerRec) :
    List String → List (String × TickerRec) → List NewsItemN →
    PyM (List (String × TickerRec) × List NewsItemN)
  | [], td, an => .ok (td, an)
  | t :: rest, td, an => do
    let r ← mk t
    tickerLoop mk rest (assocUpsert td t r) (an ++ r.news)

/-- An empty record; `tickerLookup` below never actually falls back to it,
because the rendering loops look up exactly the tickers inserted by
`tickerLoop`. -/
def emptyTickerRec : TickerRec :=
  ⟨.none, .none, Option.none, .none, .none, []⟩

/-- `ticker_data[ticker]` in the rendering loops (always present). -/
def tickerLookup (td : List (String × TickerRec)) (t : String) : TickerRec :=
  (((td.find? (fun p => p.1 == t)).map Prod.snd).getD emptyTickerRec)

/-- `changes = [d["change"] for d in ticker_data.values() if isinstance(d.get("change"), (int, float))]`
(weekly.py line 242): the record's `change` is a float exactly when `some`. -/
def changesOf (td : List (String × TickerRec)) : List ℚ :=
  td.filterMap (fun p => p.2.change)

/-- Python `max(items, key=f)`: first maximal element. -/
def argmaxBy (f : String × TickerRec → ℚ) (l : List (String × TickerRec)) :
    Option (String × TickerRec) :=
  match l with
  | [] => Option.none
  | x :: rest => some (rest.foldl (fun b y => if f y > f b then y else b) x)

/-- Python `min(items, key=f)`: first minimal element. -/
def argminBy (f : String × TickerRec → ℚ) (l : List (String × TickerRec)) :
    Option (String × TickerRec) :=
  match l with
  | [] => Option.none
  | x :: rest => some (rest.foldl (fun b y => if f y < f b then y else b) x)

/-- The market-snapshot numbers (weekly.py lines 243-248, daily.py lines
100-105), computed once and reused by both the Markdown section and the
JSON payload, as in the source. -/
structure SnapInfo where
  avg : ℚ
  up : Nat
  down : Nat
  best : String × TickerRec
  worst : String × TickerRec

/-- Compute the snapshot numbers; `none` when no ticker has a numeric
change (`max`/`min` of an empty dict would raise `ValueError`, which is
unreachable because `changes` nonempty forces `ticker_data` nonempty). -/
def snapshotInfo (td : List (String × TickerRec)) : PyM (Option SnapInfo) :=
  let changes := changesOf td
  if changes.isEmpty then .ok Option.none
  else
    match argmaxBy (fun p => p.2.change.getD (-9999)) td,
          argminBy (fun p => p.2.change.getD 9999) td with
    | some b, some w =>
      .ok (some ⟨changes.sum / (changes.length : ℚ),
                 (changes.filter (fun c => decide (0 ≤ c))).length,
                 (changes.filter (fun c => decide (c < 0))).length, b, w⟩)
    | _, _ => .error (.valueErr "max() arg is an empty sequence")

/-- `f"...{change:.2f}..."` on a value that is a float or `None`: formatting
`None` raises `TypeError` (reachable at weekly.py lines 251-252 when the
best/worst performer has no numeric change, i.e. when some ticker's change
is below -9999 or above 9999). -/
def formatChangeOpt (c : Option ℚ) : PyM String :=
  match c with
  | some q => .ok (formatFixed2 q)
  | Option.none => .error (.typeErr "unsupported format string passed to NoneType")

/-- The Market Snapshot Markdown block (weekly.py lines 241-255 with words
"Weekly"/"weekly", daily.py lines 98-112 with "Daily"/"daily"). -/
def snapshotMd (info : Option SnapInfo) (breadthWord perfWord : String) :
    PyM (List String) :=
  match info with
  | Option.none =>
    .ok ["## Market Snapshot",
         "- Not enough price data to summarize " ++ perfWord ++ " performance.", ""]
  | some i => do
    let bs ← formatChangeOpt i.best.2.change
    let ws ← formatChangeOpt i.worst.2.change
    .ok ["## Market Snapshot",
         "- " ++ breadthWord ++ " breadth: " ++ toString i.up ++ " up / " ++
           toString i.down ++ " down",
         "- Average change: " ++ formatFixed2 i.avg ++ "%",
         "- Best performer: " ++ i.best.1 ++ " (" ++ bs ++ "%)",
         "- Worst performer: " ++ i.worst.1 ++ " (" ++ ws ++ "%)",
         ""]

/-- `sector_map.setdefault(sector, []).append(change)` accumulator, keyed
by Python equality with dict insertion order. -/
def valAssocBump : List (Val × List ℚ) → Val → ℚ → List (Val × List ℚ)
  | [], k, c => [(k, [c])]
  | (k', vs) :: rest, k, c =>
    if pyEq k' k then (k', vs ++ [c]) :: rest
    else (k', vs) :: valAssocBump rest k c

/-- The sector-grouping loop (weekly.py lines 259-264, daily.py lines
116-121): `sector = (fundamentals or {}).get("sector") or "Unknown"`, and a
ticker contributes only when its change is numeric. Hashing an unhashable
sector key raises `TypeError` at `setdefault`. -/
def sectorMapLoop : List (String × TickerRec) → List (Val × List ℚ) →
    PyM (List (Val × List ℚ))
  | [], acc => .ok acc
  | (_, r) :: rest, acc => do
    let sv ← vget (orVal r.fund (.dict [])) "sector"
    let sector := orVal sv (.str "Unknown")
    match r.change with
    | some c =>
      if !sector.hashable then .error (.typeErr "unhashable type")
      else sectorMapLoop rest (valAssocBump acc sector c)
    | Option.none => sectorMapLoop rest acc

/-- String comparison of sector keys for the `(-avg, sector)` sort. CPython
would raise `TypeError` when comparing sectors of different types with tied
averages; that corner is modelled as a tie (original order kept) and is
outside every theorem's hypotheses: `WFfund` requires every defaulted
sector reaching this comparator to be a string, and on strings the
comparator is faithful. -/
def valStrLe (a b : Val) : Bool :=
  match a, b with
  | .str s, .str t => strLeB s t
  | _, _ => true

/-- The comparator of `sector_items.sort(key=lambda x: (-x[1], x[0]))`. -/
def sectorLe (a b : Val × ℚ) : Bool :=
  if a.2 == b.2 then valStrLe a.1 b.1 else decide (b.2 < a.2)

/-- Per-sector averages, sorted (weekly.py lines 266-269, recomputed
identically for the JSON payload at lines 410-415). -/
def sectorItemsSorted (smap : List (Val × List ℚ)) : List (Val × ℚ) :=
  (smap.map (fun p => (p.1, p.2.sum / (p.2.length : ℚ)))).insertionSort
    (fun a b => sectorLe a b = true)

/-- The Sector Rotation Markdown block (weekly.py lines 258-274). -/
def sectorMd (smap : List (Val × List ℚ)) : List String :=
  if smap.isEmpty then ["## Sector Rotation", "- Sector data not available.", ""]
  else
    ["## Sector Rotation"] ++
      (sectorItemsSorted smap).map
        (fun p => "- " ++ pyStr p.1 ++ ": " ++ formatFixed2 p.2 ++ "%") ++ [""]

/-- The Top Themes Markdown block (weekly.py lines 277-284). -/
def themesMd (themes : List (String × Nat)) : List String :=
  if themes.isEmpty then ["## Top Themes", "- No headline themes available.", ""]
  else
    ["## Top Themes"] ++
      themes.map (fun p => "- " ++ p.1 ++ " (" ++ toString p.2 ++ ")") ++ [""]

/-- Output of the Market News section: its Markdown lines, CSV rows, the
last title value assigned to the shadowed `title` variable (if the loop
ran), and the normalized (and, daily, filtered) items for reuse by the
JSON payload, which the source recomputes identically. -/
structure MarketOut where
  lines : List String
  rows : List CsvRow
  lastT : Option Val
  items : List NewsItemN

/-- The Market News section (weekly.py lines 286-308 with `filt = id` and
message "- No cached market news."; daily.py lines 143-166 with the
24-hour filter and message "- No cached market news for this date."). -/
def marketSection (cache : String → Val) (filt : List NewsItemN → List NewsItemN)
    (emptyMsg : String) : PyM MarketOut := do
  let mn := orVal (cache "finnhub:market_news:general:0") (.list [])
  let rawItems ← iterVal mn
  let normed ← normalizeNews rawItems
  let mi := filt normed
  if mi.isEmpty then .ok ⟨["## Market News", emptyMsg, ""], [], Option.none, mi⟩
  else
    let top := mi.take 5
    .ok ⟨"## Market News" ::
          top.map (fun it =>
            "- " ++ pyStr it.source ++ ": [" ++ pyStr it.title ++ "](" ++
              pyStr it.url ++ ")") ++ [""],
         top.map (fun it =>
           ⟨"market", "", it.source, it.title, it.url, paIso it.published_at,
            it.provider⟩),
         (top.getLast?).map (fun it => it.title), mi⟩

/-- The JSON `market_news` payload entries (weekly.py lines 423-430,
daily.py lines 282-289), from the same normalized/filtered items. -/
def marketPayload (mi : List NewsItemN) : List Val :=
  (mi.take 5).map (fun it =>
    .dict [("title", it.title), ("source", it.source), ("url", it.url),
           ("published_at", .str (paIso it.published_at)),
           ("provider", it.provider)])

/-- `" | ".join(meta)` (weekly.py line 176): every element must be a string. -/
def joinPipe : List Val → PyM String
  | [] => .ok ""
  | [.str s] => .ok s
  | .str s :: rest => do
    let r ← joinPipe rest
    .ok (s ++ " | " ++ r)
  | _ => .error (.typeErr "sequence item: expected str instance")

/-- `(row.get("url") or "").strip()` (weekly.py line 165): `.strip()` on a
truthy non-string raises `AttributeError`. -/
def pyStrip (v : Val) : PyM String :=
  match v with
  | .str s => .ok (strStrip s)
  | _ => .error (.attrErr "object has no attribute strip")

/-- `.replace("# ", "")` on the prompt title (weekly.py line 387, daily.py
line 245): `AttributeError` on a non-string. -/
def pyReplaceHS (v : Val) : PyM String :=
  match v with
  | .str s => .ok (strRemoveHashSpace s)
  | _ => .error (.attrErr "object has no attribute replace")

/-- The numbered source list of `_build_prompt` (weekly.py lines 163-181):
rows with an empty (stripped) url are skipped without advancing the
counter; the label is `row.get("title") or url`; metadata joins source,
ticker and published_at when truthy. -/
def promptRowsLoop : List CsvRow → Nat → PyM (List String)
  | [], _ => .ok []
  | row :: rest, idx => do
    let url ← pyStrip (orVal row.url (.str ""))
    if url == "" then promptRowsLoop rest idx
    else do
      let label := orVal row.title (.str url)
      let metas := (if row.source.truthy then [row.source] else []) ++
        (if row.ticker != "" then [Val.str row.ticker] else []) ++
        (if row.published_at != "" then [Val.str row.published_at] else [])
      let metaStr ← joinPipe metas
      let line :=
        if metaStr != "" then
          toString idx ++ ". " ++ pyStr label ++ " (" ++ metaStr ++ ") — " ++ url
        else toString idx ++ ". " ++ pyStr label ++ " — " ++ url
      let others ← promptRowsLoop rest (idx + 1)
      .ok (line :: others)

/-- Embedding of `_build_prompt` (weekly.py lines 148-182); `day` is the
supplied `digest_date` or today. -/
def buildPrompt (title : String) (rows : List CsvRow) (day : Pdate) : PyM String := do
  let body ← promptRowsLoop rows 1
  .ok (String.intercalate "\n"
    (["You are a financial research assistant. Visit each link below, extract the key facts, and write a market digest report in Markdown.",
      "",
      "Requirements:",
      "- Sections: TL;DR (3 bullets), Key Takeaways (1-2 bullets), In-Depth (120-200 words per source)",
      "- Include citations as inline links for every non-trivial claim",
      "- Keep tone neutral and factual",
      "- Output Markdown only",
      "",
      "# " ++ title ++ " (" ++ isoDate day ++ ")",
      "",
      "## Sources"] ++ body))

/-- Output of one Ticker Highlights subsection: Markdown lines, CSV rows,
and the last value assigned to the shadowed `title` variable. -/
structure SectionOut where
  lines : List String
  rows : List CsvRow
  lastT : Option Val

/-- `f"{v:.2f}"` on a dynamic value: floats and ints (and bools) format;
anything else raises `TypeError`. -/
def formatNumValF2 (v : Val) : PyM String :=
  match v.numView with
  | some q => .ok (formatFixed2 q)
  | Option.none => .error (.typeErr "unsupported format string")

/-- Embedding of `_format_ratio` (weekly.py lines 70-74): `float(value)`
formatted to two decimals, any failure degrading to "N/A". -/
def formatRatioVal (v : Val) : String :=
  match pyFloat v with
  | .ok q => formatFixed2 q
  | .error _ => "N/A"

/-- Weekly sentiment-score rendering (weekly.py line 334): `_format_ratio`,
which never raises. -/
def scoreFmtW (v : Val) : PyM String :=
  .ok (formatRatioVal v)

/-- Daily sentiment-score rendering (daily.py line 192):
`f"{float(score):.2f}"` with no try/except, so a bad score raises. -/
def scoreFmtD (v : Val) : PyM String :=
  (pyFloat v).map formatFixed2

/-- The change line of one Ticker Highlights subsection (weekly.py lines
318-325, daily.py lines 176-183). -/
def changeLineOf (changeName missingLine : String) (r : TickerRec) : PyM String :=
  match r.change with
  | some c =>
    if r.start_price.truthy && r.end_price.truthy then do
      let sq ← formatNumValF2 r.start_price
      let eq2 ← formatNumValF2 r.end_price
      pure ("- " ++ changeName ++ " change: " ++ formatFixed2 c ++ "% (" ++
        sq ++ " -> " ++ eq2 ++ ")")
    else pure missingLine
  | Option.none => pure missingLine

/-- The sentiment line of one subsection (weekly.py lines 327-340, daily.py
lines 185-198): the cached Finnhub payload when it is a dict, else the
weighted heuristic over the record's news. -/
def sentLineOf (now : Int) (scoreFmt : Val → PyM String) (sp : Val)
    (news : List NewsItemN) : PyM String :=
  match sp with
  | .dict _ => do
    let lv ← vget sp "label"
    let sv ← vget sp "sentiment"
    let label := orVal (orVal lv sv) (.str "Unknown")
    let score ← vget sp "score"
    let scoreStr ←
      match score with
      | .none => pure "N/A"
      | sv2 => scoreFmt sv2
    pure ("- Sentiment: " ++ pyStr label ++ " (Finnhub, score " ++ scoreStr ++ ")")
  | _ => do
    let ws ← weightedSentiment now news
    pure ("- Sentiment: " ++ ws.1 ++ " (weighted, score " ++ formatFixed2 ws.2 ++ ")")

/-- The Risks/Catalysts block body (weekly.py lines 356-364, daily.py lines
214-221). -/
def riskLinesOf (news : List NewsItemN) : PyM (List String) :=
  if news.isEmpty then pure ["- Risks/Catalysts: N/A"]
  else do
    let rl ← (news.take 3).mapM (fun it => do
      let tag ← headlineSentimentV it.title
      let lbl := if tag > 0 then "Catalyst" else if tag < 0 then "Risk" else "Neutral"
      pure ("  - " ++ lbl ++ ": " ++ pyStr it.title))
    pure ("- Risks/Catalysts:" :: rl)

/-- One Ticker Highlights subsection (weekly.py lines 312-371 with
`changeName = "Weekly"`, the 5d missing-history message and `scoreFmtW`;
daily.py lines 170-229 with `changeName = "Daily"`, the recent-history
message and `scoreFmtD`): identity line, change line or placeholder,
sentiment line (cached Finnhub payload if it is a dict, else the weighted
heuristic), up to 3 headlines with CSV rows, up to 3 risk/catalyst tags. -/
def tickerSection (cache : String → Val) (now : Int)
    (changeName missingLine : String) (scoreFmt : Val → PyM String)
    (t : String) (r : TickerRec) : PyM SectionOut := do
  let fund := orVal r.fund (.dict [])
  let name ← vgetD fund "name" (.str "Unknown")
  let sector ← vgetD fund "sector" (.str "N/A")
  let industry ← vgetD fund "industry" (.str "N/A")
  let changeLine ← changeLineOf changeName missingLine r
  let sp := orVal (cache ("finnhub:sentiment:" ++ t ++ ":latest"))
                  (cache ("finnhub:sentiment:" ++ t))
  let sentLine ← sentLineOf now scoreFmt sp r.news
  let top := r.news.take 3
  let headLines :=
    if r.news.isEmpty then ["- Key headlines: N/A"]
    else "- Key headlines:" ::
      top.map (fun it => "  - " ++ pyStr it.source ++ ": [" ++ pyStr it.title ++
        "](" ++ pyStr it.url ++ ")")
  let rows :=
    if r.news.isEmpty then []
    else top.map (fun it =>
      CsvRow.mk "ticker" t it.source it.title it.url (paIso it.published_at) it.provider)
  let riskLines ← riskLinesOf r.news
  let lastT := if r.news.isEmpty then Option.none
    else (top.getLast?).map (fun it => it.title)
  pure ⟨["### " ++ t,
         "**" ++ pyStr name ++ "** | Sector: " ++ pyStr sector ++ " | Industry: " ++
           pyStr industry,
         changeLine, sentLine] ++ headLines ++ riskLines ++ [""],
        rows, lastT⟩

/-- The `sentiment` JSON object (weekly.py lines 437-452, daily.py lines
296-311). -/
def sentValOf (now : Int) (sp : Val) (news : List NewsItemN) : PyM Val :=
  match sp with
  | .dict _ => do
    let lv ← vget sp "label"
    let sv ← vget sp "sentiment"
    let score ← vget sp "score"
    pure (Val.dict [("source", .str "finnhub"),
                    ("label", orVal (orVal lv sv) (.str "Unknown")),
                    ("score", score)])
  | _ => do
    let ws ← weightedSentiment now news
    pure (Val.dict [("source", .str "weighted"), ("label", .str ws.1),
                    ("score", .num ws.2)])

/-- The `risks_catalysts` JSON entries (weekly.py lines 463-470). -/
def risksOf (news : List NewsItemN) : PyM (List Val) :=
  (news.take 3).mapM (fun it => do
    let tag ← headlineSentimentV it.title
    let lbl := if tag > 0 then "Catalyst" else if tag < 0 then "Risk" else "Neutral"
    pure (Val.dict [("label", .str lbl), ("title", it.title)]))

/-- One `ticker_highlights` JSON entry (weekly.py lines 432-480, daily.py
lines 291-339; the source recomputes the sentiment from the cache, which is
deterministic, so this reads the same keys again). -/
def tickerJson (cache : String → Val) (now : Int) (t : String) (r : TickerRec) :
    PyM Val := do
  let fund := orVal r.fund (.dict [])
  let name ← vgetD fund "name" (.str "Unknown")
  let sector ← vgetD fund "sector" (.str "N/A")
  let industry ← vgetD fund "industry" (.str "N/A")
  let sp := orVal (cache ("finnhub:sentiment:" ++ t ++ ":latest"))
                  (cache ("finnhub:sentiment:" ++ t))
  let sentiment ← sentValOf now sp r.news
  let top := r.news.take 3
  let heads := top.map (fun it =>
    Val.dict [("title", it.title), ("source", it.source), ("url", it.url),
              ("published_at", .str (paIso it.published_at)),
              ("provider", it.provider)])
  let risks ← risksOf r.news
  pure (Val.dict [("ticker", .str t), ("name", name), ("sector", sector),
    ("industry", industry), ("change", optQ r.change),
    ("start_price", r.start_price), ("end_price", r.end_price),
    ("sentiment", sentiment), ("headlines", .list heads),
    ("risks_catalysts", .list risks)])

/-- The `market_snapshot` JSON value (weekly.py lines 397-406, daily.py
lines 255-264). -/
def snapshotVal (info : Option SnapInfo) (perfWord : String) : Val :=
  match info with
  | Option.none =>
    .dict [("note", .str ("Not enough price data to summarize " ++ perfWord ++
      " performance."))]
  | some i =>
    .dict [("breadth", .dict [("up", .num (i.up : ℚ)), ("down", .num (i.down : ℚ))]),
           ("average_change", .num i.avg),
           ("best", .dict [("ticker", .str i.best.1), ("change", optQ i.best.2.change)]),
           ("worst", .dict [("ticker", .str i.worst.1), ("change", optQ i.worst.2.change)])]

/-- The `sector_rotation` JSON value (weekly.py lines 408-415). -/
def sectorRotationVal (smap : List (Val × List ℚ)) : Val :=
  .list ((sectorItemsSorted smap).map (fun p =>
    .dict [("sector", p.1), ("average_change", .num p.2)]))

/-- The `top_themes` JSON value (weekly.py line 417). -/
def themesVal (ts : List (String × Nat)) : Val :=
  .list (ts.map (fun p => .dict [("theme", .str p.1), ("count", .num (p.2 : ℚ))]))

/-- One `news_links` JSON entry (weekly.py lines 494-500): the row's cells
in CSV column order, `published_at or ""` being the identity on the string
already stored. -/
def csvRowVal (row : CsvRow) : Val :=
  .dict [("scope", .str row.scope), ("ticker", .str row.ticker),
         ("source", row.source), ("title", row.title), ("url", row.url),
         ("published_at", .str row.published_at), ("provider", row.provider)]

/-- Resolve the final value of the shadowed `title` variable: the initial
parameter value overridden by each loop's last assignment, in program
order. -/
def lastShadow (init : Val) (updates : List (Option Val)) : Val :=
  updates.foldl (fun cur u => u.getD cur) init

/-- The `title` parameter as the initial value of the shadowed `title`
variable (weekly.py line 184, daily.py line 34: default `None`). -/
def initTitleVal (titleP : Option String) : Val :=
  match titleP with
  | some t => Val.str t
  | Option.none => Val.none

/-- The report header title: the supplied title when truthy, else the
default (weekly.py line 236, daily.py line 94). -/
def headerTitleOf (titleP : Option String) (dflt : String) : String :=
  match titleP with
  | some t => if t != "" then t else dflt
  | Option.none => dflt

/-- The four in-memory artifacts of one digest invocation: the Markdown
report lines, the CSV link rows, the prompt text, and the JSON payload.
The files the source writes are exactly these, serialized. -/
structure DigestArt where
  mdLines : List String
  csvRows : List CsvRow
  promptText : String
  jsonPayload : Val

/-- Embedding of `generate_weekly_digest` (weekly.py lines 184-507) minus
file writes: `cache` is the module-level cache, `today` is
`datetime.date.today()`, `now` is `datetime.datetime.now()` as consumed by
`_weighted_sentiment`. -/
def generateWeeklyDigest (cache : String → Val) (tickers : List String)
    (today : Pdate) (now : Int) (titleP : Option String)
    (includeMarketNews : Bool) : PyM DigestArt := do
  let iso := isocalendar today
  let weekTag := toString iso.1 ++ "-W" ++ pad2 iso.2.1
  let defaultTitle := "# Weekly Market Digest: " ++ weekTag
  let todayStr := isoDate today
  let ts := tickersSorted tickers
  let tl ← tickerLoop (buildTickerRecW cache) ts [] []
  let td := tl.1
  let headerTitle := headerTitleOf titleP defaultTitle
  let info ← snapshotInfo td
  let snapLines ← snapshotMd info "Weekly" "weekly"
  let smap ← sectorMapLoop td []
  let themes ← extractThemes tl.2
  let mkt ← if includeMarketNews then
      marketSection cache id "- No cached market news."
    else pure (MarketOut.mk [] [] Option.none [])
  let parts ← ts.mapM (fun t =>
    tickerSection cache now "Weekly" "- Weekly change: N/A (Missing 5d price history)"
      scoreFmtW t (tickerLookup td t))
  let mdLines := [headerTitle, "**Date**: " ++ todayStr, ""] ++ snapLines ++
    sectorMd smap ++ themesMd themes ++ mkt.lines ++ ["## Ticker Highlights"] ++
    (parts.map SectionOut.lines).flatten
  let csvRows := mkt.rows ++ (parts.map SectionOut.rows).flatten
  let finalTitle := lastShadow (initTitleVal titleP)
    (mkt.lastT :: parts.map SectionOut.lastT)
  let promptTitle ← pyReplaceHS (orVal finalTitle (.str defaultTitle))
  let prompt ← buildPrompt promptTitle csvRows today
  let highlights ← ts.mapM (fun t => tickerJson cache now t (tickerLookup td t))
  let jsonPayload := Val.dict [
    ("type", .str "weekly"), ("date", .str todayStr), ("week", .str weekTag),
    ("title", orVal finalTitle (.str defaultTitle)),
    ("tickers", .list (ts.map Val.str)),
    ("include_market_news", .bool includeMarketNews),
    ("market_snapshot", snapshotVal info "weekly"),
    ("sector_rotation", sectorRotationVal smap),
    ("top_themes", themesVal themes),
    ("market_news", .list (if includeMarketNews then marketPayload mkt.items else [])),
    ("ticker_highlights", .list highlights),
    ("news_links", .list (csvRows.map csvRowVal))]
  pure ⟨mdLines, csvRows, prompt, jsonPayload⟩

/-- Embedding of `generate_daily_digest` (daily.py lines 34-365) minus file
writes. `digestDate` is the optional target date; when present, the news
window ends at 23:59:59 of that date, otherwise at `now`. -/
def generateDailyDigest (cache : String → Val) (tickers : List String)
    (digestDate : Option Pdate) (today : Pdate) (now : Int)
    (titleP : Option String) (includeMarketNews : Bool) : PyM DigestArt := do
  let day := digestDate.getD today
  let dayStr := isoDate day
  let endTime : Option Int := digestDate.map dailyEndTime
  let defaultTitle := "# Daily Market Digest: " ++ dayStr
  let ts := tickersSorted tickers
  let tl ← tickerLoop (buildTickerRecD cache endTime now) ts [] []
  let td := tl.1
  let headerTitle := headerTitleOf titleP defaultTitle
  let info ← snapshotInfo td
  let snapLines ← snapshotMd info "Daily" "daily"
  let smap ← sectorMapLoop td []
  let themes ← extractThemes tl.2
  let mkt ← if includeMarketNews then
      marketSection cache (fun l => filterNewsLast24h l endTime now)
        "- No cached market news for this date."
    else pure (MarketOut.mk [] [] Option.none [])
  let parts ← ts.mapM (fun t =>
    tickerSection cache now "Daily" "- Daily change: N/A (Missing recent price history)"
      scoreFmtD t (tickerLookup td t))
  let mdLines := [headerTitle, "**Date**: " ++ dayStr, ""] ++ snapLines ++
    sectorMd smap ++ themesMd themes ++ mkt.lines ++ ["## Ticker Highlights"] ++
    (parts.map SectionOut.lines).flatten
  let csvRows := mkt.rows ++ (parts.map SectionOut.rows).flatten
  let finalTitle := lastShadow (initTitleVal titleP)
    (mkt.lastT :: parts.map SectionOut.lastT)
  let promptTitle ← pyReplaceHS (orVal finalTitle (.str defaultTitle))
  let prompt ← buildPrompt promptTitle csvRows day
  let highlights ← ts.mapM (fun t => tickerJson cache now t (tickerLookup td t))
  let jsonPayload := Val.dict [
    ("type", .str "daily"), ("date", .str dayStr),
    ("title", orVal finalTitle (.str defaultTitle)),
    ("tickers", .list (ts.map Val.str)),
    ("include_market_news", .bool includeMarketNews),
    ("market_snapshot", snapshotVal info "daily"),
    ("sector_rotation", sectorRotationVal smap),
    ("top_themes", themesVal themes),
    ("market_news", .list (if includeMarketNews then marketPayload mkt.items else [])),
    ("ticker_highlights", .list highlights),
    ("news_links", .list (csvRows.map csvRowVal))]
  pure ⟨mdLines, csvRows, prompt, jsonPayload⟩

/-- Errors surfaced by the `fetch-digest daily` CLI command: `click.BadParameter`
(a usage error), the repository's `ValidationError` (errors.py lines 11-13 —
raised by the YAML portfolio/market loaders, never on this path), or an
exception escaping the digest core. -/
inductive CliError where
  | badParameter (msg : String) : CliError
  | validation (msg : String) : CliError
  | py (e : PyErr) : CliError
deriving Repr, DecidableEq

/-- `[t.strip().upper() for t in tickers.split(',') if t.strip()]`
(cli.py line 280). -/
def parseTickersOpt (s : String) : List String :=
  ((splitOnChar s ',').filter (fun t => strStrip t != "")).map
    (fun t => strUpper (strStrip t))

/-- Embedding of the `fetch-digest daily` CLI command (cli.py lines
275-304): an empty parsed ticker list and a malformed `--date` raise
`click.BadParameter` before `generate_daily_digest` is called; otherwise
the digest core runs and its artifacts are produced. -/
def fetchDigestDaily (cache : String → Val) (tickers : String)
    (digestDate : Option String) (today : Pdate) (now : Int) :
    Except CliError DigestArt :=
  let tickerList := parseTickersOpt tickers
  if tickerList.isEmpty then
    .error (.badParameter "tickers must include at least one symbol.")
  else
    match digestDate with
    | some s =>
      match parseIsoDate s with
      | some d =>
        match generateDailyDigest cache tickerList (some d) today now Option.none true with
        | .ok art => .ok art
        | .error e => .error (.py e)
      | Option.none => .error (.badParameter "date must be in YYYY-MM-DD format.")
    | Option.none =>
      match generateDailyDigest cache tickerList Option.none today now Option.none true with
      | .ok art => .ok art
      | .error e => .error (.py e)

/-!
Claims. Each claim from the specification gets exactly one theorem below;
helper lemmas are shared. `with_unfolding_all` lets closed computations
evaluate through the `Rat` arithmetic primitives, which are irreducible to
the elaborator but not to the kernel.
-/

/-- Monad-law computation rules for `PyM`, used to evaluate the embedded
do-blocks in proofs. -/
@[simp]
theorem pymBindOk {α β : Type} (a : α) (f : α → PyM β) :
    (Except.ok a : PyM α) >>= f = f a := rfl

/-- Binding a raised exception short-circuits. -/
@[simp]
theorem pymBindErr {α β : Type} (e : PyErr) (f : α → PyM β) :
    (Except.error e : PyM α) >>= f = .error e := rfl

/-- Mapping over a successful result. -/
@[simp]
theorem pymMapOk {α β : Type} (f : α → β) (a : α) :
    f <$> (Except.ok a : PyM α) = .ok (f a) := rfl

/-- Mapping over a raised exception. -/
@[simp]
theorem pymMapErr {α β : Type} (f : α → β) (e : PyErr) :
    f <$> (Except.error e : PyM α) = .error e := rfl

/-- `Except.map` on a success. -/
@[simp]
theorem exceptMapOk {ε α β : Type} (f : α → β) (a : α) :
    (Except.ok a : Except ε α).map f = .ok (f a) := rfl

/-- `Except.map` on an error. -/
@[simp]
theorem exceptMapErr {ε α β : Type} (f : α → β) (e : ε) :
    (Except.error e : Except ε α).map f = .error e := rfl

/-- C2, counterexample. The spec's scenario says the headline
"Acme misses guidance, shares drop" has polarity -1; the code returns 0,
because "guidance" is in `_POS_WORDS` (weekly.py line 16), so both word
sets match and the both-match case yields 0. -/
theorem c2_headline_scenario_not_neg :
    ¬ headlineSentiment "Acme misses guidance, shares drop" = -1 := by
  with_unfolding_all decide

/-- C2, amended. The general rule holds — polarity is -1 whenever some
token is in the negative set and no token is in the positive set — but on
this headline the tokens "misses" and "drop" are negative while "guidance"
is positive, so both sets match and `_headline_sentiment` returns 0. -/
theorem c2_headline_polarity :
    (∀ title : String,
      (∃ w ∈ strTokens title, w ∈ negWords) →
      (∀ w ∈ strTokens title, w ∉ posWords) →
      headlineSentiment title = -1) ∧
    headlineSentiment "Acme misses guidance, shares drop" = 0 ∧
    "guidance" ∈ posWords ∧ "misses" ∈ negWords ∧ "drop" ∈ negWords := by
  refine ⟨fun title hneg hpos => ?_, by with_unfolding_all decide,
    by decide, by decide, by decide⟩
  have hn : (strTokens title).any (fun w => negWords.contains w) = true := by
    obtain ⟨w, hw, hmem⟩ := hneg
    exact List.any_eq_true.mpr ⟨w, hw, List.elem_iff.mpr hmem⟩
  have hp : (strTokens title).any (fun w => posWords.contains w) = false := by
    rw [List.any_eq_false]
    intro w hw
    simpa [List.elem_iff] using hpos w hw
  simp only [headlineSentiment, hn, hp]
  decide

/-- C2, witness: the rule instance for "shares slump" (token "slump" is
negative, no token positive), discharged through `c2_headline_polarity`. -/
theorem c2_headline_polarity_witness :
    headlineSentiment "shares slump" = -1 :=
  c2_headline_polarity.1 "shares slump"
    ⟨"slump", by with_unfolding_all decide, by decide⟩
    (by with_unfolding_all decide)

/-- The two-item scenario of C3: identical titles, two urls, no id. -/
def c3Item (title url : String) : Val :=
  .dict [("title", .str title), ("url", .str url)]

/-- C3, counterexample. The spec's scenario says two items with the same
title "Acme beats estimates", different non-empty urls and no id are
deduplicated to one entry; the code keeps both, because the dedup key is
`id or url or title` (weekly.py line 86) and the urls differ. -/
theorem c3_dedup_scenario_two_kept :
    (normalizeNews
      [c3Item "Acme beats estimates" "https://example.com/1",
       c3Item "Acme beats estimates" "https://example.com/2"]).map List.length =
      .ok 2 := by
  with_unfolding_all decide

/-- C3, amended. Two news items with the same title, both with non-empty
urls and no id, are deduplicated to one entry exactly when their urls are
equal: with distinct urls both are retained (their identity keys are the
urls), with equal urls the first occurrence is retained. -/
theorem c3_dedup_by_url (title u1 u2 : String)
    (h1 : u1 ≠ "") (h2 : u2 ≠ "") :
    (u1 ≠ u2 →
      (normalizeNews [c3Item title u1, c3Item title u2]).map List.length = .ok 2) ∧
    (u1 = u2 →
      (normalizeNews [c3Item title u1, c3Item title u2]).map List.length = .ok 1) := by
  have t1 : (u1 == "") = false := beq_eq_false_iff_ne.mpr h1
  have t2 : (u2 == "") = false := beq_eq_false_iff_ne.mpr h2
  constructor
  · intro hne
    have t3 : (u2 == u1) = false := beq_eq_false_iff_ne.mpr (Ne.symm hne)
    simp [normalizeNews, normLoop, c3Item, vget, vgetD, mkNewsRecord, orVal,
      Val.truthy, t1, t2, t3, pyEq, Val.numView, Val.hashable, bne]
    split <;> rfl
  · intro heq
    subst heq
    simp [normalizeNews, normLoop, c3Item, vget, vgetD, mkNewsRecord, orVal,
      Val.truthy, t1, pyEq, Val.numView, Val.hashable, bne]

/-- C3, witness: the amended dedup behavior at the spec scenario's
concrete inputs, via `c3_dedup_by_url`. -/
theorem c3_dedup_by_url_witness :
    (normalizeNews
      [c3Item "Acme beats estimates" "https://example.com/1",
       c3Item "Acme beats estimates" "https://example.com/2"]).map List.length =
      .ok 2 :=
  (c3_dedup_by_url "Acme beats estimates" "https://example.com/1"
    "https://example.com/2" (by decide) (by decide)).1 (by decide)

/-- C5, counterexample. The empty ticker list is rejected, but with
`click.BadParameter` (cli.py line 282), not the repository's
`ValidationError` class (errors.py lines 11-13), which this CLI path never
raises. -/
theorem c5_empty_tickers_not_validation_error :
    fetchDigestDaily (fun _ => Val.none) "" Option.none ⟨2026, 1, 25⟩ 0 =
      .error (.badParameter "tickers must include at least one symbol.") ∧
    ∀ m, CliError.badParameter "tickers must include at least one symbol." ≠
      CliError.validation m :=
  ⟨rfl, fun _ h => CliError.noConfusion h⟩

/-- C5, amended. An empty parsed ticker list, or a malformed date string,
is rejected with `click.BadParameter` before any aggregation: the result
is the same for every cache, so no cache lookup happens and no artifacts
are produced. (`ValidationError` is raised only by the YAML portfolio and
market loaders, not on this path.) -/
theorem c5_rejected_before_aggregation (cache : String → Val)
    (tickers : String) (dateStr : Option String) (today : Pdate) (now : Int) :
    (parseTickersOpt tickers = [] →
      fetchDigestDaily cache tickers dateStr today now =
        .error (.badParameter "tickers must include at least one symbol.")) ∧
    (parseTickersOpt tickers ≠ [] → ∀ s, dateStr = some s →
      parseIsoDate s = Option.none →
      fetchDigestDaily cache tickers dateStr today now =
        .error (.badParameter "date must be in YYYY-MM-DD format.")) := by
  constructor
  · intro h
    simp [fetchDigestDaily, h]
  · intro hne s hs hp
    subst hs
    simp [fetchDigestDaily, List.isEmpty_iff, hne, hp]

/-- C5, witness: the empty string and the malformed date `2026-13-01`,
through `c5_rejected_before_aggregation`. -/
theorem c5_rejected_before_aggregation_witness :
    fetchDigestDaily (fun _ => Val.none) "" Option.none ⟨2026, 1, 25⟩ 0 =
      .error (.badParameter "tickers must include at least one symbol.") ∧
    fetchDigestDaily (fun _ => Val.none) "aaa" (some "2026-13-01") ⟨2026, 1, 25⟩ 0 =
      .error (.badParameter "date must be in YYYY-MM-DD format.") :=
  ⟨(c5_rejected_before_aggregation _ _ _ _ _).1 (by decide),
   (c5_rejected_before_aggregation _ _ _ _ _).2 (by decide) _ rfl (by decide)⟩

/-- C8. The daily news filter with a target date keeps exactly the items
whose parsed timestamp lies in the closed 24-hour window ending at
23:59:59 of that date: the boundary instant is included, one second past
it fails `t ≤ end`, and items without a parsed timestamp never satisfy
the characterization. -/
theorem c8_daily_filter_window (d : Pdate) (items : List NewsItemN)
    (now : Int) (n : NewsItemN) (hmem : n ∈ items) :
    n ∈ filterNewsLast24h items (some (dailyEndTime d)) now ↔
      ∃ t, n.published_at = some t ∧
        dailyEndTime d - 86400 ≤ t ∧ t ≤ dailyEndTime d := by
  simp only [filterNewsLast24h, Option.getD_some, List.mem_filter, hmem, true_and]
  cases h : n.published_at with
  | none => simp
  | some t => simp [h]

/-- A minimal news item with a given parsed timestamp, for the C8 witness. -/
def c8ItemAt (t : Option Int) : NewsItemN :=
  ⟨.none, .str "", .str "", .str "", t, .str ""⟩

/-- C8, witness: at the window of 2026-01-25, the item at the upper
boundary is kept while the items one second past it and without a
timestamp are not, all through `c8_daily_filter_window`. -/
theorem c8_daily_filter_window_witness :
    (c8ItemAt (some (dailyEndTime ⟨2026, 1, 25⟩)) ∈
      filterNewsLast24h
        [c8ItemAt (some (dailyEndTime ⟨2026, 1, 25⟩)),
         c8ItemAt (some (dailyEndTime ⟨2026, 1, 25⟩ + 1)), c8ItemAt Option.none]
        (some (dailyEndTime ⟨2026, 1, 25⟩)) 0) ∧
    ¬ (c8ItemAt (some (dailyEndTime ⟨2026, 1, 25⟩ + 1)) ∈
      filterNewsLast24h
        [c8ItemAt (some (dailyEndTime ⟨2026, 1, 25⟩)),
         c8ItemAt (some (dailyEndTime ⟨2026, 1, 25⟩ + 1)), c8ItemAt Option.none]
        (some (dailyEndTime ⟨2026, 1, 25⟩)) 0) ∧
    ¬ (c8ItemAt Option.none ∈
      filterNewsLast24h
        [c8ItemAt (some (dailyEndTime ⟨2026, 1, 25⟩)),
         c8ItemAt (some (dailyEndTime ⟨2026, 1, 25⟩ + 1)), c8ItemAt Option.none]
        (some (dailyEndTime ⟨2026, 1, 25⟩)) 0) := by
  refine ⟨(c8_daily_filter_window _ _ _ _ (List.Mem.head _)).mpr
    ⟨_, rfl, by decide, le_refl _⟩, fun h => ?_, fun h => ?_⟩
  · obtain ⟨t, ht, _, h2⟩ :=
      (c8_daily_filter_window _ _ _ _ (List.Mem.tail _ (List.Mem.head _))).mp h
    simp only [c8ItemAt, Option.some.injEq] at ht
    omega
  · obtain ⟨t, ht, _, _⟩ :=
      (c8_daily_filter_window _ _ _ _
        (List.Mem.tail _ (List.Mem.tail _ (List.Mem.head _)))).mp h
    simp [c8ItemAt] at ht

/-- A headline polarity is one of 1, -1, 0. -/
theorem headlineSentiment_cases (title : String) :
    headlineSentiment title = 1 ∨ headlineSentiment title = -1 ∨
      headlineSentiment title = 0 := by
  simp only [headlineSentiment]
  split_ifs <;> simp

/-- A headline polarity has absolute value at most 1 (as a rational). -/
theorem headlineSentiment_abs_le (title : String) :
    |((headlineSentiment title : ℤ) : ℚ)| ≤ 1 := by
  rcases headlineSentiment_cases title with h | h | h <;> rw [h] <;> norm_num

/-- A successful `_headline_sentiment` call yields a polarity of absolute
value at most 1. -/
theorem headlineSentimentV_ok_abs {v : Val} {s : ℤ}
    (h : headlineSentimentV v = .ok s) : |((s : ℤ) : ℚ)| ≤ 1 := by
  cases v with
  | str t =>
    simp only [headlineSentimentV, Except.ok.injEq] at h
    subst h
    exact headlineSentiment_abs_le t
  | none => simp [headlineSentimentV] at h
  | bool b => simp [headlineSentimentV] at h
  | num q => simp [headlineSentimentV] at h
  | list xs => simp [headlineSentimentV] at h
  | dict kvs => simp [headlineSentimentV] at h

/-- Every recency weight is at least 1/5 (weekly.py lines 122-125). -/
theorem sentWeight_ge (now : Int) (pa : Option Int) :
    (1 / 5 : ℚ) ≤ sentWeight now pa := by
  cases pa with
  | none => norm_num [sentWeight]
  | some dt => exact le_max_left _ _

/-- Invariant of the `_weighted_sentiment` accumulation loop: the total
weight stays nonnegative and dominates the absolute score sum. -/
theorem sentAccum_bounds (now : Int) :
    ∀ (news : List NewsItemN) (tw ss : ℚ) (res : ℚ × ℚ),
      0 ≤ tw → |ss| ≤ tw → sentAccum now news tw ss = .ok res →
      0 ≤ res.1 ∧ |res.2| ≤ res.1 := by
  intro news
  induction news with
  | nil =>
    intro tw ss res h1 h2 h
    simp only [sentAccum, Except.ok.injEq] at h
    subst h
    exact ⟨h1, h2⟩
  | cons item rest ih =>
    intro tw ss res h1 h2 h
    simp only [sentAccum] at h
    cases hs : headlineSentimentV item.title with
    | error e => rw [hs] at h; simp at h
    | ok s =>
      rw [hs] at h
      simp only [pymBindOk] at h
      have hw : (1 / 5 : ℚ) ≤ sentWeight now item.published_at := sentWeight_ge now _
      have hsv : |((s : ℤ) : ℚ)| ≤ 1 := headlineSentimentV_ok_abs hs
      refine ih _ _ _ (by nlinarith) ?_ h
      calc |ss + ((s : ℤ) : ℚ) * sentWeight now item.published_at|
          ≤ |ss| + |((s : ℤ) : ℚ) * sentWeight now item.published_at| := abs_add _ _
        _ = |ss| + |((s : ℤ) : ℚ)| * |sentWeight now item.published_at| := by
            rw [abs_mul]
        _ ≤ tw + 1 * |sentWeight now item.published_at| := by
            have h0 : (0 : ℚ) ≤ |sentWeight now item.published_at| := abs_nonneg _
            nlinarith [abs_nonneg ((s : ℤ) : ℚ)]
        _ = tw + sentWeight now item.published_at := by
            rw [one_mul, abs_of_nonneg (by nlinarith)]

/-- C7. Whenever `_weighted_sentiment` returns, its score lies in [-1, 1];
on the empty news list it returns exactly ("Neutral", 0.0). (The
zero-total-weight guard also returns ("Neutral", 0.0), though with every
weight at least 1/5 it is unreachable for nonempty input.) -/
theorem c7_weighted_sentiment_bounds (now : Int) (news : List NewsItemN)
    (r : String × ℚ) (h : weightedSentiment now news = .ok r) :
    (-1 ≤ r.2 ∧ r.2 ≤ 1) ∧ (news = [] → r = ("Neutral", 0)) := by
  unfold weightedSentiment at h
  by_cases hemp : news.isEmpty
  · rw [if_pos hemp] at h
    simp only [Except.ok.injEq] at h
    subst h
    exact ⟨by norm_num, fun _ => rfl⟩
  · rw [if_neg hemp] at h
    have hne : ¬ news = [] := by
      intro hh; subst hh; simp at hemp
    cases hacc : sentAccum now news 0 0 with
    | error e => rw [hacc] at h; simp at h
    | ok acc =>
      rw [hacc] at h
      simp only [pymBindOk] at h
      have hb := sentAccum_bounds now news 0 0 acc le_rfl (by simp) hacc
      by_cases hz : acc.1 == 0
      · rw [if_pos hz] at h
        simp only [pure, Except.pure, Except.ok.injEq] at h
        subst h
        exact ⟨by norm_num, fun hh => absurd hh hne⟩
      · rw [if_neg hz] at h
        have htw : 0 < acc.1 :=
          lt_of_le_of_ne hb.1 (fun hh => hz (by simp [hh.symm]))
        have hsc : |acc.2 / acc.1| ≤ 1 := by
          rw [abs_div, abs_of_pos htw]
          exact div_le_one_of_le₀ hb.2 (le_of_lt htw)
        have hsc' := abs_le.mp hsc
        have hr : r.2 = acc.2 / acc.1 := by
          split at h <;> simp only [pure, Except.pure, Except.ok.injEq] at h <;>
            (first
              | (subst h; rfl)
              | (split at h <;> simp only [Except.ok.injEq] at h <;> subst h <;> rfl))
        exact ⟨hr ▸ hsc', fun hh => absurd hh hne⟩

/-- C7, witness: the empty news list, through
`c7_weighted_sentiment_bounds`. -/
theorem c7_weighted_sentiment_bounds_witness :
    ((-1 : ℚ) ≤ ("Neutral", (0 : ℚ)).2 ∧ ("Neutral", (0 : ℚ)).2 ≤ 1) ∧
      (([] : List NewsItemN) = [] → ("Neutral", (0 : ℚ)) = ("Neutral", 0)) :=
  c7_weighted_sentiment_bounds 0 [] ("Neutral", 0) rfl

/-- If two character lists are mutually not lexicographically less, they
are equal. -/
theorem charListLt_antisymm :
    ∀ as bs : List Char, charListLt as bs = false → charListLt bs as = false →
      as = bs := by
  intro as
  induction as with
  | nil =>
    intro bs h1 _
    cases bs with
    | nil => rfl
    | cons b bs => simp [charListLt] at h1
  | cons a as ih =>
    intro bs h1 h2
    cases bs with
    | nil => simp [charListLt] at h2
    | cons b bs =>
      simp only [charListLt, Bool.or_eq_false_iff, Bool.and_eq_false_iff] at h1 h2
      have hab : ¬ a < b := by simpa using h1.1
      have hba : ¬ b < a := by simpa using h2.1
      have heq : a = b := le_antisymm (le_of_not_lt hba) (le_of_not_lt hab)
      subst heq
      rcases h1.2 with h1' | h1'
      · simp at h1'
      · rcases h2.2 with h2' | h2'
        · simp at h2'
        · rw [ih bs h1' h2']

/-- `strLeB` is total. -/
theorem strLeB_total (a b : String) : strLeB a b = true ∨ strLeB b a = true := by
  by_cases h1 : charListLt a.data b.data
  · exact Or.inl (by simp [strLeB, h1])
  · by_cases h2 : charListLt b.data a.data
    · exact Or.inr (by simp [strLeB, h2])
    · have : a.data = b.data :=
        charListLt_antisymm _ _ (by simpa using h1) (by simpa using h2)
      have heq : a = b := by
        cases a; cases b; exact congrArg String.mk this
      exact Or.inl (by simp [strLeB, heq])

/-- Lexicographic order on character lists is transitive. -/
theorem charListLt_trans :
    ∀ as bs cs : List Char, charListLt as bs = true → charListLt bs cs = true →
      charListLt as cs = true := by
  intro as
  induction as with
  | nil =>
    intro bs cs h1 h2
    cases bs with
    | nil => simp [charListLt] at h1
    | cons b bs =>
      cases cs with
      | nil => simp [charListLt] at h2
      | cons c cs => simp [charListLt]
  | cons a as ih =>
    intro bs cs h1 h2
    cases bs with
    | nil => simp [charListLt] at h1
    | cons b bs =>
      cases cs with
      | nil => simp [charListLt] at h2
      | cons c cs =>
        simp only [charListLt, Bool.or_eq_true, Bool.and_eq_true, beq_iff_eq,
          decide_eq_true_eq] at h1 h2 ⊢
        rcases h1 with h1 | ⟨hab, h1⟩
        · rcases h2 with h2 | ⟨hbc, h2⟩
          · exact Or.inl (lt_trans h1 h2)
          · subst hbc; exact Or.inl h1
        · subst hab
          rcases h2 with h2 | ⟨hbc, h2⟩
          · exact Or.inl h2
          · subst hbc; exact Or.inr ⟨rfl, ih _ _ h1 h2⟩

/-- `strLeB` is transitive. -/
theorem strLeB_trans (a b c : String) (h1 : strLeB a b = true)
    (h2 : strLeB b c = true) : strLeB a c = true := by
  simp only [strLeB, Bool.or_eq_true, beq_iff_eq] at h1 h2 ⊢
  rcases h1 with h1 | h1
  · rcases h2 with h2 | h2
    · exact Or.inl (charListLt_trans _ _ _ h1 h2)
    · subst h2; exact Or.inl h1
  · subst h1
    exact h2

/-- C4, counterexample. The spec says each input ticker is trimmed and
uppercased before use; the builders only uppercase (weekly.py line 198,
daily.py line 55). On input " aapl " the ticker they use — in sorting,
cache keys and the "### " section header — is " AAPL ", not the trimmed
"AAPL". -/
theorem c4_no_trimming :
    tickersSorted [" aapl "] = [" AAPL "] ∧
    strStrip (strUpper " aapl ") = "AAPL" ∧
    (" AAPL " : String) ≠ "AAPL" ∧
    (generateWeeklyDigest (fun _ => Val.none) [" aapl "] ⟨2026, 1, 25⟩ 0
        Option.none false).map (fun a => a.mdLines.contains "###  AAPL ") =
      .ok true := by
  refine ⟨by decide, by decide, by decide, ?_⟩
  with_unfolding_all decide

/-- C4, amended. The digest builders uppercase each ticker (no trimming)
and sort the uppercased list ascending; the resulting list — the tickers
used for cache keys, sorting and report sections — is a sorted permutation
of the uppercased inputs. -/
theorem c4_tickers_uppercase_sorted (tickers : List String) :
    (tickersSorted tickers).Perm (tickers.map strUpper) ∧
    (tickersSorted tickers).Pairwise (fun a b => strLeB a b = true) := by
  constructor
  · exact List.perm_insertionSort _ _
  · haveI : IsTotal String (fun a b => strLeB a b = true) := ⟨strLeB_total⟩
    haveI : IsTrans String (fun a b => strLeB a b = true) := ⟨strLeB_trans⟩
    exact List.sorted_insertionSort _ _

/-- Whether a value is a Python dict. -/
def Val.isDict : Val → Bool
  | .dict _ => true
  | _ => false

/-- Total dict lookup (default `None`); agrees with `vget` on dicts. -/
def dictGet (item : Val) (k : String) : Val :=
  match item with
  | .dict kvs => ((((kvs.filter (fun p => p.1 == k)).getLast?).map Prod.snd).getD .none)
  | _ => .none

/-- Total dict lookup with an explicit default; agrees with `vgetD` on dicts. -/
def dictGetD (item : Val) (k : String) (d : Val) : Val :=
  match item with
  | .dict kvs => ((((kvs.filter (fun p => p.1 == k)).getLast?).map Prod.snd).getD d)
  | _ => d

/-- The deduplication identity key `item.get("id") or item.get("url") or
item.get("title")` (weekly.py line 86), as a total function on dicts. -/
def specKey (item : Val) : Val :=
  orVal (orVal (dictGet item "id") (dictGet item "url")) (dictGet item "title")

/-- The normalized record of one item (weekly.py lines 90-98), as a total
function on dicts. -/
def specRecord (item : Val) : NewsItemN :=
  ⟨dictGet item "id", dictGetD item "title" (.str ""), dictGetD item "url" (.str ""),
   dictGetD item "source" (.str "Unknown"),
   parseDatetimeVal (orVal (dictGet item "published_at") (dictGet item "publishedAt")),
   dictGetD item "provider" (.str "unknown")⟩

/-- The items retained by the dedup loop: first occurrence of each key wins. -/
def keptItems : List Val → List Val → List Val
  | _, [] => []
  | seen, item :: rest =>
    if seen.any (fun k => pyEq (specKey item) k) then keptItems seen rest
    else item :: keptItems (specKey item :: seen) rest

/-- First-occurrence deduplication of a key list under Python equality. -/
def pyDedupKeys : List Val → List Val → List Val
  | _, [] => []
  | seen, k :: rest =>
    if seen.any (fun s => pyEq k s) then pyDedupKeys seen rest
    else k :: pyDedupKeys (k :: seen) rest

/-- An item whose dedup key computation is safe: a dict with a hashable key. -/
def ItemKeyWFb (item : Val) : Bool :=
  item.isDict && (specKey item).hashable

/-- `vget` on a dict is the total lookup. -/
theorem vget_dict {item : Val} (h : item.isDict = true) (k : String) :
    vget item k = .ok (dictGet item k) := by
  cases item <;> simp_all [Val.isDict, vget, dictGet]

/-- `vgetD` on a dict is the total lookup with default. -/
theorem vgetD_dict {item : Val} (h : item.isDict = true) (k : String) (d : Val) :
    vgetD item k d = .ok (dictGetD item k d) := by
  cases item <;> simp_all [Val.isDict, vgetD, dictGetD]

/-- `mkNewsRecord` on a dict succeeds with the spec record. -/
theorem mkNewsRecord_dict {item : Val} (h : item.isDict = true) :
    mkNewsRecord item = .ok (specRecord item) := by
  simp [mkNewsRecord, vget_dict h, vgetD_dict h, specRecord]

/-- The dedup loop on well-keyed items succeeds and returns exactly the
records of the first-occurrence survivors, in order. -/
theorem normLoop_eq :
    ∀ (items : List Val) (seen : List Val) (acc : List NewsItemN),
      (∀ item ∈ items, ItemKeyWFb item = true) →
      normLoop items seen acc =
        .ok (acc.reverse ++ (keptItems seen items).map specRecord) := by
  intro items
  induction items with
  | nil => intro seen acc _; simp [normLoop, keptItems]
  | cons item rest ih =>
    intro seen acc hwf
    have hitem := hwf item (List.Mem.head _)
    rw [ItemKeyWFb, Bool.and_eq_true] at hitem
    have hdict : item.isDict = true := hitem.1
    have hhash : (specKey item).hashable = true := hitem.2
    have hrest : ∀ i ∈ rest, ItemKeyWFb i = true :=
      fun i hi => hwf i (List.Mem.tail _ hi)
    simp only [normLoop, vget_dict hdict, pymBindOk]
    rw [show orVal (orVal (dictGet item "id") (dictGet item "url"))
      (dictGet item "title") = specKey item from rfl]
    simp only [hhash, Bool.not_true, Bool.false_eq_true, if_false]
    by_cases hseen : seen.any (fun k => pyEq (specKey item) k)
    · rw [if_pos hseen, ih seen acc hrest]
      simp [keptItems, hseen]
    · rw [if_neg hseen]
      simp only [mkNewsRecord_dict hdict, pymBindOk]
      rw [ih (specKey item :: seen) (specRecord item :: acc) hrest]
      simp [keptItems, hseen, List.append_assoc]

/-- Boolean equality tests are symmetric for lawful `BEq`. -/
theorem beqComm {α : Type} [BEq α] [LawfulBEq α] (x y : α) :
    (x == y) = (y == x) := by
  by_cases h : x = y
  · subst h; rfl
  · rw [beq_eq_false_iff_ne.mpr h, beq_eq_false_iff_ne.mpr (Ne.symm h)]

/-- Python equality is symmetric on the values it is defined for. -/
theorem pyEq_symm (a b : Val) : pyEq a b = pyEq b a := by
  cases a <;> cases b <;> simp only [pyEq, Val.numView] <;>
    first
      | rfl
      | exact beqComm _ _

/-- The keys of the dedup survivors are the first-occurrence dedup of the
item keys. -/
theorem keptItems_map_key :
    ∀ (items : List Val) (seen : List Val),
      (keptItems seen items).map specKey = pyDedupKeys seen (items.map specKey) := by
  intro items
  induction items with
  | nil => intro seen; simp [keptItems, pyDedupKeys]
  | cons item rest ih =>
    intro seen
    by_cases hseen : seen.any (fun k => pyEq (specKey item) k)
    · simp [keptItems, pyDedupKeys, hseen, ih]
    · simp [keptItems, pyDedupKeys, hseen, ih]

/-- The dedup survivors' keys avoid everything already seen and are
pairwise distinct under Python equality. -/
theorem pyDedupKeys_distinct :
    ∀ (ks : List Val) (seen : List Val),
      (∀ k ∈ pyDedupKeys seen ks, ∀ s ∈ seen, pyEq k s = false) ∧
      (pyDedupKeys seen ks).Pairwise (fun a b => pyEq a b = false) := by
  intro ks
  induction ks with
  | nil => intro seen; simp [pyDedupKeys]
  | cons k rest ih =>
    intro seen
    by_cases hseen : seen.any (fun s => pyEq k s)
    · simpa [pyDedupKeys, hseen] using ih seen
    · have hfresh : ∀ s ∈ seen, pyEq k s = false := by
        intro s hs
        by_contra hc
        exact hseen (List.any_eq_true.mpr ⟨s, hs, by
          cases h : pyEq k s
          · exact absurd h hc
          · rfl⟩)
      have ihk := ih (k :: seen)
      refine ⟨?_, ?_⟩
      · intro k' hk' s hs
        simp only [pyDedupKeys, hseen, Bool.false_eq_true, if_false,
          List.mem_cons] at hk'
        rcases hk' with hk' | hk'
        · subst hk'; exact hfresh s hs
        · exact ihk.1 k' hk' s (List.Mem.tail _ hs)
      · simp only [pyDedupKeys, hseen, Bool.false_eq_true, if_false]
        refine List.Pairwise.cons ?_ ihk.2
        intro k' hk'
        rw [pyEq_symm]
        exact ihk.1 k' hk' k (List.Mem.head _)

/-- C9. Normalizing the concatenation of two news lists (each item a dict
with a hashable identity key) succeeds; the output's length is the number
of Python-distinct identity keys of the combined input (the size of the
key union), the output is a permutation of the first-occurrence survivors'
records, and the survivors' identity keys are pairwise distinct — no key
appears twice. -/
theorem c9_dedup_key_union (l1 l2 : List Val)
    (hwf : ∀ item ∈ l1 ++ l2, ItemKeyWFb item = true) :
    ∃ out, normalizeNews (l1 ++ l2) = .ok out ∧
      out.length = (pyDedupKeys [] ((l1 ++ l2).map specKey)).length ∧
      out.Perm ((keptItems [] (l1 ++ l2)).map specRecord) ∧
      ((keptItems [] (l1 ++ l2)).map specKey).Pairwise
        (fun a b => pyEq a b = false) := by
  refine ⟨((keptItems [] (l1 ++ l2)).map specRecord).insertionSort
    (fun a b => newsDescLe a b = true), ?_, ?_, ?_, ?_⟩
  · simp [normalizeNews, normLoop_eq (l1 ++ l2) [] [] hwf]
  · rw [List.length_insertionSort, List.length_map, ← List.length_map _ specKey,
      keptItems_map_key]
  · exact List.perm_insertionSort _ _
  · rw [keptItems_map_key]
    exact (pyDedupKeys_distinct _ _).2

/-- Concrete overlapping lists for the C9 witness. -/
def c9List1 : List Val :=
  [.dict [("id", .str "n1"), ("title", .str "A")],
   .dict [("url", .str "u2"), ("title", .str "B")]]

/-- Second list, overlapping `c9List1` on both keys. -/
def c9List2 : List Val :=
  [.dict [("id", .str "n1"), ("title", .str "A2")],
   .dict [("url", .str "u2"), ("title", .str "B2")],
   .dict [("title", .str "C")]]

/-- C9, witness: the two overlapping lists above, through
`c9_dedup_key_union`. -/
theorem c9_dedup_key_union_witness :
    ∃ out, normalizeNews (c9List1 ++ c9List2) = .ok out ∧
      out.length = (pyDedupKeys [] ((c9List1 ++ c9List2).map specKey)).length ∧
      out.Perm ((keptItems [] (c9List1 ++ c9List2)).map specRecord) ∧
      ((keptItems [] (c9List1 ++ c9List2)).map specKey).Pairwise
        (fun a b => pyEq a b = false) :=
  c9_dedup_key_union c9List1 c9List2 (by decide)

/-- Midnight of any date is a nonnegative second count. -/
theorem dateSeconds_nonneg (d : Pdate) : 0 ≤ dateSeconds d := by
  unfold dateSeconds
  positivity

/-- A parsed ISO datetime string is a nonnegative second count. -/
theorem parseIsoDateTimeStr_nonneg (s : String) (t : Int)
    (h : parseIsoDateTimeStr s = some t) : 0 ≤ t := by
  unfold parseIsoDateTimeStr at h
  split at h
  · exact absurd h (by simp)
  · split at h
    · next d _ =>
      split at h
      · simp only [Option.some.injEq] at h
        subst h
        exact dateSeconds_nonneg d
      · split at h
        · rcases Option.map_eq_some'.mp h with ⟨tm, _, htm⟩
          subst htm
          exact add_nonneg (dateSeconds_nonneg d) (Int.natCast_nonneg tm)
        · exact absurd h (by simp)
    · exact absurd h (by simp)

/-- In a descending-sorted normalized list whose parsed timestamps are
all nonnegative, everything after an item without a timestamp is either
also timestampless or timestamped exactly at the sentinel minimum. -/
theorem descSorted_none_after {out : List NewsItemN}
    (hsort : out.Pairwise (fun a b => newsDescLe a b = true))
    (hkeys : ∀ n ∈ out, ∀ t, n.published_at = some t → 0 ≤ t) :
    ∀ i j (hi : i < out.length) (hj : j < out.length), i < j →
      (out.get ⟨i, hi⟩).published_at = Option.none →
      (out.get ⟨j, hj⟩).published_at = Option.none ∨
        (out.get ⟨j, hj⟩).published_at = some dtMinSeconds := by
  intro i j hi hj hij hnone
  have hrel := List.Sorted.rel_get_of_lt hsort
    (show (⟨i, hi⟩ : Fin out.length) < ⟨j, hj⟩ from hij)
  simp only [newsDescLe, decide_eq_true_eq, hnone, Option.getD_none] at hrel
  cases hpa : (out.get ⟨j, hj⟩).published_at with
  | none => exact Or.inl rfl
  | some t =>
    rw [hpa, Option.getD_some] at hrel
    have hnn : 0 ≤ t := hkeys _ (List.get_mem out j hj) t hpa
    have ht0 : t = 0 := le_antisymm (by simpa [dtMinSeconds] using hrel) hnn
    exact Or.inr (by rw [ht0]; rfl)

/-- Every parsed timestamp is at least the sentinel `datetime.min` (= 0 in
the seconds model). -/
theorem parseDatetimeVal_nonneg (v : Val) (t : Int)
    (h : parseDatetimeVal v = some t) : 0 ≤ t := by
  cases v with
  | num q =>
    simp only [parseDatetimeVal] at h
    split at h
    · next hc =>
      simp only [Option.some.injEq] at h
      subst h
      simp only [Bool.and_eq_true, decide_eq_true_eq, dtMinSeconds] at hc
      exact hc.1
    · exact absurd h (by simp)
  | bool b =>
    cases b
    · rw [show parseDatetimeVal (.bool false) = some epoch1970 from by decide] at h
      simp only [Option.some.injEq] at h
      subst h
      decide
    · rw [show parseDatetimeVal (.bool true) = some (epoch1970 + 1) from by decide] at h
      simp only [Option.some.injEq] at h
      subst h
      decide
  | str s => exact parseIsoDateTimeStr_nonneg s t h
  | none => simp [parseDatetimeVal] at h
  | list xs => simp [parseDatetimeVal] at h
  | dict kvs => simp [parseDatetimeVal] at h

/-- The descending-timestamp comparator is total. -/
theorem newsDescLe_total (a b : NewsItemN) :
    newsDescLe a b = true ∨ newsDescLe b a = true := by
  simp only [newsDescLe, decide_eq_true_eq]
  exact le_total _ _

/-- The descending-timestamp comparator is transitive. -/
theorem newsDescLe_trans (a b c : NewsItemN) (h1 : newsDescLe a b = true)
    (h2 : newsDescLe b c = true) : newsDescLe a c = true := by
  simp only [newsDescLe, decide_eq_true_eq] at h1 h2 ⊢
  exact le_trans h2 h1

/-- C10, counterexample. The spec says every item with an unparseable or
absent timestamp sorts last. Here an item without a timestamp (sentinel
`datetime.min`) precedes an item whose timestamp parses to exactly
`datetime.min` (the string "0001-01-01T00:00:00"): the two sort keys tie
and the stable sort keeps original order, so the unparseable item does
not sort last. -/
theorem c10_unparseable_not_last :
    (normalizeNews
      [.dict [("title", .str "a")],
       .dict [("title", .str "b"),
              ("published_at", .str "0001-01-01T00:00:00")]]).map
        (fun l => l.map (fun n => n.published_at)) =
      .ok [Option.none, some dtMinSeconds] := by
  with_unfolding_all decide

/-- C10, amended. On well-keyed inputs, normalization succeeds; the output
is sorted non-increasing by parsed timestamp (absent timestamps ranked as
the sentinel `datetime.min`), it is a permutation of the dedup survivors'
records, ties keep the survivors' original order (stable sort), and an
item without a parsed timestamp sorts after every item except those whose
timestamp is, or ties with, the sentinel minimum. -/
theorem c10_normalized_sorted (items : List Val)
    (hwf : ∀ item ∈ items, ItemKeyWFb item = true) :
    ∃ out, normalizeNews items = .ok out ∧
      out.Pairwise (fun a b => newsDescLe a b = true) ∧
      out.Perm ((keptItems [] items).map specRecord) ∧
      (∀ a b : NewsItemN, newsDescLe a b = true →
        List.Sublist [a, b] ((keptItems [] items).map specRecord) → List.Sublist [a, b] out) ∧
      (∀ i j (hi : i < out.length) (hj : j < out.length), i < j →
        (out.get ⟨i, hi⟩).published_at = Option.none →
        (out.get ⟨j, hj⟩).published_at = Option.none ∨
          (out.get ⟨j, hj⟩).published_at = some dtMinSeconds) := by
  refine ⟨((keptItems [] items).map specRecord).insertionSort
    (fun a b => newsDescLe a b = true), ?_, ?_, ?_, ?_, ?_⟩
  · simp [normalizeNews, normLoop_eq items [] [] hwf]
  · haveI : IsTotal NewsItemN (fun a b => newsDescLe a b = true) :=
      ⟨newsDescLe_total⟩
    haveI : IsTrans NewsItemN (fun a b => newsDescLe a b = true) :=
      ⟨newsDescLe_trans⟩
    exact List.sorted_insertionSort _ _
  · exact List.perm_insertionSort _ _
  · intro a b hab h
    haveI : IsTotal NewsItemN (fun a b => newsDescLe a b = true) :=
      ⟨newsDescLe_total⟩
    haveI : IsTrans NewsItemN (fun a b => newsDescLe a b = true) :=
      ⟨newsDescLe_trans⟩
    exact List.pair_sublist_insertionSort hab h
  · haveI : IsTotal NewsItemN (fun a b => newsDescLe a b = true) :=
      ⟨newsDescLe_total⟩
    haveI : IsTrans NewsItemN (fun a b => newsDescLe a b = true) :=
      ⟨newsDescLe_trans⟩
    refine descSorted_none_after (List.sorted_insertionSort _ _) ?_
    intro n hn t hpa
    rcases List.mem_map.mp ((List.mem_insertionSort _).mp hn) with ⟨item, _, hitem⟩
    apply parseDatetimeVal_nonneg
      (orVal (dictGet item "published_at") (dictGet item "publishedAt")) t
    rw [← hitem] at hpa
    simpa [specRecord] using hpa

/-- C10, witness: the amended sorting properties at a concrete three-item
input, through `c10_normalized_sorted`. -/
theorem c10_normalized_sorted_witness :
    ∃ out, normalizeNews
        [.dict [("title", .str "x"), ("published_at", .str "2026-01-24T10:00:00")],
         .dict [("title", .str "y")],
         .dict [("title", .str "z"), ("published_at", .str "2026-01-25T10:00:00")]] =
      .ok out ∧
      out.Pairwise (fun a b => newsDescLe a b = true) ∧
      out.Perm ((keptItems []
        [.dict [("title", .str "x"), ("published_at", .str "2026-01-24T10:00:00")],
         .dict [("title", .str "y")],
         .dict [("title", .str "z"), ("published_at", .str "2026-01-25T10:00:00")]]).map
          specRecord) ∧
      (∀ a b : NewsItemN, newsDescLe a b = true →
        List.Sublist [a, b] ((keptItems []
          [.dict [("title", .str "x"), ("published_at", .str "2026-01-24T10:00:00")],
           .dict [("title", .str "y")],
           .dict [("title", .str "z"), ("published_at", .str "2026-01-25T10:00:00")]]).map
            specRecord) → List.Sublist [a, b] out) ∧
      (∀ i j (hi : i < out.length) (hj : j < out.length), i < j →
        (out.get ⟨i, hi⟩).published_at = Option.none →
        (out.get ⟨j, hj⟩).published_at = Option.none ∨
          (out.get ⟨j, hj⟩).published_at = some dtMinSeconds) :=
  c10_normalized_sorted _ (by decide)

/-- Binding respects pointwise-equal continuations. -/
theorem pymBindCongr {α β : Type} {x : PyM α} {f g : α → PyM β}
    (h : ∀ a, f a = g a) : x >>= f = x >>= g := by
  cases x with
  | error e => rfl
  | ok a => exact h a

/-- `mapM` respects functions equal on the list's members. -/
theorem listMapM_congr {α β : Type} (l : List α) (f g : α → PyM β)
    (h : ∀ x ∈ l, f x = g x) : l.mapM f = l.mapM g := by
  induction l with
  | nil => rfl
  | cons a rest ih =>
    rw [List.mapM_cons, List.mapM_cons, h a (List.Mem.head _)]
    exact pymBindCongr fun b => by
      rw [ih (fun x hx => h x (List.Mem.tail _ hx))]

/-- A value with `isDict` is literally a dict. -/
theorem Val.isDict_exists {v : Val} (h : v.isDict = true) :
    ∃ kvs, v = .dict kvs := by
  cases v with
  | dict kvs => exact ⟨kvs, rfl⟩
  | none => simp [Val.isDict] at h
  | bool b => simp [Val.isDict] at h
  | num q => simp [Val.isDict] at h
  | str s => simp [Val.isDict] at h
  | list xs => simp [Val.isDict] at h

/-- When the cached sentiment payload is a dict, the Ticker Highlights
subsection never consults the clock (the weighted-sentiment branch is
dead). -/
theorem tickerSection_clock (cache : String → Val) (cw ml : String)
    (fmt : Val → PyM String) (t : String) (r : TickerRec) (now1 now2 : Int)
    (h : (orVal (cache ("finnhub:sentiment:" ++ t ++ ":latest"))
          (cache ("finnhub:sentiment:" ++ t))).isDict = true) :
    tickerSection cache now1 cw ml fmt t r =
      tickerSection cache now2 cw ml fmt t r := by
  obtain ⟨kvs, hk⟩ := Val.isDict_exists h
  simp only [tickerSection, sentLineOf, hk]

/-- When the cached sentiment payload is a dict, the JSON highlight entry
never consults the clock. -/
theorem tickerJson_clock (cache : String → Val) (t : String) (r : TickerRec)
    (now1 now2 : Int)
    (h : (orVal (cache ("finnhub:sentiment:" ++ t ++ ":latest"))
          (cache ("finnhub:sentiment:" ++ t))).isDict = true) :
    tickerJson cache now1 t r = tickerJson cache now2 t r := by
  obtain ⟨kvs, hk⟩ := Val.isDict_exists h
  simp only [tickerJson, sentValOf, hk]

/-- C6, counterexample. Two invocations of the daily digest with the same
cache, tickers, and explicit target date, at different wall-clock
instants, produce different Markdown: the clock sets the recency weights
of the weighted sentiment (weekly.py lines 117-123), so the sentiment
line changes — and the daily artifacts contain no "generated at" field
that could be excluded to restore byte-identity. -/
theorem c6_clock_changes_artifacts :
    ¬ ((generateDailyDigest
          (fun k =>
            if k == "yahoo:news:AAA:latest" then
              .list [.dict [("id", .str "p"), ("title", .str "Acme beats estimates"),
                            ("url", .str "https://e/1"),
                            ("published_at", .str "2026-01-25T10:00:00")],
                     .dict [("id", .str "n"), ("title", .str "Acme misses estimates"),
                            ("url", .str "https://e/2"),
                            ("published_at", .str "2026-01-24T23:59:59")]]
            else .none)
          ["AAA"] (some ⟨2026, 1, 25⟩) ⟨2026, 1, 25⟩
          (dateSeconds ⟨2026, 1, 25⟩ + 36000) Option.none false).map
            DigestArt.mdLines =
        (generateDailyDigest
          (fun k =>
            if k == "yahoo:news:AAA:latest" then
              .list [.dict [("id", .str "p"), ("title", .str "Acme beats estimates"),
                            ("url", .str "https://e/1"),
                            ("published_at", .str "2026-01-25T10:00:00")],
                     .dict [("id", .str "n"), ("title", .str "Acme misses estimates"),
                            ("url", .str "https://e/2"),
                            ("published_at", .str "2026-01-24T23:59:59")]]
            else .none)
          ["AAA"] (some ⟨2026, 1, 25⟩) ⟨2026, 1, 25⟩
          (dateSeconds ⟨2026, 1, 26⟩ + 32400) Option.none false).map
            DigestArt.mdLines) := by
  with_unfolding_all decide

/-- C6, amended. The builders are pure functions of the cache, the inputs
and the clock, so with the clock reading unchanged two invocations agree
byte-for-byte; and for the daily digest with an explicit target date the
clock enters only through the weighted-sentiment recency weights, so when
every ticker has a cached structured (dict) sentiment payload the
artifacts are identical across invocations at any two wall-clock
instants. -/
theorem c6_daily_fixed_date_clock_independent (cache : String → Val)
    (tickers : List String) (d today : Pdate) (now1 now2 : Int)
    (titleP : Option String) (inc : Bool)
    (hsent : ∀ t ∈ tickersSorted tickers,
      (orVal (cache ("finnhub:sentiment:" ++ t ++ ":latest"))
             (cache ("finnhub:sentiment:" ++ t))).isDict = true) :
    generateDailyDigest cache tickers (some d) today now1 titleP inc =
      generateDailyDigest cache tickers (some d) today now2 titleP inc := by
  simp only [generateDailyDigest]
  apply pymBindCongr; intro tl
  apply pymBindCongr; intro info
  apply pymBindCongr; intro snap
  apply pymBindCongr; intro smap
  apply pymBindCongr; intro themes
  split
  all_goals
    apply pymBindCongr; intro mkt
    rw [listMapM_congr _ _ _
      (fun t ht => tickerSection_clock cache _ _ _ t (tickerLookup tl.1 t) now1 now2
        (hsent t ht))]
    apply pymBindCongr; intro parts
    apply pymBindCongr; intro pt
    apply pymBindCongr; intro prompt
    rw [listMapM_congr _ _ _
      (fun t ht => tickerJson_clock cache t (tickerLookup tl.1 t) now1 now2
        (hsent t ht))]

/-- C6, witness: a concrete cache with a structured sentiment payload for
the single ticker, two distinct clock instants, through
`c6_daily_fixed_date_clock_independent`. -/
theorem c6_daily_fixed_date_clock_independent_witness :
    generateDailyDigest
      (fun k => if k == "finnhub:sentiment:AAA:latest" then
          .dict [("label", .str "Positive"), ("score", .num (7 / 10))]
        else .none)
      ["AAA"] (some ⟨2026, 1, 25⟩) ⟨2026, 1, 25⟩ 0 Option.none true =
    generateDailyDigest
      (fun k => if k == "finnhub:sentiment:AAA:latest" then
          .dict [("label", .str "Positive"), ("score", .num (7 / 10))]
        else .none)
      ["AAA"] (some ⟨2026, 1, 25⟩) ⟨2026, 1, 25⟩ 999999999 Option.none true :=
  c6_daily_fixed_date_clock_independent _ _ _ _ _ _ _ _
    (by with_unfolding_all decide)

/-- Whether a value is a Python string. -/
def Val.isStr : Val → Bool
  | .str _ => true
  | _ => false

/-- Well-shaped fundamentals payload: if truthy it must be a dict whose
defaulted sector is a string (an absent or falsy sector defaults to the
string "Unknown"). Strings are hashable, so the `setdefault` hash at
weekly.py line 263 succeeds, and the sector sort key `(-avg, sector)`
(weekly.py line 267) compares without `TypeError` — a non-string sector
would be outside this predicate precisely because CPython can raise
there when average changes tie. -/
def WFfund (v : Val) : Bool :=
  match v with
  | .dict _ => (orVal (dictGet v "sector") (.str "Unknown")).isStr
  | _ => !v.truthy

/-- Well-shaped price payload: if truthy it must be a list of dicts. -/
def WFprices (v : Val) : Bool :=
  match v with
  | .list xs => xs.all Val.isDict
  | _ => !v.truthy

/-- Well-shaped raw news item: a dict with a hashable identity key, a
string title (the default is ""), and string url/source when truthy. -/
def WFnewsItemb (item : Val) : Bool :=
  item.isDict && (specKey item).hashable &&
  (dictGetD item "title" (.str "")).isStr &&
  (!(dictGetD item "url" (.str "")).truthy || (dictGetD item "url" (.str "")).isStr) &&
  (!(dictGetD item "source" (.str "Unknown")).truthy ||
    (dictGetD item "source" (.str "Unknown")).isStr)

/-- Well-shaped news payload: if truthy, a list of well-shaped items. -/
def WFnewsVal (v : Val) : Bool :=
  match v with
  | .list xs => xs.all WFnewsItemb
  | _ => !v.truthy

/-- Well-shaped sentiment score: absent or numeric (daily's
`float(score)` accepts numbers and booleans). -/
def WFscore (v : Val) : Bool :=
  match v with
  | .none => true
  | .num _ => true
  | .bool _ => true
  | _ => false

/-- Well-shaped sentiment payload pair: when their `or` is a dict, its
score must be well-shaped. -/
def WFsent (v1 v2 : Val) : Bool :=
  match orVal v1 v2 with
  | .dict _ => WFscore (dictGet (orVal v1 v2) "score")
  | _ => true

/-- Well-shaped cache entries for one ticker: the five keys the builders
read per ticker (weekly.py lines 206-210 and 330, daily.py lines 62-66
and 188). -/
def WFcacheFor (cache : String → Val) (t : String) : Prop :=
  WFfund (cache ("yahoo:fundamentals:" ++ t)) = true ∧
  WFprices (cache ("yahoo:prices:" ++ t ++ ":5d:1d")) = true ∧
  WFnewsVal (cache ("yahoo:news:" ++ t ++ ":latest")) = true ∧
  WFnewsVal (cache ("finnhub:news:" ++ t ++ ":latest")) = true ∧
  WFsent (cache ("finnhub:sentiment:" ++ t ++ ":latest"))
    (cache ("finnhub:sentiment:" ++ t)) = true

/-- Well-shaped normalized record: string title, string url/source when
truthy — the facts rendering and the prompt builder rely on. -/
def WFrec (n : NewsItemN) : Bool :=
  n.title.isStr && (!n.url.truthy || n.url.isStr) &&
    (!n.source.truthy || n.source.isStr)

/-- Well-shaped CSV row: string url and source when truthy. -/
def RowOKb (row : CsvRow) : Bool :=
  (!row.url.truthy || row.url.isStr) && (!row.source.truthy || row.source.isStr)

/-- `mapM` of a pointwise-successful function succeeds, and every input
element has its image in the output. -/
theorem listMapM_ok {α β : Type} (l : List α) (f : α → PyM β)
    (h : ∀ x ∈ l, ∃ y, f x = .ok y) :
    ∃ ys, l.mapM f = .ok ys ∧
      (∀ x ∈ l, ∃ y ∈ ys, f x = .ok y) ∧
      (∀ y ∈ ys, ∃ x ∈ l, f x = .ok y) := by
  induction l with
  | nil => exact ⟨[], by rw [List.mapM_nil]; rfl, by simp, by simp⟩
  | cons a rest ih =>
    obtain ⟨y, hy⟩ := h a (List.Mem.head _)
    obtain ⟨ys, hys, hmem, hmem'⟩ := ih (fun x hx => h x (List.Mem.tail _ hx))
    refine ⟨y :: ys, ?_, ?_, ?_⟩
    · rw [List.mapM_cons, hy, pymBindOk, hys, pymBindOk]; rfl
    · intro x hx
      rcases List.mem_cons.mp hx with hx | hx
      · exact ⟨y, List.Mem.head _, hx ▸ hy⟩
      · obtain ⟨y', hy', hf⟩ := hmem x hx
        exact ⟨y', List.Mem.tail _ hy', hf⟩
    · intro y' hy'
      rcases List.mem_cons.mp hy' with hy' | hy'
      · exact ⟨a, List.Mem.head _, hy' ▸ hy⟩
      · obtain ⟨x, hx, hf⟩ := hmem' y' hy'
        exact ⟨x, List.Mem.tail _ hx, hf⟩

/-- A string-valued title gives a successful sentiment call. -/
theorem headlineSentimentV_isStr {v : Val} (h : v.isStr = true) :
    ∃ s, headlineSentimentV v = .ok s := by
  cases v <;> simp_all [Val.isStr, headlineSentimentV]

/-- A string-valued title gives successful tokenization. -/
theorem titleTokens_isStr {v : Val} (h : v.isStr = true) :
    ∃ ws, titleTokens v = .ok ws := by
  cases v <;> simp_all [Val.isStr, titleTokens]

/-- The sentiment accumulation loop succeeds on string titles. -/
theorem sentAccum_ok (now : Int) :
    ∀ (news : List NewsItemN) (tw ss : ℚ),
      (∀ n ∈ news, n.title.isStr = true) →
      ∃ p, sentAccum now news tw ss = .ok p := by
  intro news
  induction news with
  | nil => intro tw ss _; exact ⟨_, rfl⟩
  | cons item rest ih =>
    intro tw ss h
    obtain ⟨s, hs⟩ := headlineSentimentV_isStr (h item (List.Mem.head _))
    obtain ⟨p, hp⟩ := ih (tw + sentWeight now item.published_at)
      (ss + (s : ℚ) * sentWeight now item.published_at)
      (fun n hn => h n (List.Mem.tail _ hn))
    exact ⟨p, by rw [sentAccum, hs, pymBindOk]; exact hp⟩

/-- `_weighted_sentiment` succeeds on string titles. -/
theorem weightedSentiment_ok (now : Int) (news : List NewsItemN)
    (h : ∀ n ∈ news, n.title.isStr = true) :
    ∃ r, weightedSentiment now news = .ok r := by
  unfold weightedSentiment
  by_cases hemp : news.isEmpty
  · exact ⟨_, by rw [if_pos hemp]⟩
  · rw [if_neg hemp]
    obtain ⟨p, hp⟩ := sentAccum_ok now news 0 0 h
    rw [hp, pymBindOk]
    by_cases hz : p.1 == 0
    · exact ⟨_, by rw [if_pos hz]; rfl⟩
    · rw [if_neg hz]
      dsimp only
      split
      · exact ⟨_, rfl⟩
      · split
        · exact ⟨_, rfl⟩
        · exact ⟨_, rfl⟩

/-- The theme-counting loop succeeds on string titles. -/
theorem themeAccum_ok :
    ∀ (news : List NewsItemN) (acc : List (String × Nat)),
      (∀ n ∈ news, n.title.isStr = true) →
      ∃ cs, themeAccum news acc = .ok cs := by
  intro news
  induction news with
  | nil => intro acc _; exact ⟨acc, rfl⟩
  | cons item rest ih =>
    intro acc h
    obtain ⟨ws, hws⟩ := titleTokens_isStr (h item (List.Mem.head _))
    obtain ⟨cs, hcs⟩ := ih _ (fun n hn => h n (List.Mem.tail _ hn))
    exact ⟨cs, by rw [themeAccum, hws, pymBindOk]; exact hcs⟩

/-- `_extract_themes` succeeds on string titles. -/
theorem extractThemes_ok (news : List NewsItemN)
    (h : ∀ n ∈ news, n.title.isStr = true) :
    ∃ ts, extractThemes news = .ok ts := by
  obtain ⟨cs, hcs⟩ := themeAccum_ok news [] h
  exact ⟨_, by rw [extractThemes, hcs, pymBindOk]; rfl⟩

/-- A well-shaped raw item yields a well-shaped normalized record. -/
theorem specRecord_wf {item : Val} (h : WFnewsItemb item = true) :
    WFrec (specRecord item) = true := by
  simp only [WFnewsItemb, Bool.and_eq_true] at h
  obtain ⟨⟨⟨⟨-, -⟩, hC⟩, hD⟩, hE⟩ := h
  simp only [WFrec, specRecord, Bool.and_eq_true]
  exact ⟨⟨hC, hD⟩, hE⟩

/-- Dedup survivors come from the input list. -/
theorem keptItems_subset :
    ∀ (items seen : List Val) (x : Val), x ∈ keptItems seen items → x ∈ items := by
  intro items
  induction items with
  | nil => intro seen x hx; simp [keptItems] at hx
  | cons item rest ih =>
    intro seen x hx
    by_cases hseen : seen.any (fun k => pyEq (specKey item) k)
    · simp only [keptItems, hseen, if_true] at hx
      exact List.Mem.tail _ (ih seen x hx)
    · simp only [keptItems, hseen, Bool.false_eq_true, if_false,
        List.mem_cons] at hx
      rcases hx with hx | hx
      · exact hx ▸ List.Mem.head _
      · exact List.Mem.tail _ (ih _ x hx)

/-- Normalization of well-shaped items succeeds with well-shaped records. -/
theorem normalizeNews_wf (items : List Val)
    (h : ∀ item ∈ items, WFnewsItemb item = true) :
    ∃ l, normalizeNews items = .ok l ∧ ∀ n ∈ l, WFrec n = true := by
  have hkey : ∀ item ∈ items, ItemKeyWFb item = true := by
    intro item hi
    have hh := h item hi
    simp only [WFnewsItemb, Bool.and_eq_true] at hh
    obtain ⟨⟨⟨⟨hA, hB⟩, -⟩, -⟩, -⟩ := hh
    simp only [ItemKeyWFb, Bool.and_eq_true]
    exact ⟨hA, hB⟩
  have hnorm : normalizeNews items =
      .ok (((keptItems [] items).map specRecord).insertionSort
        (fun a b => newsDescLe a b = true)) := by
    simp [normalizeNews, normLoop_eq items [] [] hkey]
  refine ⟨_, hnorm, ?_⟩
  intro n hn
  rcases List.mem_map.mp ((List.mem_insertionSort _).mp hn) with ⟨item, hmem, hitem⟩
  exact hitem ▸ specRecord_wf (h item (keptItems_subset _ _ _ hmem))

/-- A string value exposes its contents. -/
theorem isStr_exists {v : Val} (h : v.isStr = true) : ∃ s, v = .str s := by
  cases v <;> simp_all [Val.isStr]

/-- Strings are hashable. -/
theorem isStr_hashable {v : Val} (h : v.isStr = true) : v.hashable = true := by
  cases v <;> simp_all [Val.isStr, Val.hashable]

/-- `a or b` when `a` is falsy. -/
theorem orVal_of_falsy {a : Val} (h : a.truthy = false) (b : Val) : orVal a b = b := by
  simp [orVal, h]

/-- `a or b` when `a` is truthy. -/
theorem orVal_of_truthy {a : Val} (h : a.truthy = true) (b : Val) : orVal a b = a := by
  simp [orVal, h]

/-- Re-applying the same default is the identity. -/
theorem orVal_idem (a b : Val) : orVal (orVal a b) b = orVal a b := by
  by_cases h : a.truthy
  · simp [orVal, h]
  · simp [orVal, h]

/-- A well-shaped fundamentals payload, after `or {}`, is a dict whose
defaulted sector entry is a string. -/
theorem WFfund_facts {v : Val} (h : WFfund v = true) :
    (orVal v (.dict [])).isDict = true ∧
    (orVal (dictGet (orVal v (.dict [])) "sector") (.str "Unknown")).isStr = true := by
  cases v with
  | dict kvs =>
    have he : orVal (Val.dict kvs) (Val.dict []) = Val.dict kvs := by
      by_cases ht : (Val.dict kvs).truthy
      · exact orVal_of_truthy ht _
      · have : kvs = [] := by
          simpa [Val.truthy, List.isEmpty_iff] using ht
        subst this; exact orVal_of_falsy (by rfl) _
    rw [he]
    exact ⟨rfl, by simpa [WFfund] using h⟩
  | none => exact ⟨rfl, rfl⟩
  | bool b =>
    have hb : (Val.bool b).truthy = false := by
      simpa [WFfund] using h
    rw [orVal_of_falsy hb]; exact ⟨rfl, rfl⟩
  | num q =>
    have hb : (Val.num q).truthy = false := by
      simpa [WFfund] using h
    rw [orVal_of_falsy hb]; exact ⟨rfl, rfl⟩
  | str s =>
    have hb : (Val.str s).truthy = false := by
      simpa [WFfund] using h
    rw [orVal_of_falsy hb]; exact ⟨rfl, rfl⟩
  | list xs =>
    have hb : (Val.list xs).truthy = false := by
      simpa [WFfund] using h
    rw [orVal_of_falsy hb]; exact ⟨rfl, rfl⟩

/-- A well-shaped price payload, after `or []`, is a list of dicts. -/
theorem WFprices_facts {v : Val} (h : WFprices v = true) :
    ∃ xs, orVal v (.list []) = .list xs ∧ ∀ x ∈ xs, x.isDict = true := by
  cases v with
  | list xs =>
    by_cases ht : (Val.list xs).truthy
    · exact ⟨xs, orVal_of_truthy ht _, by
        intro x hx
        exact List.all_eq_true.mp (by simpa [WFprices] using h) x hx⟩
    · exact ⟨[], orVal_of_falsy (by simpa using ht) _, by simp⟩
  | none => exact ⟨[], rfl, by simp⟩
  | bool b =>
    exact ⟨[], orVal_of_falsy (by simpa [WFprices] using h) _, by simp⟩
  | num q =>
    exact ⟨[], orVal_of_falsy (by simpa [WFprices] using h) _, by simp⟩
  | str s =>
    exact ⟨[], orVal_of_falsy (by simpa [WFprices] using h) _, by simp⟩
  | dict kvs =>
    exact ⟨[], orVal_of_falsy (by simpa [WFprices] using h) _, by simp⟩

/-- A well-shaped news payload, after `or []`, is a list of well-shaped
items. -/
theorem WFnewsVal_facts {v : Val} (h : WFnewsVal v = true) :
    ∃ xs, orVal v (.list []) = .list xs ∧ ∀ x ∈ xs, WFnewsItemb x = true := by
  cases v with
  | list xs =>
    by_cases ht : (Val.list xs).truthy
    · exact ⟨xs, orVal_of_truthy ht _, by
        intro x hx
        exact List.all_eq_true.mp (by simpa [WFnewsVal] using h) x hx⟩
    · exact ⟨[], orVal_of_falsy (by simpa using ht) _, by simp⟩
  | none => exact ⟨[], rfl, by simp⟩
  | bool b =>
    exact ⟨[], orVal_of_falsy (by simpa [WFnewsVal] using h) _, by simp⟩
  | num q =>
    exact ⟨[], orVal_of_falsy (by simpa [WFnewsVal] using h) _, by simp⟩
  | str s =>
    exact ⟨[], orVal_of_falsy (by simpa [WFnewsVal] using h) _, by simp⟩
  | dict kvs =>
    exact ⟨[], orVal_of_falsy (by simpa [WFnewsVal] using h) _, by simp⟩

/-- In-range list indexing succeeds with a member of the list. -/
theorem vindex_list_ok (xs : List Val) (i : Int)
    (h0 : 0 ≤ (if i < 0 then i + xs.length else i))
    (h1 : (if i < 0 then i + xs.length else i).toNat < xs.length) :
    ∃ x ∈ xs, vindex (.list xs) i = .ok x := by
  refine ⟨xs.get ⟨(if i < 0 then i + xs.length else i).toNat, h1⟩,
    List.get_mem xs _ h1, ?_⟩
  simp only [vindex]
  rw [dif_pos ⟨h0, h1⟩]

/-- On a list of dicts, the price-change computation succeeds for the index
pairs the builders use, and a numeric change implies numeric endpoint
prices. -/
theorem priceChange_ok (xs : List Val) (hd : ∀ x ∈ xs, x.isDict = true)
    (iS iE : Int) (hiS : iS = 0 ∨ iS = -2) (hiE : iE = -1) :
    ∃ p, priceChange (.list xs) iS iE = .ok p ∧
      ∀ c, p.1 = some c →
        p.2.1.numView.isSome = true ∧ p.2.2.numView.isSome = true := by
  by_cases ht : (Val.list xs).truthy
  · simp only [priceChange]
    rw [if_pos ht,
      show vlen (Val.list xs) = .ok xs.length from rfl, pymBindOk]
    by_cases hn : xs.length ≥ 2
    · rw [if_pos hn]
      have hS0 : 0 ≤ (if iS < 0 then iS + xs.length else iS) := by
        rcases hiS with rfl | rfl
        · norm_num
        · rw [if_pos (by norm_num)]; omega
      have hS1 : (if iS < 0 then iS + xs.length else iS).toNat < xs.length := by
        rcases hiS with rfl | rfl
        · rw [if_neg (by norm_num)]; omega
        · rw [if_pos (by norm_num)]; omega
      have hE0 : 0 ≤ (if iE < 0 then iE + xs.length else iE) := by
        subst hiE; rw [if_pos (by norm_num)]; omega
      have hE1 : (if iE < 0 then iE + xs.length else iE).toNat < xs.length := by
        subst hiE; rw [if_pos (by norm_num)]; omega
      obtain ⟨x0, hx0m, hx0⟩ := vindex_list_ok xs iS hS0 hS1
      obtain ⟨x1, hx1m, hx1⟩ := vindex_list_ok xs iE hE0 hE1
      rw [hx0, pymBindOk, hx1, pymBindOk, vget_dict (hd x0 hx0m), pymBindOk,
        vget_dict (hd x1 hx1m), pymBindOk]
      refine ⟨_, rfl, ?_⟩
      intro c hc
      simp only at hc
      by_cases htr : (dictGet x0 "close").truthy = true
      · rw [if_pos htr] at hc
        cases h1v : (dictGet x1 "close").numView with
        | none => rw [h1v] at hc; simp at hc
        | some e =>
          cases h0v : (dictGet x0 "close").numView with
          | none => rw [h1v, h0v] at hc; simp at hc
          | some s2 =>
            exact ⟨rfl, rfl⟩
      · rw [if_neg htr] at hc
        simp at hc
    · rw [if_neg hn]
      exact ⟨_, rfl, by intro c hc; simp at hc⟩
  · simp only [priceChange]
    rw [if_neg ht]
    exact ⟨_, rfl, by intro c hc; simp at hc⟩

/-- The conjunction of facts about one built ticker record that the
rendering passes rely on: a dict-shaped (possibly empty) fundamentals
value with a string defaulted sector, numeric endpoint prices whenever
the change is numeric, and well-shaped normalized news. -/
def RecOK (r : TickerRec) : Prop :=
  (orVal r.fund (.dict [])).isDict = true ∧
  (orVal (dictGet (orVal r.fund (.dict [])) "sector") (.str "Unknown")).isStr = true ∧
  (∀ c, r.change = some c →
    r.start_price.numView.isSome = true ∧ r.end_price.numView.isSome = true) ∧
  (∀ n ∈ r.news, WFrec n = true)

/-- On a well-shaped cache, the weekly per-ticker builder succeeds; absent
prices degrade the change to `None` and absent news to an empty list. -/
theorem buildTickerRecW_ok (cache : String → Val) (t : String)
    (h : WFcacheFor cache t) :
    ∃ r, buildTickerRecW cache t = .ok r ∧ RecOK r ∧
      ((cache ("yahoo:prices:" ++ t ++ ":5d:1d")).truthy = false →
        r.change = Option.none) ∧
      ((cache ("yahoo:news:" ++ t ++ ":latest")).truthy = false →
        (cache ("finnhub:news:" ++ t ++ ":latest")).truthy = false →
        r.news = []) := by
  obtain ⟨hfund, hpr, hyn, hfn, -⟩ := h
  obtain ⟨xs, hxs, hxd⟩ := WFprices_facts hpr
  obtain ⟨ys, hys, hyw⟩ := WFnewsVal_facts hyn
  obtain ⟨fs, hfs, hfw⟩ := WFnewsVal_facts hfn
  obtain ⟨news, hnews, hnw⟩ := normalizeNews_wf (ys ++ fs) (by
    intro it hi
    rcases List.mem_append.mp hi with h' | h'
    exacts [hyw it h', hfw it h'])
  obtain ⟨pc, hpc, hpcg⟩ := priceChange_ok xs hxd 0 (-1) (Or.inl rfl) rfl
  refine ⟨⟨orVal (cache ("yahoo:fundamentals:" ++ t)) (.dict []), .list xs,
    pc.1, pc.2.1, pc.2.2, news⟩, ?_, ⟨?_, ?_, hpcg, hnw⟩, ?_, ?_⟩
  · simp only [buildTickerRecW]
    rw [hys, hfs,
      show pyAdd (Val.list ys) (Val.list fs) = .ok (.list (ys ++ fs)) from rfl,
      pymBindOk,
      show iterVal (Val.list (ys ++ fs)) = .ok (ys ++ fs) from rfl,
      pymBindOk, hnews, pymBindOk, hxs, hpc, pymBindOk]
    rfl
  · rw [orVal_idem]
    exact (WFfund_facts hfund).1
  · rw [orVal_idem]
    exact (WFfund_facts hfund).2
  · intro hft
    rw [orVal_of_falsy hft] at hxs
    have hxe : xs = [] := by injection hxs with h'; exact h'.symm
    subst hxe
    have h2 : pc = (Option.none, Val.none, Val.none) := by
      rw [show priceChange (Val.list []) 0 (-1) =
        Except.ok ((Option.none : Option ℚ), Val.none, Val.none) from rfl] at hpc
      exact (Except.ok.inj hpc).symm
    rw [h2]
  · intro hy hf
    rw [orVal_of_falsy hy] at hys
    rw [orVal_of_falsy hf] at hfs
    have hye : ys = [] := by injection hys with h'; exact h'.symm
    have hfe : fs = [] := by injection hfs with h'; exact h'.symm
    subst hye; subst hfe
    rw [show normalizeNews ([] ++ []) = .ok [] from rfl] at hnews
    exact (Except.ok.inj hnews).symm

/-- Filtering the news window preserves membership. -/
theorem filterNewsLast24h_subset (items : List NewsItemN) (e : Option Int)
    (now : Int) (n : NewsItemN) (h : n ∈ filterNewsLast24h items e now) :
    n ∈ items :=
  (List.mem_filter.mp h).1

/-- On a well-shaped cache, the daily per-ticker builder succeeds; absent
prices degrade the change to `None` and absent news to an empty list. -/
theorem buildTickerRecD_ok (cache : String → Val) (endTime : Option Int)
    (now : Int) (t : String) (h : WFcacheFor cache t) :
    ∃ r, buildTickerRecD cache endTime now t = .ok r ∧ RecOK r ∧
      ((cache ("yahoo:prices:" ++ t ++ ":5d:1d")).truthy = false →
        r.change = Option.none) ∧
      ((cache ("yahoo:news:" ++ t ++ ":latest")).truthy = false →
        (cache ("finnhub:news:" ++ t ++ ":latest")).truthy = false →
        r.news = []) := by
  obtain ⟨hfund, hpr, hyn, hfn, -⟩ := h
  obtain ⟨xs, hxs, hxd⟩ := WFprices_facts hpr
  obtain ⟨ys, hys, hyw⟩ := WFnewsVal_facts hyn
  obtain ⟨fs, hfs, hfw⟩ := WFnewsVal_facts hfn
  obtain ⟨news, hnews, hnw⟩ := normalizeNews_wf (ys ++ fs) (by
    intro it hi
    rcases List.mem_append.mp hi with h' | h'
    exacts [hyw it h', hfw it h'])
  obtain ⟨pc, hpc, hpcg⟩ := priceChange_ok xs hxd (-2) (-1) (Or.inr rfl) rfl
  refine ⟨⟨orVal (cache ("yahoo:fundamentals:" ++ t)) (.dict []), .list xs,
    pc.1, pc.2.1, pc.2.2, filterNewsLast24h news endTime now⟩, ?_,
    ⟨?_, ?_, hpcg, ?_⟩, ?_, ?_⟩
  · simp only [buildTickerRecD]
    rw [hys, hfs,
      show pyAdd (Val.list ys) (Val.list fs) = .ok (.list (ys ++ fs)) from rfl,
      pymBindOk,
      show iterVal (Val.list (ys ++ fs)) = .ok (ys ++ fs) from rfl,
      pymBindOk, hnews, pymBindOk, hxs, hpc, pymBindOk]
    rfl
  · rw [orVal_idem]
    exact (WFfund_facts hfund).1
  · rw [orVal_idem]
    exact (WFfund_facts hfund).2
  · intro n hn
    exact hnw n (filterNewsLast24h_subset news endTime now n hn)
  · intro hft
    rw [orVal_of_falsy hft] at hxs
    have hxe : xs = [] := by injection hxs with h'; exact h'.symm
    subst hxe
    have h2 : pc = (Option.none, Val.none, Val.none) := by
      rw [show priceChange (Val.list []) (-2) (-1) =
        Except.ok ((Option.none : Option ℚ), Val.none, Val.none) from rfl] at hpc
      exact (Except.ok.inj hpc).symm
    rw [h2]
  · intro hy hf
    rw [orVal_of_falsy hy] at hys
    rw [orVal_of_falsy hf] at hfs
    have hye : ys = [] := by injection hys with h'; exact h'.symm
    have hfe : fs = [] := by injection hfs with h'; exact h'.symm
    subst hye; subst hfe
    rw [show normalizeNews ([] ++ []) = .ok [] from rfl] at hnews
    have : news = [] := (Except.ok.inj hnews).symm
    subst this
    rfl

/-- Dict insertion produces pairs that were present before or carry the
inserted value under the inserted key. -/
theorem assocUpsert_mem :
    ∀ (l : List (String × TickerRec)) (k : String) (v : TickerRec)
      (p : String × TickerRec), p ∈ assocUpsert l k v → p ∈ l ∨ p = (k, v) := by
  intro l
  induction l with
  | nil =>
    intro k v p hp
    simp only [assocUpsert, List.mem_singleton] at hp
    exact Or.inr hp
  | cons q rest ih =>
    intro k v p hp
    obtain ⟨k', v'⟩ := q
    by_cases hk : k' == k
    · simp only [assocUpsert, hk, if_true, List.mem_cons] at hp
      rcases hp with hp | hp
      · have : k' = k := by simpa using hk
        subst this
        exact Or.inr hp
      · exact Or.inl (List.Mem.tail _ hp)
    · simp only [assocUpsert, hk, Bool.false_eq_true, if_false,
        List.mem_cons] at hp
      rcases hp with hp | hp
      · exact Or.inl (hp ▸ List.Mem.head _)
      · rcases ih k v p hp with h | h
        · exact Or.inl (List.Mem.tail _ h)
        · exact Or.inr h

/-- The cache-reading loop succeeds when every ticker's builder does, and
its outputs inherit the per-ticker invariant and well-shaped news. -/
theorem tickerLoop_inv (mk : String → PyM TickerRec)
    (P : String → TickerRec → Prop) :
    ∀ (ts : List String) (td0 : List (String × TickerRec)) (an0 : List NewsItemN),
      (∀ t ∈ ts, ∃ r, mk t = .ok r ∧ P t r) →
      (∀ p ∈ td0, P p.1 p.2) →
      (∀ n ∈ an0, WFrec n = true) →
      (∀ t r, P t r → ∀ n ∈ r.news, WFrec n = true) →
      ∃ out, tickerLoop mk ts td0 an0 = .ok out ∧
        (∀ p ∈ out.1, P p.1 p.2) ∧ (∀ n ∈ out.2, WFrec n = true) := by
  intro ts
  induction ts with
  | nil =>
    intro td0 an0 _ htd han _
    exact ⟨(td0, an0), rfl, htd, han⟩
  | cons t rest ih =>
    intro td0 an0 hmk htd han hQ
    obtain ⟨r, hr, hPr⟩ := hmk t (List.Mem.head _)
    obtain ⟨out, hout, h1, h2⟩ := ih (assocUpsert td0 t r) (an0 ++ r.news)
      (fun t' ht' => hmk t' (List.Mem.tail _ ht'))
      (by
        intro p hp
        rcases assocUpsert_mem td0 t r p hp with h | h
        · exact htd p h
        · rw [h]; exact hPr)
      (by
        intro n hn
        rcases List.mem_append.mp hn with h | h
        · exact han n h
        · exact hQ t r hPr n h)
      hQ
    refine ⟨out, ?_, h1, h2⟩
    simp only [tickerLoop]
    rw [hr, pymBindOk]
    exact hout

/-- A rendering-time lookup either falls back to the empty record or hits a
pair stored in the table. -/
theorem tickerLookup_mem (td : List (String × TickerRec)) (t : String) :
    tickerLookup td t = emptyTickerRec ∨ (t, tickerLookup td t) ∈ td := by
  cases hf : td.find? (fun p => p.1 == t) with
  | none => exact Or.inl (by simp [tickerLookup, hf])
  | some p =>
    refine Or.inr ?_
    have hm : p ∈ td := List.mem_of_find?_eq_some hf
    have hk := List.find?_some hf
    have hlk : tickerLookup td t = p.2 := by simp [tickerLookup, hf]
    rw [hlk]
    have hpe : p = (t, p.2) := by
      obtain ⟨a, b⟩ := p
      have : a = t := by simpa using hk
      rw [this]
    exact hpe ▸ hm

/-- The fallback record satisfies every fact the rendering needs. -/
theorem emptyTickerRec_ok : RecOK emptyTickerRec := by
  refine ⟨rfl, rfl, ?_, ?_⟩
  · intro c hc
    simp [emptyTickerRec] at hc
  · intro n hn
    simp [emptyTickerRec] at hn

/-- The `max(..., key=...)` fold returns an element of the list that
dominates the seed and every listed element. -/
theorem foldl_max_spec {α : Type} (f : α → ℚ) :
    ∀ (rest : List α) (x : α),
      (rest.foldl (fun b y => if f y > f b then y else b) x) ∈ x :: rest ∧
      f x ≤ f (rest.foldl (fun b y => if f y > f b then y else b) x) ∧
      ∀ p ∈ rest, f p ≤ f (rest.foldl (fun b y => if f y > f b then y else b) x) := by
  intro rest
  induction rest with
  | nil =>
    intro x
    exact ⟨List.Mem.head _, le_refl _, by simp⟩
  | cons y rest ih =>
    intro x
    rw [List.foldl_cons]
    by_cases hc : f y > f x
    · rw [if_pos hc]
      obtain ⟨hmem, hle, hall⟩ := ih y
      refine ⟨List.Mem.tail _ hmem, le_trans (le_of_lt hc) hle, ?_⟩
      intro p hp
      rcases List.mem_cons.mp hp with h | h
      · exact h ▸ hle
      · exact hall p h
    · rw [if_neg hc]
      obtain ⟨hmem, hle, hall⟩ := ih x
      refine ⟨?_, hle, ?_⟩
      · rcases List.mem_cons.mp hmem with h | h
        · rw [h]; exact List.Mem.head _
        · exact List.Mem.tail _ (List.Mem.tail _ h)
      · intro p hp
        rcases List.mem_cons.mp hp with h | h
        · exact h ▸ le_trans (le_of_not_lt hc) hle
        · exact hall p h

/-- The `min(..., key=...)` fold returns an element of the list that is
dominated by the seed and every listed element. -/
theorem foldl_min_spec {α : Type} (f : α → ℚ) :
    ∀ (rest : List α) (x : α),
      (rest.foldl (fun b y => if f y < f b then y else b) x) ∈ x :: rest ∧
      f (rest.foldl (fun b y => if f y < f b then y else b) x) ≤ f x ∧
      ∀ p ∈ rest, f (rest.foldl (fun b y => if f y < f b then y else b) x) ≤ f p := by
  intro rest
  induction rest with
  | nil =>
    intro x
    exact ⟨List.Mem.head _, le_refl _, by simp⟩
  | cons y rest ih =>
    intro x
    rw [List.foldl_cons]
    by_cases hc : f y < f x
    · rw [if_pos hc]
      obtain ⟨hmem, hle, hall⟩ := ih y
      refine ⟨List.Mem.tail _ hmem, le_trans hle (le_of_lt hc), ?_⟩
      intro p hp
      rcases List.mem_cons.mp hp with h | h
      · exact h ▸ hle
      · exact hall p h
    · rw [if_neg hc]
      obtain ⟨hmem, hle, hall⟩ := ih x
      refine ⟨?_, hle, ?_⟩
      · rcases List.mem_cons.mp hmem with h | h
        · rw [h]; exact List.Mem.head _
        · exact List.Mem.tail _ (List.Mem.tail _ h)
      · intro p hp
        rcases List.mem_cons.mp hp with h | h
        · exact h ▸ le_trans hle (le_of_not_lt hc)
        · exact hall p h

/-- `max(..., key=...)` on a nonempty list: a maximizing element. -/
theorem argmaxBy_spec (f : String × TickerRec → ℚ)
    (l : List (String × TickerRec)) (hne : l ≠ []) :
    ∃ b, argmaxBy f l = some b ∧ b ∈ l ∧ ∀ p ∈ l, f p ≤ f b := by
  cases l with
  | nil => exact absurd rfl hne
  | cons x rest =>
    obtain ⟨hm, hle, hall⟩ := foldl_max_spec f rest x
    refine ⟨_, rfl, hm, ?_⟩
    intro p hp
    rcases List.mem_cons.mp hp with h | h
    · exact h ▸ hle
    · exact hall p h

/-- `min(..., key=...)` on a nonempty list: a minimizing element. -/
theorem argminBy_spec (f : String × TickerRec → ℚ)
    (l : List (String × TickerRec)) (hne : l ≠ []) :
    ∃ b, argminBy f l = some b ∧ b ∈ l ∧ ∀ p ∈ l, f b ≤ f p := by
  cases l with
  | nil => exact absurd rfl hne
  | cons x rest =>
    obtain ⟨hm, hle, hall⟩ := foldl_min_spec f rest x
    refine ⟨_, rfl, hm, ?_⟩
    intro p hp
    rcases List.mem_cons.mp hp with h | h
    · exact h ▸ hle
    · exact hall p h

/-- On records whose numeric changes stay inside `(-9999, 9999)`, the
snapshot computation succeeds, and when it produces a summary the best and
worst performers have numeric changes. -/
theorem snapshotInfo_ok (td : List (String × TickerRec))
    (hb : ∀ p ∈ td, ∀ c, p.2.change = some c → -9999 < c ∧ c < 9999) :
    ∃ info, snapshotInfo td = .ok info ∧
      ∀ i, info = some i →
        i.best.2.change.isSome = true ∧ i.worst.2.change.isSome = true := by
  by_cases he : (changesOf td).isEmpty
  · refine ⟨Option.none, ?_, by intro i hi; cases hi⟩
    simp only [snapshotInfo]
    rw [if_pos he]
  · have hne : td ≠ [] := by
      intro h
      subst h
      simp [changesOf] at he
  
    obtain ⟨c0, hc0⟩ := List.exists_mem_of_ne_nil _
      (by simpa [List.isEmpty_iff] using he)
    obtain ⟨p0, hp0m, hp0⟩ := List.mem_filterMap.mp hc0
    obtain ⟨hlo, hhi⟩ := hb p0 hp0m c0 hp0
    obtain ⟨bmax, hbmax, hbm, hballe⟩ :=
      argmaxBy_spec (fun p => p.2.change.getD (-9999)) td hne
    obtain ⟨bmin, hbmin, hwm, hwalle⟩ :=
      argminBy_spec (fun p => p.2.change.getD 9999) td hne
    have hbest : bmax.2.change.isSome = true := by
      cases hcb : bmax.2.change with
      | none =>
        exfalso
        have h1 := hballe p0 hp0m
        rw [hp0, hcb] at h1
        simp only [Option.getD] at h1
        linarith
      | some _ => rfl
    have hworst : bmin.2.change.isSome = true := by
      cases hcw : bmin.2.change with
      | none =>
        exfalso
        have h1 := hwalle p0 hp0m
        rw [hp0, hcw] at h1
        simp only [Option.getD] at h1
        linarith
      | some _ => rfl
    refine ⟨some ⟨(changesOf td).sum / ((changesOf td).length : ℚ),
      ((changesOf td).filter (fun c => decide (0 ≤ c))).length,
      ((changesOf td).filter (fun c => decide (c < 0))).length, bmax, bmin⟩,
      ?_, ?_⟩
    · simp only [snapshotInfo]
      rw [if_neg he, hbmax, hbmin]
    · intro i hi
      injection hi with h
      subst h
      exact ⟨hbest, hworst⟩

/-- The Market Snapshot block renders whenever the performers' changes are
numeric, and always carries its section header. -/
theorem snapshotMd_ok (info : Option SnapInfo) (bw pw : String)
    (hg : ∀ i, info = some i →
      i.best.2.change.isSome = true ∧ i.worst.2.change.isSome = true) :
    ∃ ls, snapshotMd info bw pw = .ok ls ∧ "## Market Snapshot" ∈ ls := by
  cases info with
  | none => exact ⟨_, rfl, List.Mem.head _⟩
  | some i =>
    obtain ⟨h1, h2⟩ := hg i rfl
    obtain ⟨cb, hcb⟩ := Option.isSome_iff_exists.mp h1
    obtain ⟨cw, hcw⟩ := Option.isSome_iff_exists.mp h2
    have heq : snapshotMd (some i) bw pw = .ok ["## Market Snapshot",
        "- " ++ bw ++ " breadth: " ++ toString i.up ++ " up / " ++
          toString i.down ++ " down",
        "- Average change: " ++ formatFixed2 i.avg ++ "%",
        "- Best performer: " ++ i.best.1 ++ " (" ++ formatFixed2 cb ++ "%)",
        "- Worst performer: " ++ i.worst.1 ++ " (" ++ formatFixed2 cw ++ "%)",
        ""] := by
      simp only [snapshotMd]
      rw [show formatChangeOpt i.best.2.change = .ok (formatFixed2 cb) from by
          rw [hcb]; rfl,
        pymBindOk,
        show formatChangeOpt i.worst.2.change = .ok (formatFixed2 cw) from by
          rw [hcw]; rfl,
        pymBindOk]
    exact ⟨_, heq, List.Mem.head _⟩

/-- The sector-grouping loop succeeds on records with dict-shaped
fundamentals and hashable defaulted sectors. -/
theorem sectorMapLoop_ok :
    ∀ (td : List (String × TickerRec)) (acc : List (Val × List ℚ)),
      (∀ k r, (k, r) ∈ td → (orVal r.fund (.dict [])).isDict = true ∧
        (orVal (dictGet (orVal r.fund (.dict [])) "sector")
          (.str "Unknown")).hashable = true) →
      ∃ m, sectorMapLoop td acc = .ok m := by
  intro td
  induction td with
  | nil => intro acc _; exact ⟨acc, rfl⟩
  | cons p rest ih =>
    intro acc h
    obtain ⟨k, r⟩ := p
    obtain ⟨hd1, hd2⟩ := h k r (List.Mem.head _)
    have hrest := fun k' r' hm => h k' r' (List.Mem.tail _ hm)
    cases hc : r.change with
    | none =>
      obtain ⟨m, hm⟩ := ih acc hrest
      refine ⟨m, ?_⟩
      simp only [sectorMapLoop, vget_dict hd1, pymBindOk, hc]
      exact hm
    | some c =>
      obtain ⟨m, hm⟩ := ih (valAssocBump acc
        (orVal (dictGet (orVal r.fund (.dict [])) "sector") (.str "Unknown")) c)
        hrest
      refine ⟨m, ?_⟩
      simp only [sectorMapLoop, vget_dict hd1, pymBindOk, hc, hd2,
        Bool.not_true, Bool.false_eq_true, if_false]
      exact hm

/-- `(v or "...").strip()` succeeds when `v` is a string or falsy. -/
theorem pyStrip_orVal {v : Val} (h : (!v.truthy || v.isStr) = true) (d : String) :
    ∃ s, pyStrip (orVal v (.str d)) = .ok s := by
  by_cases ht : v.truthy = true
  · have hs : v.isStr = true := by simpa [ht] using h
    obtain ⟨s, rfl⟩ := isStr_exists hs
    exact ⟨strStrip s, by rw [orVal_of_truthy ht]; rfl⟩
  · exact ⟨strStrip d, by rw [orVal_of_falsy (by simpa using ht)]; rfl⟩

/-- `" | ".join` succeeds on a list of strings. -/
theorem joinPipe_ok :
    ∀ (l : List Val), (∀ v ∈ l, v.isStr = true) → ∃ s, joinPipe l = .ok s := by
  intro l
  induction l with
  | nil => exact fun _ => ⟨"", rfl⟩
  | cons v rest ih =>
    intro h
    obtain ⟨s, rfl⟩ := isStr_exists (h v (List.Mem.head _))
    cases rest with
    | nil => exact ⟨s, rfl⟩
    | cons w rest2 =>
      obtain ⟨r, hr⟩ := ih (fun x hx => h x (List.Mem.tail _ hx))
      refine ⟨s ++ " | " ++ r, ?_⟩
      simp only [joinPipe]
      rw [hr, pymBindOk]

/-- The numbered-source loop of `_build_prompt` succeeds on well-shaped
rows. -/
theorem promptRowsLoop_ok :
    ∀ (rows : List CsvRow) (idx : Nat),
      (∀ row ∈ rows, RowOKb row = true) →
      ∃ ls, promptRowsLoop rows idx = .ok ls := by
  intro rows
  induction rows with
  | nil => exact fun _ _ => ⟨[], rfl⟩
  | cons row rest ih =>
    intro idx h
    have hrow := h row (List.Mem.head _)
    rw [RowOKb, Bool.and_eq_true] at hrow
    obtain ⟨su, hsu⟩ := pyStrip_orVal hrow.1 ""
    by_cases he : (su == "") = true
    · obtain ⟨ls, hls⟩ := ih idx (fun x hx => h x (List.Mem.tail _ hx))
      simp only [promptRowsLoop, hsu, pymBindOk]
      rw [if_pos he]
      exact ⟨ls, hls⟩
    · have hsrc : ∀ v ∈ (if row.source.truthy then [row.source] else []),
          v.isStr = true := by
        by_cases h1 : row.source.truthy = true
        · rw [if_pos h1]
          intro v hv
          rw [List.mem_singleton.mp hv]
          simpa [h1] using hrow.2
        · rw [if_neg h1]
          intro v hv
          simp at hv
      have htick : ∀ v ∈ (if row.ticker != "" then [Val.str row.ticker] else []),
          v.isStr = true := by
        intro v hv
        split at hv
        · rw [List.mem_singleton.mp hv]; rfl
        · simp at hv
      have hpub : ∀ v ∈ (if row.published_at != ""
          then [Val.str row.published_at] else []), v.isStr = true := by
        intro v hv
        split at hv
        · rw [List.mem_singleton.mp hv]; rfl
        · simp at hv
      obtain ⟨ms, hms⟩ := joinPipe_ok
        ((if row.source.truthy then [row.source] else []) ++
          (if row.ticker != "" then [Val.str row.ticker] else []) ++
          (if row.published_at != "" then [Val.str row.published_at] else []))
        (by
          intro x hx
          rcases List.mem_append.mp hx with hx | hx
          · rcases List.mem_append.mp hx with hx | hx
            · exact hsrc x hx
            · exact htick x hx
          · exact hpub x hx)
      obtain ⟨others, hothers⟩ := ih (idx + 1)
        (fun x hx => h x (List.Mem.tail _ hx))
      simp only [promptRowsLoop, hsu, pymBindOk]
      rw [if_neg he]
      simp only [hms, pymBindOk, hothers]
      exact ⟨_, rfl⟩

/-- `_build_prompt` succeeds on well-shaped rows. -/
theorem buildPrompt_ok (title : String) (rows : List CsvRow) (day : Pdate)
    (h : ∀ row ∈ rows, RowOKb row = true) :
    ∃ s, buildPrompt title rows day = .ok s := by
  obtain ⟨ls, hls⟩ := promptRowsLoop_ok rows 1 h
  simp only [buildPrompt, hls, pymBindOk]
  exact ⟨_, rfl⟩

/-- `getLast?` returns a member. -/
theorem getLast?_mem' {α : Type} :
    ∀ (l : List α) (a : α), l.getLast? = some a → a ∈ l := by
  intro l
  induction l with
  | nil => intro a h; simp at h
  | cons x rest ih =>
    intro a h
    cases rest with
    | nil =>
      rw [List.getLast?_singleton] at h
      injection h with h
      exact h ▸ List.Mem.head _
    | cons y rest2 =>
      rw [List.getLast?_cons_cons] at h
      exact List.Mem.tail _ (ih a h)

/-- The shadowed `title` variable stays a string or `None` when every loop
assignment writes a string. -/
theorem lastShadow_strOpt (updates : List (Option Val)) :
    ∀ (init : Val), (init.isStr = true ∨ init = .none) →
      (∀ u ∈ updates, ∀ v, u = some v → v.isStr = true) →
      ((lastShadow init updates).isStr = true ∨ lastShadow init updates = .none) := by
  induction updates with
  | nil => exact fun init hi _ => hi
  | cons u rest ih =>
    intro init hi hu
    have hstep : ((u.getD init).isStr = true ∨ u.getD init = .none) := by
      cases u with
      | none => exact hi
      | some v => exact Or.inl (hu (some v) (List.Mem.head _) v rfl)
    exact ih (u.getD init) hstep (fun u' hu' v hv => hu u' (List.Mem.tail _ hu') v hv)

/-- `.replace("# ", "")` succeeds on the defaulted title when the final
shadowed value is a string or `None`. -/
theorem pyReplaceHS_ok {v : Val} (h : v.isStr = true ∨ v = .none) (d : String) :
    ∃ s, pyReplaceHS (orVal v (.str d)) = .ok s := by
  rcases h with h | h
  · obtain ⟨s, rfl⟩ := isStr_exists h
    by_cases ht : (Val.str s).truthy = true
    · exact ⟨strRemoveHashSpace s, by rw [orVal_of_truthy ht]; rfl⟩
    · exact ⟨strRemoveHashSpace d, by rw [orVal_of_falsy (by simpa using ht)]; rfl⟩
  · subst h
    exact ⟨strRemoveHashSpace d, rfl⟩

/-- A numeric-view value formats under `:.2f`. -/
theorem formatNumValF2_ok {v : Val} (h : v.numView.isSome = true) :
    ∃ s, formatNumValF2 v = .ok s := by
  obtain ⟨q, hq⟩ := Option.isSome_iff_exists.mp h
  refine ⟨formatFixed2 q, ?_⟩
  simp only [formatNumValF2]
  rw [hq]

/-- `float()` succeeds on numbers and booleans. -/
theorem pyFloat_numView {v : Val} (h : v.numView.isSome = true) :
    ∃ q, pyFloat v = .ok q := by
  cases v <;> simp_all [Val.numView, pyFloat]

/-- A well-shaped score is absent or numeric-viewed. -/
theorem WFscore_cases {v : Val} (h : WFscore v = true) :
    v = .none ∨ v.numView.isSome = true := by
  cases v <;> simp_all [WFscore, Val.numView]

/-- The weekly score formatter never raises. -/
theorem scoreFmtW_ok (v : Val) : ∃ s, scoreFmtW v = .ok s :=
  ⟨_, rfl⟩

/-- The daily score formatter succeeds on numeric-view scores. -/
theorem scoreFmtD_ok {v : Val} (h : v.numView.isSome = true) :
    ∃ s, scoreFmtD v = .ok s := by
  obtain ⟨q, hq⟩ := pyFloat_numView h
  refine ⟨formatFixed2 q, ?_⟩
  simp only [scoreFmtD]
  rw [hq]
  rfl

/-- The change line renders whenever a numeric change comes with
numeric-view endpoint prices; a missing change yields the placeholder. -/
theorem changeLineOf_ok (cn ml : String) (r : TickerRec)
    (hg : ∀ c, r.change = some c →
      r.start_price.numView.isSome = true ∧ r.end_price.numView.isSome = true) :
    ∃ cl, changeLineOf cn ml r = .ok cl ∧
      (r.change = Option.none → cl = ml) := by
  cases hch : r.change with
  | none =>
    exact ⟨ml, by simp only [changeLineOf, hch]; rfl, fun _ => rfl⟩
  | some c =>
    by_cases hb : (r.start_price.truthy && r.end_price.truthy) = true
    · obtain ⟨hs1, hs2⟩ := hg c hch
      obtain ⟨sq, hsq⟩ := formatNumValF2_ok hs1
      obtain ⟨eq2, heq2⟩ := formatNumValF2_ok hs2
      simp only [changeLineOf, hch, hsq, pymBindOk, heq2]
      rw [if_pos hb]
      exact ⟨_, rfl, fun hno => Option.noConfusion hno⟩
    · simp only [changeLineOf, hch]
      rw [if_neg hb]
      exact ⟨ml, rfl, fun _ => rfl⟩

/-- The sentiment line renders for a well-shaped cached payload, falling
back to the weighted heuristic over string-titled news. -/
theorem sentLineOf_ok (now : Int) (sf : Val → PyM String) (sp : Val)
    (news : List NewsItemN)
    (hsf : ∀ v : Val, v.numView.isSome = true → ∃ s, sf v = .ok s)
    (hscore : ∀ kvs, sp = .dict kvs → WFscore (dictGet sp "score") = true)
    (htit : ∀ n ∈ news, n.title.isStr = true) :
    ∃ sl, sentLineOf now sf sp news = .ok sl := by
  cases hsp : sp with
  | dict kvs =>
    have hd : (Val.dict kvs).isDict = true := rfl
    have hsc := hscore kvs hsp
    rw [hsp] at hsc
    rcases WFscore_cases hsc with hn | hn
    · simp only [sentLineOf, vget_dict hd, pymBindOk, hn]
      exact ⟨_, rfl⟩
    · obtain ⟨fs, hfs⟩ := hsf (dictGet (Val.dict kvs) "score") hn
      cases hv : dictGet (Val.dict kvs) "score" with
      | none => rw [hv] at hn; cases hn
      | bool b =>
        rw [hv] at hfs
        simp only [sentLineOf, vget_dict hd, pymBindOk, hv, hfs]
        exact ⟨_, rfl⟩
      | num q2 =>
        rw [hv] at hfs
        simp only [sentLineOf, vget_dict hd, pymBindOk, hv, hfs]
        exact ⟨_, rfl⟩
      | str s => rw [hv] at hn; cases hn
      | list xs => rw [hv] at hn; cases hn
      | dict kvs2 => rw [hv] at hn; cases hn
  | none =>
    obtain ⟨ws, hws⟩ := weightedSentiment_ok now news htit
    simp only [sentLineOf, hws, pymBindOk]
    exact ⟨_, rfl⟩
  | bool b =>
    obtain ⟨ws, hws⟩ := weightedSentiment_ok now news htit
    simp only [sentLineOf, hws, pymBindOk]
    exact ⟨_, rfl⟩
  | num q =>
    obtain ⟨ws, hws⟩ := weightedSentiment_ok now news htit
    simp only [sentLineOf, hws, pymBindOk]
    exact ⟨_, rfl⟩
  | str s =>
    obtain ⟨ws, hws⟩ := weightedSentiment_ok now news htit
    simp only [sentLineOf, hws, pymBindOk]
    exact ⟨_, rfl⟩
  | list xs =>
    obtain ⟨ws, hws⟩ := weightedSentiment_ok now news htit
    simp only [sentLineOf, hws, pymBindOk]
    exact ⟨_, rfl⟩

/-- The Risks/Catalysts block renders on string-titled news, with the
placeholder on an empty list. -/
theorem riskLinesOf_ok (news : List NewsItemN)
    (htit : ∀ n ∈ news, n.title.isStr = true) :
    ∃ rl, riskLinesOf news = .ok rl ∧
      (news = [] → rl = ["- Risks/Catalysts: N/A"]) := by
  by_cases he : news.isEmpty = true
  · simp only [riskLinesOf]
    rw [if_pos he]
    exact ⟨_, rfl, fun _ => rfl⟩
  · obtain ⟨rl, hrl, -, -⟩ := listMapM_ok (news.take 3) (fun it => do
      let tag ← headlineSentimentV it.title
      let lbl := if tag > 0 then "Catalyst" else if tag < 0 then "Risk" else "Neutral"
      pure ("  - " ++ lbl ++ ": " ++ pyStr it.title)) (by
      intro it hit
      obtain ⟨s, hs⟩ := headlineSentimentV_isStr
        (htit it (List.take_subset 3 news hit))
      exact ⟨_, by simp only [hs, pymBindOk]; rfl⟩)
    simp only [riskLinesOf]
    rw [if_neg he]
    simp only [hrl, pymBindOk]
    exact ⟨_, rfl, fun hno => absurd (by rw [hno]; rfl) he⟩

/-- The JSON sentiment object builds for dict payloads and string-titled
news. -/
theorem sentValOf_ok (now : Int) (sp : Val) (news : List NewsItemN)
    (htit : ∀ n ∈ news, n.title.isStr = true) :
    ∃ sv, sentValOf now sp news = .ok sv := by
  cases hsp : sp with
  | dict kvs =>
    have hd : (Val.dict kvs).isDict = true := rfl
    simp only [sentValOf, vget_dict hd, pymBindOk]
    exact ⟨_, rfl⟩
  | none =>
    obtain ⟨ws, hws⟩ := weightedSentiment_ok now news htit
    simp only [sentValOf, hws, pymBindOk]
    exact ⟨_, rfl⟩
  | bool b =>
    obtain ⟨ws, hws⟩ := weightedSentiment_ok now news htit
    simp only [sentValOf, hws, pymBindOk]
    exact ⟨_, rfl⟩
  | num q =>
    obtain ⟨ws, hws⟩ := weightedSentiment_ok now news htit
    simp only [sentValOf, hws, pymBindOk]
    exact ⟨_, rfl⟩
  | str s =>
    obtain ⟨ws, hws⟩ := weightedSentiment_ok now news htit
    simp only [sentValOf, hws, pymBindOk]
    exact ⟨_, rfl⟩
  | list xs =>
    obtain ⟨ws, hws⟩ := weightedSentiment_ok now news htit
    simp only [sentValOf, hws, pymBindOk]
    exact ⟨_, rfl⟩

/-- The JSON risk entries build on string-titled news. -/
theorem risksOf_ok (news : List NewsItemN)
    (htit : ∀ n ∈ news, n.title.isStr = true) :
    ∃ rs, risksOf news = .ok rs := by
  obtain ⟨rs, hrs, -, -⟩ := listMapM_ok (news.take 3) (fun it => do
    let tag ← headlineSentimentV it.title
    let lbl := if tag > 0 then "Catalyst" else if tag < 0 then "Risk" else "Neutral"
    pure (Val.dict [("label", .str lbl), ("title", it.title)])) (by
    intro it hit
    obtain ⟨s, hs⟩ := headlineSentimentV_isStr
      (htit it (List.take_subset 3 news hit))
    exact ⟨_, by simp only [hs, pymBindOk]; rfl⟩)
  exact ⟨rs, hrs⟩

/-- The Market News section renders on a well-shaped market-news cache
entry, with well-shaped rows, a string last-title, and the informational
message when the cache entry is absent. -/
theorem marketSection_ok (cache : String → Val)
    (filt : List NewsItemN → List NewsItemN) (emptyMsg : String)
    (hmkt : WFnewsVal (cache "finnhub:market_news:general:0") = true)
    (hfilt : ∀ (l : List NewsItemN) (n : NewsItemN), n ∈ filt l → n ∈ l) :
    ∃ out, marketSection cache filt emptyMsg = .ok out ∧
      "## Market News" ∈ out.lines ∧
      (∀ row ∈ out.rows, RowOKb row = true) ∧
      (∀ v, out.lastT = some v → v.isStr = true) ∧
      ((cache "finnhub:market_news:general:0").truthy = false →
        emptyMsg ∈ out.lines) := by
  obtain ⟨xs, hxs, hxw⟩ := WFnewsVal_facts hmkt
  obtain ⟨normed, hnormed, hnw⟩ := normalizeNews_wf xs hxw
  have hfw : ∀ n ∈ filt normed, WFrec n = true :=
    fun n hn => hnw n (hfilt normed n hn)
  by_cases he : (filt normed).isEmpty = true
  · simp only [marketSection, hxs,
      show iterVal (Val.list xs) = Except.ok xs from rfl, pymBindOk, hnormed]
    rw [if_pos he]
    refine ⟨_, rfl, List.Mem.head _, by simp, ?_, ?_⟩
    · intro v hv
      exact Option.noConfusion hv
    · intro hft
      exact List.Mem.tail _ (List.Mem.head _)
  · simp only [marketSection, hxs,
      show iterVal (Val.list xs) = Except.ok xs from rfl, pymBindOk, hnormed]
    rw [if_neg he]
    refine ⟨_, rfl, List.Mem.head _, ?_, ?_, ?_⟩
    · intro row hrow
      obtain ⟨it, hitm, hiteq⟩ := List.mem_map.mp hrow
      have hw := hfw it (List.take_subset 5 (filt normed) hitm)
      rw [WFrec, Bool.and_eq_true, Bool.and_eq_true] at hw
      rw [← hiteq, RowOKb, Bool.and_eq_true]
      exact ⟨hw.1.2, hw.2⟩
    · intro v hv
      dsimp only at hv
      cases hl : ((filt normed).take 5).getLast? with
      | none => rw [hl] at hv; cases hv
      | some it =>
        rw [hl] at hv
        injection hv with hv
        have hw := hfw it (List.take_subset 5 (filt normed)
          (getLast?_mem' _ it hl))
        rw [WFrec, Bool.and_eq_true, Bool.and_eq_true] at hw
        rw [← hv]
        exact hw.1.1
    · intro hft
      exfalso
      rw [orVal_of_falsy hft] at hxs
      have hxe : xs = [] := by injection hxs with h'; exact h'.symm
      subst hxe
      have h0 : ([] : List NewsItemN) = normed :=
        Except.ok.inj ((show normalizeNews ([] : List Val) =
          Except.ok ([] : List NewsItemN) from rfl).symm.trans hnormed)
      have hfe : filt normed = [] := by
        rw [← h0]
        exact List.eq_nil_iff_forall_not_mem.mpr
          (fun n hn => List.not_mem_nil n (hfilt [] n hn))
      rw [hfe] at he
      exact he rfl

/-- One Ticker Highlights subsection renders on a well-shaped record and
sentiment cache entry, carries its ticker header, degrades a missing
change and missing news to the placeholders, and produces well-shaped
rows and a string last-title. -/
theorem tickerSection_ok (cache : String → Val) (now : Int)
    (cn ml : String) (sf : Val → PyM String) (t : String) (r : TickerRec)
    (hsf : ∀ v : Val, v.numView.isSome = true → ∃ s, sf v = .ok s)
    (hr : RecOK r)
    (hsent : WFsent (cache ("finnhub:sentiment:" ++ t ++ ":latest"))
      (cache ("finnhub:sentiment:" ++ t)) = true) :
    ∃ out, tickerSection cache now cn ml sf t r = .ok out ∧
      ("### " ++ t) ∈ out.lines ∧
      (r.change = Option.none → ml ∈ out.lines) ∧
      (r.news = [] → "- Key headlines: N/A" ∈ out.lines ∧
        "- Risks/Catalysts: N/A" ∈ out.lines) ∧
      (∀ row ∈ out.rows, RowOKb row = true) ∧
      (∀ v, out.lastT = some v → v.isStr = true) := by
  obtain ⟨hfd, hhash, hg, hnews⟩ := hr
  have htit : ∀ n ∈ r.news, n.title.isStr = true := by
    intro n hn
    have hw := hnews n hn
    rw [WFrec, Bool.and_eq_true, Bool.and_eq_true] at hw
    exact hw.1.1
  obtain ⟨cl, hcl, hclp⟩ := changeLineOf_ok cn ml r hg
  have hscore : ∀ kvs, orVal (cache ("finnhub:sentiment:" ++ t ++ ":latest"))
      (cache ("finnhub:sentiment:" ++ t)) = .dict kvs →
      WFscore (dictGet (orVal (cache ("finnhub:sentiment:" ++ t ++ ":latest"))
        (cache ("finnhub:sentiment:" ++ t))) "score") = true := by
    intro kvs hk
    rw [hk]
    simpa [WFsent, hk] using hsent
  obtain ⟨sl, hsl⟩ := sentLineOf_ok now sf
    (orVal (cache ("finnhub:sentiment:" ++ t ++ ":latest"))
      (cache ("finnhub:sentiment:" ++ t))) r.news hsf hscore htit
  obtain ⟨rl, hrl, hrlp⟩ := riskLinesOf_ok r.news htit
  simp only [tickerSection, vgetD_dict hfd, pymBindOk, hcl, hsl, hrl]
  refine ⟨_, rfl, ?_, ?_, ?_, ?_, ?_⟩
  · exact List.Mem.head _
  · intro hn
    obtain rfl := hclp hn
    simp
  · intro hn
    obtain rfl := hrlp hn
    refine ⟨by simp [hn], by simp [hn]⟩
  · intro row hrow
    dsimp only at hrow
    split at hrow
    · simp at hrow
    · obtain ⟨it, hitm, hiteq⟩ := List.mem_map.mp hrow
      have hw := hnews it (List.take_subset 3 r.news hitm)
      rw [WFrec, Bool.and_eq_true, Bool.and_eq_true] at hw
      rw [← hiteq, RowOKb, Bool.and_eq_true]
      exact ⟨hw.1.2, hw.2⟩
  · intro v hv
    dsimp only at hv
    split at hv
    · exact Option.noConfusion hv
    · cases hl : ((r.news.take 3).getLast?) with
      | none => rw [hl] at hv; cases hv
      | some it =>
        rw [hl] at hv
        injection hv with hv
        have hw := hnews it (List.take_subset 3 r.news (getLast?_mem' _ it hl))
        rw [WFrec, Bool.and_eq_true, Bool.and_eq_true] at hw
        rw [← hv]
        exact hw.1.1

/-- One JSON highlight entry builds on a well-shaped record. -/
theorem tickerJson_ok (cache : String → Val) (now : Int) (t : String)
    (r : TickerRec) (hr : RecOK r) :
    ∃ j, tickerJson cache now t r = .ok j := by
  obtain ⟨hfd, hhash, hg, hnews⟩ := hr
  have htit : ∀ n ∈ r.news, n.title.isStr = true := by
    intro n hn
    have hw := hnews n hn
    rw [WFrec, Bool.and_eq_true, Bool.and_eq_true] at hw
    exact hw.1.1
  obtain ⟨sv, hsv⟩ := sentValOf_ok now
    (orVal (cache ("finnhub:sentiment:" ++ t ++ ":latest"))
      (cache ("finnhub:sentiment:" ++ t))) r.news htit
  obtain ⟨rs, hrs⟩ := risksOf_ok r.news htit
  simp only [tickerJson, vgetD_dict hfd, pymBindOk, hsv, hrs]
  exact ⟨_, rfl⟩

/-- Binding a conditional computation factors through the conditional. -/
theorem bindIfComm {α β : Type} (c : Bool) (x y : PyM α) (f : α → PyM β) :
    (if c = true then x >>= f else y >>= f) = (if c = true then x else y) >>= f := by
  by_cases h : c = true
  · rw [if_pos h, if_pos h]
  · rw [if_neg h, if_neg h]

/-- On a well-shaped cache with bounded changes, the weekly digest builds
all four artifacts, every ticker gets its section, and missing prices/news
degrade to the explicit placeholders. -/
theorem generateWeeklyDigest_ok (cache : String → Val) (tickers : List String)
    (today : Pdate) (now : Int) (titleP : Option String) (inc : Bool)
    (hwf : ∀ t ∈ tickersSorted tickers, WFcacheFor cache t)
    (hmkt : WFnewsVal (cache "finnhub:market_news:general:0") = true)
    (hbW : ∀ t ∈ tickersSorted tickers, ∀ r, buildTickerRecW cache t = .ok r →
      ∀ c, r.change = some c → -9999 < c ∧ c < 9999) :
    ∃ a, generateWeeklyDigest cache tickers today now titleP inc = .ok a ∧
      "## Market Snapshot" ∈ a.mdLines ∧
      "## Ticker Highlights" ∈ a.mdLines ∧
      ∀ t ∈ tickersSorted tickers, ("### " ++ t) ∈ a.mdLines ∧
        ((cache ("yahoo:prices:" ++ t ++ ":5d:1d")).truthy = false →
          "- Weekly change: N/A (Missing 5d price history)" ∈ a.mdLines) ∧
        ((cache ("yahoo:news:" ++ t ++ ":latest")).truthy = false →
          (cache ("finnhub:news:" ++ t ++ ":latest")).truthy = false →
          "- Key headlines: N/A" ∈ a.mdLines ∧
          "- Risks/Catalysts: N/A" ∈ a.mdLines) := by
  have hmk : ∀ t ∈ tickersSorted tickers, ∃ r, buildTickerRecW cache t = .ok r ∧
      (t ∈ tickersSorted tickers ∧ buildTickerRecW cache t = .ok r) := by
    intro t ht
    obtain ⟨r, hr, -, -, -⟩ := buildTickerRecW_ok cache t (hwf t ht)
    exact ⟨r, hr, ht, hr⟩
  have hQ : ∀ t r, (t ∈ tickersSorted tickers ∧ buildTickerRecW cache t = .ok r) →
      ∀ n ∈ r.news, WFrec n = true := by
    intro t r hp n hn
    obtain ⟨r', hr', ⟨-, -, -, hnw⟩, -, -⟩ := buildTickerRecW_ok cache t (hwf t hp.1)
    obtain rfl : r' = r := Except.ok.inj (hr'.symm.trans hp.2)
    exact hnw n hn
  obtain ⟨tl, htl, htd, han⟩ := tickerLoop_inv (buildTickerRecW cache)
    (fun t r => t ∈ tickersSorted tickers ∧ buildTickerRecW cache t = .ok r)
    (tickersSorted tickers) [] [] hmk (by simp) (by simp) hQ
  have hrec : ∀ p ∈ tl.1, RecOK p.2 ∧
      (∀ c, p.2.change = some c → -9999 < c ∧ c < 9999) := by
    intro p hp
    obtain ⟨ht, hb⟩ := htd p hp
    obtain ⟨r', hr', hok, -, -⟩ := buildTickerRecW_ok cache p.1 (hwf p.1 ht)
    obtain rfl : r' = p.2 := Except.ok.inj (hr'.symm.trans hb)
    exact ⟨hok, hbW p.1 ht p.2 hb⟩
  have hlook : ∀ t ∈ tickersSorted tickers, RecOK (tickerLookup tl.1 t) ∧
      ((cache ("yahoo:prices:" ++ t ++ ":5d:1d")).truthy = false →
        (tickerLookup tl.1 t).change = Option.none) ∧
      ((cache ("yahoo:news:" ++ t ++ ":latest")).truthy = false →
        (cache ("finnhub:news:" ++ t ++ ":latest")).truthy = false →
        (tickerLookup tl.1 t).news = []) := by
    intro t ht
    rcases tickerLookup_mem tl.1 t with hcase | hcase
    · rw [hcase]
      exact ⟨emptyTickerRec_ok, fun _ => rfl, fun _ _ => rfl⟩
    · obtain ⟨-, hb⟩ := htd _ hcase
      obtain ⟨r', hr', hok, hchg, hnil⟩ := buildTickerRecW_ok cache t (hwf t ht)
      obtain rfl : r' = tickerLookup tl.1 t := Except.ok.inj (hr'.symm.trans hb)
      exact ⟨hok, hchg, hnil⟩
  obtain ⟨info, hinfo, hig⟩ := snapshotInfo_ok tl.1 (fun p hp => (hrec p hp).2)
  obtain ⟨snap, hsnap, hsnapmem⟩ := snapshotMd_ok info "Weekly" "weekly" hig
  obtain ⟨smap, hsmap⟩ := sectorMapLoop_ok tl.1 [] (by
    intro k r hm
    have h := (hrec (k, r) hm).1
    exact ⟨h.1, isStr_hashable h.2.1⟩)
  obtain ⟨themes, hthemes⟩ := extractThemes_ok tl.2 (by
    intro n hn
    have hw := han n hn
    rw [WFrec, Bool.and_eq_true, Bool.and_eq_true] at hw
    exact hw.1.1)
  have hmktsec : ∃ mkt, (if inc then marketSection cache id "- No cached market news."
        else pure (MarketOut.mk [] [] Option.none [])) = .ok mkt ∧
      (∀ row ∈ mkt.rows, RowOKb row = true) ∧
      (∀ v, mkt.lastT = some v → v.isStr = true) := by
    by_cases hinc : inc = true
    · rw [if_pos hinc]
      obtain ⟨mkt, hm, -, hrows, hlast, -⟩ := marketSection_ok cache id
        "- No cached market news." hmkt (fun l n hn => hn)
      exact ⟨mkt, hm, hrows, hlast⟩
    · rw [if_neg hinc]
      exact ⟨⟨[], [], Option.none, []⟩, rfl, by simp,
        fun v hv => Option.noConfusion hv⟩
  obtain ⟨mkt, hmktok, hmrows, hmlast⟩ := hmktsec
  have hsec : ∀ t ∈ tickersSorted tickers, ∃ out,
      tickerSection cache now "Weekly"
        "- Weekly change: N/A (Missing 5d price history)" scoreFmtW t
        (tickerLookup tl.1 t) = .ok out := by
    intro t ht
    obtain ⟨out, hout, -⟩ := tickerSection_ok cache now "Weekly"
      "- Weekly change: N/A (Missing 5d price history)" scoreFmtW t
      (tickerLookup tl.1 t) (fun v _ => scoreFmtW_ok v) (hlook t ht).1
      ((hwf t ht).2.2.2.2)
    exact ⟨out, hout⟩
  obtain ⟨parts, hparts, hfwd, hbwd⟩ := listMapM_ok (tickersSorted tickers)
    (fun t => tickerSection cache now "Weekly"
      "- Weekly change: N/A (Missing 5d price history)" scoreFmtW t
      (tickerLookup tl.1 t)) hsec
  have hpartp : ∀ out ∈ parts, (∀ row ∈ SectionOut.rows out, RowOKb row = true) ∧
      (∀ v, SectionOut.lastT out = some v → v.isStr = true) := by
    intro out hout
    obtain ⟨t, ht, hf⟩ := hbwd out hout
    obtain ⟨out', hout', -, -, -, hrows, hlast⟩ := tickerSection_ok cache now
      "Weekly" "- Weekly change: N/A (Missing 5d price history)" scoreFmtW t
      (tickerLookup tl.1 t) (fun v _ => scoreFmtW_ok v) (hlook t ht).1
      ((hwf t ht).2.2.2.2)
    obtain rfl : out' = out := Except.ok.inj (hout'.symm.trans hf)
    exact ⟨hrows, hlast⟩
  have hrowsall : ∀ row ∈ mkt.rows ++ (parts.map SectionOut.rows).flatten,
      RowOKb row = true := by
    intro row hr
    rcases List.mem_append.mp hr with h | h
    · exact hmrows row h
    · obtain ⟨l, hl, hrl⟩ := List.mem_flatten.mp h
      obtain ⟨out, hout, rfl⟩ := List.mem_map.mp hl
      exact (hpartp out hout).1 row hrl
  have hshadow : (lastShadow (initTitleVal titleP)
        (mkt.lastT :: parts.map SectionOut.lastT)).isStr = true ∨
      lastShadow (initTitleVal titleP)
        (mkt.lastT :: parts.map SectionOut.lastT) = .none := by
    apply lastShadow_strOpt
    · cases titleP with
      | some t0 => exact Or.inl rfl
      | none => exact Or.inr rfl
    · intro u hu v hv
      rcases List.mem_cons.mp hu with h | h
      · exact hmlast v (h ▸ hv)
      · obtain ⟨out, hout, rfl⟩ := List.mem_map.mp h
        exact (hpartp out hout).2 v hv
  obtain ⟨pt, hpt⟩ := pyReplaceHS_ok hshadow
    ("# Weekly Market Digest: " ++ (toString (isocalendar today).1 ++ "-W" ++
      pad2 (isocalendar today).2.1))
  obtain ⟨prompt, hprompt⟩ := buildPrompt_ok pt
    (mkt.rows ++ (parts.map SectionOut.rows).flatten) today hrowsall
  obtain ⟨highlights, hhl, -, -⟩ := listMapM_ok (tickersSorted tickers)
    (fun t => tickerJson cache now t (tickerLookup tl.1 t))
    (fun t ht => tickerJson_ok cache now t _ (hlook t ht).1)
  simp only [generateWeeklyDigest, htl, pymBindOk, hinfo, hsnap, hsmap,
    hthemes, hparts]
  rw [bindIfComm, hmktok, pymBindOk]
  simp only [hpt, pymBindOk, hprompt, hhl]
  refine ⟨_, rfl, ?_, ?_, ?_⟩
  · dsimp only
    simp only [List.mem_append]
    exact Or.inl (Or.inl (Or.inl (Or.inl (Or.inl (Or.inr hsnapmem)))))
  · dsimp only
    simp only [List.mem_append]
    exact Or.inl (Or.inr (List.Mem.head _))
  · intro t ht
    obtain ⟨out, houtm, hf⟩ := hfwd t ht
    obtain ⟨out', hout', hhdr, hml, hnl, -, -⟩ := tickerSection_ok cache now
      "Weekly" "- Weekly change: N/A (Missing 5d price history)" scoreFmtW t
      (tickerLookup tl.1 t) (fun v _ => scoreFmtW_ok v) (hlook t ht).1
      ((hwf t ht).2.2.2.2)
    obtain rfl : out' = out := Except.ok.inj (hout'.symm.trans hf)
    have hflat : ∀ x, x ∈ SectionOut.lines out' →
        x ∈ (parts.map SectionOut.lines).flatten := by
      intro x hx
      exact List.mem_flatten.mpr ⟨SectionOut.lines out',
        List.mem_map_of_mem SectionOut.lines houtm, hx⟩
    refine ⟨?_, ?_, ?_⟩
    · dsimp only
      exact List.mem_append.mpr (Or.inr (hflat _ hhdr))
    · intro hft
      dsimp only
      exact List.mem_append.mpr (Or.inr (hflat _ (hml ((hlook t ht).2.1 hft))))
    · intro hy hf2
      have hnil := (hlook t ht).2.2 hy hf2
      obtain ⟨h1, h2⟩ := hnl hnil
      exact ⟨List.mem_append.mpr (Or.inr (hflat _ h1)),
        List.mem_append.mpr (Or.inr (hflat _ h2))⟩

/-- On a well-shaped cache with bounded changes, the daily digest builds
all four artifacts, every ticker gets its section, and missing prices/news
degrade to the explicit placeholders. -/
theorem generateDailyDigest_ok (cache : String → Val) (tickers : List String)
    (digestDate : Option Pdate) (today : Pdate) (now : Int)
    (titleP : Option String) (inc : Bool)
    (hwf : ∀ t ∈ tickersSorted tickers, WFcacheFor cache t)
    (hmkt : WFnewsVal (cache "finnhub:market_news:general:0") = true)
    (hbD : ∀ t ∈ tickersSorted tickers, ∀ r,
      buildTickerRecD cache (digestDate.map dailyEndTime) now t = .ok r →
      ∀ c, r.change = some c → -9999 < c ∧ c < 9999) :
    ∃ a, generateDailyDigest cache tickers digestDate today now titleP inc = .ok a ∧
      "## Market Snapshot" ∈ a.mdLines ∧
      "## Ticker Highlights" ∈ a.mdLines ∧
      ∀ t ∈ tickersSorted tickers, ("### " ++ t) ∈ a.mdLines ∧
        ((cache ("yahoo:prices:" ++ t ++ ":5d:1d")).truthy = false →
          "- Daily change: N/A (Missing recent price history)" ∈ a.mdLines) ∧
        ((cache ("yahoo:news:" ++ t ++ ":latest")).truthy = false →
          (cache ("finnhub:news:" ++ t ++ ":latest")).truthy = false →
          "- Key headlines: N/A" ∈ a.mdLines ∧
          "- Risks/Catalysts: N/A" ∈ a.mdLines) := by
  have hmk : ∀ t ∈ tickersSorted tickers, ∃ r,
      buildTickerRecD cache (digestDate.map dailyEndTime) now t = .ok r ∧
      (t ∈ tickersSorted tickers ∧
        buildTickerRecD cache (digestDate.map dailyEndTime) now t = .ok r) := by
    intro t ht
    obtain ⟨r, hr, -, -, -⟩ := buildTickerRecD_ok cache
      (digestDate.map dailyEndTime) now t (hwf t ht)
    exact ⟨r, hr, ht, hr⟩
  have hQ : ∀ t r, (t ∈ tickersSorted tickers ∧
      buildTickerRecD cache (digestDate.map dailyEndTime) now t = .ok r) →
      ∀ n ∈ r.news, WFrec n = true := by
    intro t r hp n hn
    obtain ⟨r', hr', ⟨-, -, -, hnw⟩, -, -⟩ := buildTickerRecD_ok cache
      (digestDate.map dailyEndTime) now t (hwf t hp.1)
    obtain rfl : r' = r := Except.ok.inj (hr'.symm.trans hp.2)
    exact hnw n hn
  obtain ⟨tl, htl, htd, han⟩ := tickerLoop_inv
    (buildTickerRecD cache (digestDate.map dailyEndTime) now)
    (fun t r => t ∈ tickersSorted tickers ∧
      buildTickerRecD cache (digestDate.map dailyEndTime) now t = .ok r)
    (tickersSorted tickers) [] [] hmk (by simp) (by simp) hQ
  have hrec : ∀ p ∈ tl.1, RecOK p.2 ∧
      (∀ c, p.2.change = some c → -9999 < c ∧ c < 9999) := by
    intro p hp
    obtain ⟨ht, hb⟩ := htd p hp
    obtain ⟨r', hr', hok, -, -⟩ := buildTickerRecD_ok cache
      (digestDate.map dailyEndTime) now p.1 (hwf p.1 ht)
    obtain rfl : r' = p.2 := Except.ok.inj (hr'.symm.trans hb)
    exact ⟨hok, hbD p.1 ht p.2 hb⟩
  have hlook : ∀ t ∈ tickersSorted tickers, RecOK (tickerLookup tl.1 t) ∧
      ((cache ("yahoo:prices:" ++ t ++ ":5d:1d")).truthy = false →
        (tickerLookup tl.1 t).change = Option.none) ∧
      ((cache ("yahoo:news:" ++ t ++ ":latest")).truthy = false →
        (cache ("finnhub:news:" ++ t ++ ":latest")).truthy = false →
        (tickerLookup tl.1 t).news = []) := by
    intro t ht
    rcases tickerLookup_mem tl.1 t with hcase | hcase
    · rw [hcase]
      exact ⟨emptyTickerRec_ok, fun _ => rfl, fun _ _ => rfl⟩
    · obtain ⟨-, hb⟩ := htd _ hcase
      obtain ⟨r', hr', hok, hchg, hnil⟩ := buildTickerRecD_ok cache
        (digestDate.map dailyEndTime) now t (hwf t ht)
      obtain rfl : r' = tickerLookup tl.1 t := Except.ok.inj (hr'.symm.trans hb)
      exact ⟨hok, hchg, hnil⟩
  obtain ⟨info, hinfo, hig⟩ := snapshotInfo_ok tl.1 (fun p hp => (hrec p hp).2)
  obtain ⟨snap, hsnap, hsnapmem⟩ := snapshotMd_ok info "Daily" "daily" hig
  obtain ⟨smap, hsmap⟩ := sectorMapLoop_ok tl.1 [] (by
    intro k r hm
    have h := (hrec (k, r) hm).1
    exact ⟨h.1, isStr_hashable h.2.1⟩)
  obtain ⟨themes, hthemes⟩ := extractThemes_ok tl.2 (by
    intro n hn
    have hw := han n hn
    rw [WFrec, Bool.and_eq_true, Bool.and_eq_true] at hw
    exact hw.1.1)
  have hmktsec : ∃ mkt, (if inc then marketSection cache
        (fun l => filterNewsLast24h l (digestDate.map dailyEndTime) now)
        "- No cached market news for this date."
        else pure (MarketOut.mk [] [] Option.none [])) = .ok mkt ∧
      (∀ row ∈ mkt.rows, RowOKb row = true) ∧
      (∀ v, mkt.lastT = some v → v.isStr = true) := by
    by_cases hinc : inc = true
    · rw [if_pos hinc]
      obtain ⟨mkt, hm, -, hrows, hlast, -⟩ := marketSection_ok cache
        (fun l => filterNewsLast24h l (digestDate.map dailyEndTime) now)
        "- No cached market news for this date." hmkt
        (fun l n hn => filterNewsLast24h_subset l _ now n hn)
      exact ⟨mkt, hm, hrows, hlast⟩
    · rw [if_neg hinc]
      exact ⟨⟨[], [], Option.none, []⟩, rfl, by simp,
        fun v hv => Option.noConfusion hv⟩
  obtain ⟨mkt, hmktok, hmrows, hmlast⟩ := hmktsec
  have hsec : ∀ t ∈ tickersSorted tickers, ∃ out,
      tickerSection cache now "Daily"
        "- Daily change: N/A (Missing recent price history)" scoreFmtD t
        (tickerLookup tl.1 t) = .ok out := by
    intro t ht
    obtain ⟨out, hout, -⟩ := tickerSection_ok cache now "Daily"
      "- Daily change: N/A (Missing recent price history)" scoreFmtD t
      (tickerLookup tl.1 t) (fun v hv => scoreFmtD_ok hv) (hlook t ht).1
      ((hwf t ht).2.2.2.2)
    exact ⟨out, hout⟩
  obtain ⟨parts, hparts, hfwd, hbwd⟩ := listMapM_ok (tickersSorted tickers)
    (fun t => tickerSection cache now "Daily"
      "- Daily change: N/A (Missing recent price history)" scoreFmtD t
      (tickerLookup tl.1 t)) hsec
  have hpartp : ∀ out ∈ parts, (∀ row ∈ SectionOut.rows out, RowOKb row = true) ∧
      (∀ v, SectionOut.lastT out = some v → v.isStr = true) := by
    intro out hout
    obtain ⟨t, ht, hf⟩ := hbwd out hout
    obtain ⟨out', hout', -, -, -, hrows, hlast⟩ := tickerSection_ok cache now
      "Daily" "- Daily change: N/A (Missing recent price history)" scoreFmtD t
      (tickerLookup tl.1 t) (fun v hv => scoreFmtD_ok hv) (hlook t ht).1
      ((hwf t ht).2.2.2.2)
    obtain rfl : out' = out := Except.ok.inj (hout'.symm.trans hf)
    exact ⟨hrows, hlast⟩
  have hrowsall : ∀ row ∈ mkt.rows ++ (parts.map SectionOut.rows).flatten,
      RowOKb row = true := by
    intro row hr
    rcases List.mem_append.mp hr with h | h
    · exact hmrows row h
    · obtain ⟨l, hl, hrl⟩ := List.mem_flatten.mp h
      obtain ⟨out, hout, rfl⟩ := List.mem_map.mp hl
      exact (hpartp out hout).1 row hrl
  have hshadow : (lastShadow (initTitleVal titleP)
        (mkt.lastT :: parts.map SectionOut.lastT)).isStr = true ∨
      lastShadow (initTitleVal titleP)
        (mkt.lastT :: parts.map SectionOut.lastT) = .none := by
    apply lastShadow_strOpt
    · cases titleP with
      | some t0 => exact Or.inl rfl
      | none => exact Or.inr rfl
    · intro u hu v hv
      rcases List.mem_cons.mp hu with h | h
      · exact hmlast v (h ▸ hv)
      · obtain ⟨out, hout, rfl⟩ := List.mem_map.mp h
        exact (hpartp out hout).2 v hv
  obtain ⟨pt, hpt⟩ := pyReplaceHS_ok hshadow
    ("# Daily Market Digest: " ++ isoDate (digestDate.getD today))
  obtain ⟨prompt, hprompt⟩ := buildPrompt_ok pt
    (mkt.rows ++ (parts.map SectionOut.rows).flatten) (digestDate.getD today)
    hrowsall
  obtain ⟨highlights, hhl, -, -⟩ := listMapM_ok (tickersSorted tickers)
    (fun t => tickerJson cache now t (tickerLookup tl.1 t))
    (fun t ht => tickerJson_ok cache now t _ (hlook t ht).1)
  simp only [generateDailyDigest, htl, pymBindOk, hinfo, hsnap, hsmap,
    hthemes, hparts]
  rw [bindIfComm, hmktok, pymBindOk]
  simp only [hpt, pymBindOk, hprompt, hhl]
  refine ⟨_, rfl, ?_, ?_, ?_⟩
  · dsimp only
    simp only [List.mem_append]
    exact Or.inl (Or.inl (Or.inl (Or.inl (Or.inl (Or.inr hsnapmem)))))
  · dsimp only
    simp only [List.mem_append]
    exact Or.inl (Or.inr (List.Mem.head _))
  · intro t ht
    obtain ⟨out, houtm, hf⟩ := hfwd t ht
    obtain ⟨out', hout', hhdr, hml, hnl, -, -⟩ := tickerSection_ok cache now
      "Daily" "- Daily change: N/A (Missing recent price history)" scoreFmtD t
      (tickerLookup tl.1 t) (fun v hv => scoreFmtD_ok hv) (hlook t ht).1
      ((hwf t ht).2.2.2.2)
    obtain rfl : out' = out := Except.ok.inj (hout'.symm.trans hf)
    have hflat : ∀ x, x ∈ SectionOut.lines out' →
        x ∈ (parts.map SectionOut.lines).flatten := by
      intro x hx
      exact List.mem_flatten.mpr ⟨SectionOut.lines out',
        List.mem_map_of_mem SectionOut.lines houtm, hx⟩
    refine ⟨?_, ?_, ?_⟩
    · dsimp only
      exact List.mem_append.mpr (Or.inr (hflat _ hhdr))
    · intro hft
      dsimp only
      exact List.mem_append.mpr (Or.inr (hflat _ (hml ((hlook t ht).2.1 hft))))
    · intro hy hf2
      have hnil := (hlook t ht).2.2 hy hf2
      obtain ⟨h1, h2⟩ := hnl hnil
      exact ⟨List.mem_append.mpr (Or.inr (hflat _ h1)),
        List.mem_append.mpr (Or.inr (hflat _ h2))⟩

/-- A cache with a loosely-typed prices payload: a bare number instead of a
list of rows. -/
def c1BadCache : String → Val :=
  fun k => if k = "yahoo:prices:AAPL:5d:1d" then .num 5 else .none

/-- C1, counterexample. The spec says the aggregation core never raises
for data-quality reasons, for every cache content including loosely-typed
payloads. A numeric prices payload refutes this: `len(prices)`
(weekly.py line 215) raises `TypeError` and the weekly build aborts with
no artifacts. -/
theorem c1_loose_prices_payload_raises :
    generateWeeklyDigest c1BadCache ["AAPL"] ⟨2025, 1, 6⟩ 0 Option.none false =
      .error (.typeErr "object has no len") := by
  with_unfolding_all rfl

/-- C1, amended. The builders can raise on loosely-typed cache payloads
(see the counterexample above), but on well-shaped payloads — each
fundamentals entry a dict or falsy whose defaulted sector is a string, each
prices entry a list of dicts or falsy, each news entry a list of dicts
with hashable identity keys and string titles/urls/sources or falsy, each
sentiment payload's score absent or numeric — and with every computed
change inside `(-9999, 9999)`, both `generate_weekly_digest` and
`generate_daily_digest` complete without raising, produce all four
artifacts, give every ticker its section, and render missing prices and
news as the explicit placeholder lines. -/
theorem c1_digest_builders_total_on_wellshaped_cache
    (cache : String → Val) (tickers : List String) (today : Pdate)
    (digestDate : Option Pdate) (now : Int) (titleP : Option String)
    (inc : Bool)
    (hwf : ∀ t ∈ tickersSorted tickers, WFcacheFor cache t)
    (hmkt : WFnewsVal (cache "finnhub:market_news:general:0") = true)
    (hbW : ∀ t ∈ tickersSorted tickers, ∀ r, buildTickerRecW cache t = .ok r →
      ∀ c, r.change = some c → -9999 < c ∧ c < 9999)
    (hbD : ∀ t ∈ tickersSorted tickers, ∀ r,
      buildTickerRecD cache (digestDate.map dailyEndTime) now t = .ok r →
      ∀ c, r.change = some c → -9999 < c ∧ c < 9999) :
    (∃ a, generateWeeklyDigest cache tickers today now titleP inc = .ok a ∧
      "## Market Snapshot" ∈ a.mdLines ∧
      "## Ticker Highlights" ∈ a.mdLines ∧
      ∀ t ∈ tickersSorted tickers, ("### " ++ t) ∈ a.mdLines ∧
        ((cache ("yahoo:prices:" ++ t ++ ":5d:1d")).truthy = false →
          "- Weekly change: N/A (Missing 5d price history)" ∈ a.mdLines) ∧
        ((cache ("yahoo:news:" ++ t ++ ":latest")).truthy = false →
          (cache ("finnhub:news:" ++ t ++ ":latest")).truthy = false →
          "- Key headlines: N/A" ∈ a.mdLines ∧
          "- Risks/Catalysts: N/A" ∈ a.mdLines)) ∧
    (∃ a, generateDailyDigest cache tickers digestDate today now titleP inc =
        .ok a ∧
      "## Market Snapshot" ∈ a.mdLines ∧
      "## Ticker Highlights" ∈ a.mdLines ∧
      ∀ t ∈ tickersSorted tickers, ("### " ++ t) ∈ a.mdLines ∧
        ((cache ("yahoo:prices:" ++ t ++ ":5d:1d")).truthy = false →
          "- Daily change: N/A (Missing recent price history)" ∈ a.mdLines) ∧
        ((cache ("yahoo:news:" ++ t ++ ":latest")).truthy = false →
          (cache ("finnhub:news:" ++ t ++ ":latest")).truthy = false →
          "- Key headlines: N/A" ∈ a.mdLines ∧
          "- Risks/Catalysts: N/A" ∈ a.mdLines)) :=
  ⟨generateWeeklyDigest_ok cache tickers today now titleP inc hwf hmkt hbW,
   generateDailyDigest_ok cache tickers digestDate today now titleP inc
     hwf hmkt hbD⟩

/-- C1, witness: the all-absent cache (every entry `None`) with one
lowercase ticker builds both digests, with every placeholder present. -/
theorem c1_digest_builders_total_on_wellshaped_cache_witness :
    (∃ a, generateWeeklyDigest (fun _ => Val.none) ["aapl"] ⟨2025, 1, 6⟩ 0
        Option.none true = .ok a ∧
      "## Market Snapshot" ∈ a.mdLines ∧
      "## Ticker Highlights" ∈ a.mdLines ∧
      ∀ t ∈ tickersSorted ["aapl"], ("### " ++ t) ∈ a.mdLines ∧
        (((fun _ => Val.none) ("yahoo:prices:" ++ t ++ ":5d:1d") : Val).truthy
            = false →
          "- Weekly change: N/A (Missing 5d price history)" ∈ a.mdLines) ∧
        (((fun _ => Val.none) ("yahoo:news:" ++ t ++ ":latest") : Val).truthy
            = false →
          ((fun _ => Val.none) ("finnhub:news:" ++ t ++ ":latest") : Val).truthy
            = false →
          "- Key headlines: N/A" ∈ a.mdLines ∧
          "- Risks/Catalysts: N/A" ∈ a.mdLines)) ∧
    (∃ a, generateDailyDigest (fun _ => Val.none) ["aapl"] Option.none
        ⟨2025, 1, 6⟩ 0 Option.none true = .ok a ∧
      "## Market Snapshot" ∈ a.mdLines ∧
      "## Ticker Highlights" ∈ a.mdLines ∧
      ∀ t ∈ tickersSorted ["aapl"], ("### " ++ t) ∈ a.mdLines ∧
        (((fun _ => Val.none) ("yahoo:prices:" ++ t ++ ":5d:1d") : Val).truthy
            = false →
          "- Daily change: N/A (Missing recent price history)" ∈ a.mdLines) ∧
        (((fun _ => Val.none) ("yahoo:news:" ++ t ++ ":latest") : Val).truthy
            = false →
          ((fun _ => Val.none) ("finnhub:news:" ++ t ++ ":latest") : Val).truthy
            = false →
          "- Key headlines: N/A" ∈ a.mdLines ∧
          "- Risks/Catalysts: N/A" ∈ a.mdLines)) :=
  c1_digest_builders_total_on_wellshaped_cache (fun _ => Val.none) ["aapl"]
    ⟨2025, 1, 6⟩ Option.none 0 Option.none true
    (fun _ _ => ⟨rfl, rfl, rfl, rfl, rfl⟩) rfl
    (by
      intro t ht r hr c hc
      rw [show buildTickerRecW (fun _ => Val.none) t =
        .ok ⟨Val.dict [], Val.list [], Option.none, Val.none, Val.none, []⟩
        from rfl] at hr
      obtain rfl := Except.ok.inj hr
      exact Option.noConfusion hc)
    (by
      intro t ht r hr c hc
      rw [show buildTickerRecD (fun _ => Val.none)
        ((Option.none : Option Pdate).map dailyEndTime) 0 t =
        .ok ⟨Val.dict [], Val.list [], Option.none, Val.none, Val.none, []⟩
        from rfl] at hr
      obtain rfl := Except.ok.inj hr
      exact Option.noConfusion hc)
